import Mathlib

/-!
# Inventory management: maintenance logs, stock ledger, purchase orders and predictions

A shallow embedding of the request handlers of `index.js` and of the helpers of
`automationService.js` and `backupService.js`.  The relational store behind Prisma is a
record of tables (lists of rows, oldest first) with one auto-increment counter per
table.
A handler is a function from the store before the request to the store after it
and the HTTP response.

Conventions of the embedding:

* a JSON field that may be missing is an `Option`; JavaScript truthiness is
  `truthyStr` (non-empty string) and `truthyNum` (non-zero number);
* numeric request fields are numbers with an integer value; `parseInt` reads the string
  of the number, which is its decimal digits below 10^21 and exponent notation from
  there on;
* costs are IEEE-754 binary64 numbers (`Double`), and their products and sums are
  rounded to the nearest number, a tie going to the even one;
* an instant is a number of milliseconds since the epoch; the server's time zone is a
  `Zone`, which gives the offset of local time at an instant and the offset with which
  a local time is read back; `Math.ceil` and `Math.round` act on exact quotients;
* a plain object used as a map is the list of its own keys in the order of their
  creation; a key that names a member of `Object.prototype` finds that member, and
  `Object.entries` lists the keys that are array indices first;
* `generatePONumber()` is a parameter: the number it returns on each call;
* the Prisma schema is not among the sources: the action of a foreign key on the
  deletion of the row it refers to is a parameter (`OnDelete`);
* `prisma.$transaction` runs its body on the store and keeps the result only
  when the body does not throw;
* `update`/`delete` of a row that does not exist throws, as Prisma does, and an insert
  that repeats a unique value is rejected; where a handler writes outside a transaction
  and a later insert may be rejected for a reason outside the model (a locked
  database), the error is a parameter (`fault`) of the handler;
* `saveToGoogleSheet` and `console.log` have no effect on the store.
-/

namespace InventoryManagement

/-! ## JavaScript numbers -/

/-- The number of binary digits of `a`, counted with fuel `fuel`. -/
def bitLengthAux : Nat → Nat → Nat
  | 0, _ => 0
  | fuel + 1, a => if a = 0 then 0 else bitLengthAux fuel (a / 2) + 1

/-- The number of binary digits of `a`; 0 for 0. -/
def bitLength (a : Nat) : Nat := bitLengthAux a a

/-- Rounds the exact value `a * 2 ^ e` to the precision of an IEEE-754 binary64 number
(53 binary digits, least exponent -1074), a tie going to the even neighbour: the result
is `r.1 * 2 ^ r.2`. -/
def roundBinary64 (a : Nat) (e : Int) : Nat × Int :=
  let q : Int := max ((bitLength a : Int) + e - 53) (-1074)
  if q ≤ e then (a, e)
  else
    let s := (q - e).toNat
    let lo := a / 2 ^ s
    let r := a % 2 ^ s
    let half := 2 ^ (s - 1)
    (if half < r ∨ (r = half ∧ lo % 2 = 1) then lo + 1 else lo, q)

/-- Halves an even mantissa until it is odd, with fuel `fuel`. -/
def oddMantissa : Nat → Nat → Int → Nat × Int
  | 0, a, e => (a, e)
  | fuel + 1, a, e => if a % 2 = 0 ∧ a ≠ 0 then oddMantissa fuel (a / 2) (e + 1) else (a, e)

/-- A JavaScript number, an IEEE-754 binary64 value.  A finite value is `man * 2 ^ exp`
with `man` odd, or zero, written `finite 0 0`; the two zeros are not told apart. -/
inductive Double where
  /-- The finite value `man * 2 ^ exp`. -/
  | finite (man : Int) (exp : Int)
  /-- The value `Infinity`, or `-Infinity` when `negative`. -/
  | infinite (negative : Bool)
  /-- The value `NaN`. -/
  | nan
  deriving DecidableEq, Repr

/-- The number 0. -/
def Double.zero : Double := .finite 0 0

/-- The binary64 number nearest to the exact value `a * 2 ^ e`, negated when `negative`:
what an arithmetic operation with that exact result returns. -/
def Double.ofDyadic (negative : Bool) (a : Nat) (e : Int) : Double :=
  let r := roundBinary64 a e
  if r.1 = 0 then .zero
  else if (bitLength r.1 : Int) + r.2 > 1024 then .infinite negative
  else
    let n := oddMantissa r.1 r.1 r.2
    .finite (if negative then -(n.1 : Int) else n.1) n.2

/-- The number an integer becomes. -/
def Double.ofInt (n : Int) : Double := .ofDyadic (decide (n < 0)) n.natAbs 0

/-- The product `x * y` of two numbers. -/
def Double.mul : Double → Double → Double
  | .finite m₁ e₁, .finite m₂ e₂ =>
    .ofDyadic (decide (m₁ * m₂ < 0)) (m₁ * m₂).natAbs (e₁ + e₂)
  | .finite m _, .infinite n => if m = 0 then .nan else .infinite (decide (m < 0) != n)
  | .infinite n, .finite m _ => if m = 0 then .nan else .infinite (decide (m < 0) != n)
  | .infinite n₁, .infinite n₂ => .infinite (n₁ != n₂)
  | _, _ => .nan

/-- The sum `x + y` of two numbers. -/
def Double.add : Double → Double → Double
  | .finite m₁ e₁, .finite m₂ e₂ =>
    let e := min e₁ e₂
    let m := m₁ * 2 ^ (e₁ - e).toNat + m₂ * 2 ^ (e₂ - e).toNat
    .ofDyadic (decide (m < 0)) m.natAbs e
  | .finite _ _, .infinite n => .infinite n
  | .infinite n, .finite _ _ => .infinite n
  | .infinite n₁, .infinite n₂ => if n₁ = n₂ then .infinite n₁ else .nan
  | _, _ => .nan

/-- Truthiness of a number: 0 and `NaN` are falsy. -/
def Double.truthy : Double → Bool
  | .finite m _ => m != 0
  | .infinite _ => true
  | .nan => false

/-- The value of the binary64 number nearest to the natural number `n`. -/
def nearestDouble (n : Nat) : Nat :=
  let r := roundBinary64 n 0
  r.1 * 2 ^ r.2.toNat

/-- The number of decimal digits of `n`. -/
def decimalLength (n : Nat) : Nat := (toString n).length

/-- The digits of `Number.prototype.toString` for the integer-valued number `x`, as
an integer: the integer `s` with the fewest digits such that `s` followed by zeros reads
back as `x`, the one nearest to `x` when two do. -/
def shortestDigits (x : Nat) : Nat :=
  ((List.range 17).findSome? (fun i =>
    let p := 10 ^ (decimalLength x - (i + 1))
    let lo := x / p
    let hi := lo + 1
    let okLo := nearestDouble (lo * p) == x
    let okHi := nearestDouble (hi * p) == x
    if okLo && okHi then some (if x - lo * p ≤ hi * p - x then lo else hi)
    else if okLo then some lo
    else if okHi then some hi
    else none)).getD x

/-- Models `parseInt(r)` for a number with the integer value `r`.  Below 10^21 in
magnitude the string of the number is its decimal digits, which are read back; from
10^21 on the string is in exponent notation, as in '1.5e+21', and `parseInt` reads the
digit before the point. -/
def parseInt (r : Int) : Int :=
  if r.natAbs < 10 ^ 21 then r
  else
    let s := shortestDigits r.natAbs
    let d : Nat := s / 10 ^ (decimalLength s - 1)
    if r < 0 then -(d : Int) else d

/-! ## Tables -/

/-- Row of table `inventory`. -/
structure Inventory where
  id : Nat
  product_name : Option String := none
  qty : Int := 0
  min_qty : Option Int := none
  reorder_point : Option Int := none
  reorder_qty : Option Int := none
  supplier_name : Option String := none
  supplier_email : Option String := none
  last_ordered_date : Option Nat := none
  unit_cost : Option Double := none
  deriving DecidableEq, Repr

/-- Row of table `stock_movements`. -/
structure StockMovement where
  id : Nat
  product_id : Nat
  movement_type : String
  quantity : Int
  reference_type : String
  reference_id : Option Nat := none
  performed_by : Nat
  notes : Option String := none
  deriving DecidableEq, Repr

/-- Row of table `logs`. -/
structure Log where
  id : Nat
  engineer : String
  date_of_work : Option String := none
  area : Option String := none
  system : Option String := none
  component : Option String := none
  spare_part_used : Option String := none
  action : String
  product_id : Option Nat := none
  qty_used : Int := 0
  duration : Option Int := none
  work_status : Option String := none
  remarks : Option String := none
  deriving DecidableEq, Repr

/-- Row of table `audit_log`; `backup` is the deleted log kept in `changes`. -/
structure AuditLog where
  id : Nat
  user_id : Nat
  action : String
  table_name : String
  record_id : Option Nat := none
  backup : Option Log := none
  deriving DecidableEq, Repr

/-- Row of table `purchase_orders`. -/
structure PurchaseOrder where
  id : Nat
  po_number : String
  supplier_name : Option String := none
  status : String := "Draft"
  total_cost : Option Double := none
  notes : Option String := none
  deriving DecidableEq, Repr

/-- Row of table `po_items`. -/
structure POItem where
  id : Nat
  po_id : Nat
  product_id : Nat
  quantity : Int
  unit_cost : Option Double := none
  deriving DecidableEq, Repr

/-- The database: every table, oldest row first, and the next auto-increment ids; of
table `users` the ids. -/
structure Store where
  users : List Nat := []
  inventory : List Inventory := []
  stockMovements : List StockMovement := []
  logs : List Log := []
  auditLog : List AuditLog := []
  purchaseOrders : List PurchaseOrder := []
  poItems : List POItem := []
  nextMovementId : Nat := 1
  nextLogId : Nat := 1
  nextAuditId : Nat := 1
  nextPOId : Nat := 1
  nextPOItemId : Nat := 1
  nextInventoryId : Nat := 1
  deriving DecidableEq, Repr

/-- What a handler sends back. -/
inductive Response where
  /-- `res.json({ message, updatedStock })` of the maintenance hook. -/
  | stock (message : String) (updatedStock : Option Int)
  /-- `res.json({ message, changes })`. -/
  | changed (message : String) (changes : Nat)
  /-- `res.json({ message })`. -/
  | message (message : String)
  /-- `res.json({ message, id })`. -/
  | created (message : String) (id : Nat)
  /-- `res.status(code).json({ error })`. -/
  | fail (code : Nat) (error : String)
  deriving DecidableEq, Repr

/-! ## JavaScript helpers -/

/-- Truthiness of a value that is a string, `undefined` or `null`. -/
def truthyStr : Option String → Bool
  | some s => s != ""
  | none => false

/-- Truthiness of a value that is an integer number, `undefined` or `null`. -/
def truthyNum : Option Int → Bool
  | some n => n != 0
  | none => false

/-- Truthiness of a nullable integer key such as `log.product_id`. -/
def truthyId : Option Nat → Bool
  | some n => n != 0
  | none => false

/-- The characters of `s` before the first occurrence of `sep`: `s.split(sep)[0]`
for a non-empty `sep`. -/
def splitHead (sep : List Char) : List Char → List Char
  | [] => []
  | c :: cs => if sep.isPrefixOf (c :: cs) then [] else c :: splitHead sep cs

/-- Whether `needle` occurs in the text: `hay.includes(needle)`. -/
def includes (needle : List Char) : List Char → Bool
  | [] => needle.isEmpty
  | c :: cs => needle.isPrefixOf (c :: cs) || includes needle cs

deriving instance DecidableEq for Except

/-- The entries of the `data` of a response; there is none when the call threw. -/
def dataOf {α : Type} : Except String (List α) → List α
  | .ok l => l
  | .error _ => []

/-- The message of the error a call threw, if it threw. -/
def thrown {α : Type} : Except String α → Option String
  | .error e => some e
  | .ok _ => none

/-- The message of the error Prisma throws when the row to update or delete is
missing. -/
def recordNotFound : String := "Record to update not found."

/-! ## Store primitives (the Prisma calls the handlers make) -/

/-- Rolls the store back when the body throws: `prisma.$transaction(async tx => ...)`. -/
def transaction {α : Type} (body : Store → Except String (Store × α)) (s : Store) :
    Store × Except String α :=
  match body s with
  | .ok (s', a) => (s', .ok a)
  | .error e => (s, .error e)

/-- The row found by `inventory.findUnique({ where: { product_name } })`. -/
def findByName (s : Store) (name : String) : Option Inventory :=
  s.inventory.find? (fun r => r.product_name == some name)

/-- The row found by `inventory.findUnique({ where: { id } })`. -/
def findById (s : Store) (id : Nat) : Option Inventory :=
  s.inventory.find? (fun r => r.id == id)

/-- The quantity on hand of item `id`, when the item exists. -/
def qtyOf (s : Store) (id : Nat) : Option Int :=
  (findById s id).map (fun r => r.qty)

/-- Models `inventory.update({ where: { id }, data: { qty: { decrement: d } } })`. -/
def inventoryDecrement (id : Nat) (d : Int) (s : Store) : Except String Store :=
  if s.inventory.any (fun r => r.id == id) then
    .ok { s with inventory :=
      s.inventory.map (fun r => if r.id == id then { r with qty := r.qty - d } else r) }
  else .error recordNotFound

/-- Models `inventory.update({ where: { id }, data: { qty: { increment: d } } })`. -/
def inventoryIncrement (id : Nat) (d : Int) (s : Store) : Except String Store :=
  if s.inventory.any (fun r => r.id == id) then
    .ok { s with inventory :=
      s.inventory.map (fun r => if r.id == id then { r with qty := r.qty + d } else r) }
  else .error recordNotFound

/-- Models `stockMovement.create({ data })`: the row gets the next id. -/
def stockMovementCreate (product_id : Nat) (movement_type : String) (quantity : Int)
    (reference_type : String) (reference_id : Option Nat) (performed_by : Nat)
    (notes : Option String) (s : Store) : Store × StockMovement :=
  let m : StockMovement :=
    { id := s.nextMovementId, product_id := product_id, movement_type := movement_type,
      quantity := quantity, reference_type := reference_type, reference_id := reference_id,
      performed_by := performed_by, notes := notes }
  ({ s with stockMovements := s.stockMovements ++ [m], nextMovementId := s.nextMovementId + 1 }, m)

/-- Models `log.create({ data })`: the row gets the next id.  `fault` is the error
the store raises when it rejects the insert, `none` when it accepts it. -/
def logCreate (fault : Option String) (data : Log) (s : Store) : Except String (Store × Log) :=
  match fault with
  | some e => .error e
  | none =>
    let l : Log := { data with id := s.nextLogId }
    .ok ({ s with logs := s.logs ++ [l], nextLogId := s.nextLogId + 1 }, l)

/-- Models `log.delete({ where: { id } })`. -/
def logDelete (id : Nat) (s : Store) : Except String Store :=
  if s.logs.any (fun l => l.id == id) then
    .ok { s with logs := s.logs.filter (fun l => !(l.id == id)) }
  else .error recordNotFound

/-- Models `auditLog.create({ data })`. -/
def auditCreate (user_id : Nat) (action table_name : String) (record_id : Option Nat)
    (backup : Option Log) (s : Store) : Store :=
  { s with
    auditLog := s.auditLog ++
      [{ id := s.nextAuditId, user_id := user_id, action := action, table_name := table_name,
         record_id := record_id, backup := backup }],
    nextAuditId := s.nextAuditId + 1 }

/-- The helper `logAudit` of `authMiddleware.js`: one audit row, errors swallowed. -/
def logAudit (userId : Nat) (action tableName : String) (recordId : Option Nat) (s : Store) :
    Store :=
  auditCreate userId action tableName recordId none s

/-! ## Request bodies -/

/-- The body of `POST /api/maintenance`. -/
structure MaintenanceBody where
  engineer : Option String := none
  date : Option String := none
  area : Option String := none
  system : Option String := none
  component : Option String := none
  spare_part_used : Option String := none
  action : Option String := none
  quantity : Option Int := none
  duration : Option Int := none
  work_status : Option String := none
  remarks : Option String := none
  deriving DecidableEq, Repr

/-- The body of `PUT /api/logs/:id`; a string field that is `none` is left out of
the request and keeps the stored value. -/
structure LogBody where
  engineer : Option String := none
  date_of_work : Option String := none
  area : Option String := none
  system : Option String := none
  component : Option String := none
  action : Option String := none
  duration : Option Int := none
  work_status : Option String := none
  remarks : Option String := none
  spare_part_used : Option String := none
  qty_used : Int := 0
  deriving DecidableEq, Repr

/-- The body of `PUT /api/inventory/:id`; a string field that is `none` is left
out of the request and keeps the stored value.  The integer fields are what `parseInt`
gives for the fields of the request.  `unit_cost` is what
`parseFloat(unit_cost)` gives, `none` being the `NaN` of a request without it, which
the store keeps as `NULL`. -/
structure InventoryBody where
  product_name : Option String := none
  qty : Int
  min_qty : Int
  reorder_point : Int
  reorder_qty : Int
  supplier_name : Option String := none
  supplier_email : Option String := none
  unit_cost : Option Double := none
  deriving DecidableEq, Repr

/-! ## `automationService.js` -/

/-- The `WHERE` clause of `checkLowStock`:
`qty <= reorder_point AND (product_name IS NOT NULL AND product_name != '')`;
a comparison with `NULL` selects nothing. -/
def lowStockRow (r : Inventory) : Bool :=
  (match r.reorder_point with
   | some p => decide (r.qty ≤ p)
   | none => false) &&
  (match r.product_name with
   | some n => n != ""
   | none => false)

/-- The rows of `inventory` selected by `checkLowStock`, with the store after the query. -/
def checkLowStock (s : Store) : Store × List Inventory :=
  (s, s.inventory.filter lowStockRow)

/-- Creates one `stock_movements` row and returns `movement.id`. -/
def logStockMovement (productId : Nat) (movementType : String) (quantity : Int)
    (referenceType : String) (referenceId : Option Nat) (performedBy : Nat)
    (notes : Option String) (s : Store) : Store × Nat :=
  let r := stockMovementCreate productId movementType quantity referenceType referenceId
    performedBy notes s
  (r.1, r.2.id)

/-! ## `index.js`: maintenance hook -/

/-- The part name parsed from the display string:
`spare_part_used ? spare_part_used.split(' : (')[0] : null`. -/
def targetItemName (spare_part_used : Option String) : Option String :=
  if truthyStr spare_part_used then
    spare_part_used.map (fun s => String.mk (splitHead " : (".toList s.toList))
  else none

/-- The quantity deducted:
`let qtyUsed = quantity ? parseInt(quantity) : 0; if (qtyUsed <= 0) qtyUsed = 1;`. -/
def qtyUsed (quantity : Option Int) : Int :=
  let q : Int := if truthyNum quantity then parseInt (quantity.getD 0) else 0
  if q ≤ 0 then 1 else q

/-- The log row written by the maintenance hook, before the store numbers it. -/
def newLogData (body : MaintenanceBody) (product_id : Option Nat) (qty_used : Int) : Log :=
  { id := 0
    engineer := body.engineer.getD ""
    date_of_work := if truthyStr body.date then body.date else none
    area := body.area
    system := body.system
    component := body.component
    spare_part_used := body.spare_part_used
    action := body.action.getD ""
    product_id := product_id
    qty_used := qty_used
    duration := body.duration
    work_status := body.work_status
    remarks := body.remarks }

/-- The body of the transaction of the "Replaced" branch: look the part up, decrement
it, record the OUT movement, insert the log.  Returns the new log and `updatedStock`. -/
def maintenanceTx (user : Nat) (body : MaintenanceBody) (name : String)
    (fault : Option String) (tx : Store) : Except String (Store × (Log × Int)) :=
  match findByName tx name with
  | none => .error ("Spare part not found in inventory: " ++ name)
  | some item =>
    let productId := item.id
    let q := qtyUsed body.quantity
    match inventoryDecrement productId q tx with
    | .error e => .error e
    | .ok tx1 =>
      let tx2 := (stockMovementCreate productId "OUT" q "MAINTENANCE" none user
        (some ("Maintenance: " ++ body.action.getD "")) tx1).1
      match logCreate fault (newLogData body (some productId) q) tx2 with
      | .error e => .error e
      | .ok (tx3, newLog) => .ok (tx3, (newLog, item.qty - q))

/-- The handler `app.post('/api/maintenance')` for the authenticated user `user`;
`fault` is the error of a rejected log insert, if the store rejects it.  `logAudit`
writes through the global client once the log exists, so its row is not part of the
transaction. -/
def postMaintenance (user : Nat) (body : MaintenanceBody) (fault : Option String)
    (s : Store) : Store × Response :=
  if !truthyStr body.engineer || !truthyStr body.action then
    (s, .fail 400 "Missing required fields")
  else
    let name := targetItemName body.spare_part_used
    if body.action == some "Replaced" && truthyStr name then
      match transaction (maintenanceTx user body (name.getD "") fault) s with
      | (s', .ok (newLog, updatedStock)) =>
        (logAudit user "CREATE" "logs" (some newLog.id) s',
          .stock "Maintenance Logged & Stock Updated" (some updatedStock))
      | (s', .error msg) =>
        if includes "Spare part not found".toList msg.toList then (s', .fail 404 msg)
        else (s', .fail 500 msg)
    else
      match logCreate fault (newLogData body none 0) s with
      | .ok (s', newLog) =>
        (logAudit user "CREATE" "logs" (some newLog.id) s', .stock "Log Saved" none)
      | .error msg =>
        if includes "Spare part not found".toList msg.toList then (s, .fail 404 msg)
        else (s, .fail 500 msg)

/-! ## `index.js`: maintenance logs -/

/-- The condition under which deleting a log restores stock:
`log.product_id && log.qty_used > 0 && log.action === 'Replaced'`. -/
def reversesStock (log : Log) : Bool :=
  truthyId log.product_id && decide (log.qty_used > 0) && log.action == "Replaced"

/-- The body of the transaction of `app.delete('/api/logs/:id')`. -/
def deleteLogTx (user id : Nat) (log : Log) (tx : Store) : Except String (Store × Unit) :=
  let restored : Except String Store :=
    if reversesStock log then
      match inventoryIncrement (log.product_id.getD 0) log.qty_used tx with
      | .error e => .error e
      | .ok tx1 =>
        .ok (stockMovementCreate (log.product_id.getD 0) "IN" log.qty_used
          "Maintenance Correction" (some log.id) user
          (some ("Stock restored due to deletion of Log #" ++ toString id)) tx1).1
    else .ok tx
  match restored with
  | .error e => .error e
  | .ok tx2 =>
    match logDelete id tx2 with
    | .error e => .error e
    | .ok tx3 => .ok (auditCreate user "DELETE" "logs" (some id) (some log) tx3, ())

/-- The handler `app.delete('/api/logs/:id')`. -/
def deleteLog (user id : Nat) (s : Store) : Store × Response :=
  match s.logs.find? (fun l => l.id == id) with
  | none => (s, .fail 404 "Log not found")
  | some log =>
    match transaction (deleteLogTx user id log) s with
    | (s', .ok _) => (s', .changed "Log deleted and stock restored if applicable" 1)
    | (s', .error msg) => (s', .fail 500 msg)

/-- The fields `log.update` writes onto the addressed row. -/
def updatedLog (body : LogBody) (l : Log) : Log :=
  { l with
    engineer := body.engineer.getD l.engineer
    date_of_work := if truthyStr body.date_of_work then body.date_of_work else none
    area := body.area.orElse (fun _ => l.area)
    system := body.system.orElse (fun _ => l.system)
    component := body.component.orElse (fun _ => l.component)
    action := body.action.getD l.action
    duration := body.duration
    work_status := body.work_status.orElse (fun _ => l.work_status)
    remarks := body.remarks.orElse (fun _ => l.remarks)
    spare_part_used := body.spare_part_used.orElse (fun _ => l.spare_part_used)
    qty_used := body.qty_used }

/-- The handler `app.put('/api/logs/:id')`. -/
def putLog (user id : Nat) (body : LogBody) (s : Store) : Store × Response :=
  if s.logs.any (fun l => l.id == id) then
    (logAudit user "UPDATE" "logs" (some id)
      { s with logs := s.logs.map (fun l => if l.id == id then updatedLog body l else l) },
      .changed "Log updated" 1)
  else (s, .fail 500 recordNotFound)

/-! ## `index.js`: inventory and purchase orders -/

/-- The message of the error Prisma throws when an insert or update would repeat a
value of a unique column. -/
def uniqueViolation : String := "Unique constraint failed on the fields: (product_name)"

/-- The magnitude of the difference: `Math.abs(diff)`. -/
def mathAbs (diff : Int) : Int := if diff < 0 then -diff else diff

/-- The fields `inventory.update` writes onto the addressed row. -/
def updatedItem (body : InventoryBody) (r : Inventory) : Inventory :=
  { r with
    product_name := body.product_name.orElse (fun _ => r.product_name)
    qty := body.qty
    min_qty := some body.min_qty
    reorder_point := some body.reorder_point
    reorder_qty := some body.reorder_qty
    supplier_name := body.supplier_name.orElse (fun _ => r.supplier_name)
    supplier_email := body.supplier_email.orElse (fun _ => r.supplier_email)
    unit_cost := body.unit_cost }

/-- The body of `POST /api/inventory`. -/
structure NewItemBody where
  product_name : Option String := none
  qty : Int
  min_qty : Option Int := none
  reorder_point : Option Int := none
  reorder_qty : Option Int := none
  supplier_name : Option String := none
  supplier_email : Option String := none
  unit_cost : Option Double := none
  deriving DecidableEq, Repr

/-- The handler `app.post('/api/inventory')`: the row is created with the given
quantity, then `logStockMovement` records an INITIAL movement of the quantity as it
came in the request.  The two writes are not in a transaction: when the insert of the
movement is rejected with the error `fault`, `logStockMovement` throws it on and the
answer is 500, the new row staying. -/
def postInventory (user : Nat) (body : NewItemBody) (fault : Option String) (s : Store) :
    Store × Response :=
  if body.product_name.isSome &&
      s.inventory.any (fun r => r.product_name == body.product_name) then
    (s, .fail 500 uniqueViolation)
  else
    let newItem : Inventory :=
      { id := s.nextInventoryId
        product_name := body.product_name
        qty := body.qty
        min_qty := some (if truthyNum body.min_qty then body.min_qty.getD 0 else 10)
        reorder_point :=
          some (if truthyNum body.reorder_point then body.reorder_point.getD 0 else 10)
        reorder_qty := some (if truthyNum body.reorder_qty then body.reorder_qty.getD 0 else 20)
        supplier_name := body.supplier_name
        supplier_email := body.supplier_email
        unit_cost := body.unit_cost }
    let s1 : Store :=
      { s with
        inventory := s.inventory ++ [newItem]
        nextInventoryId := s.nextInventoryId + 1 }
    let s2 := logAudit user "CREATE" "inventory" (some newItem.id) s1
    match fault with
    | some e => (s2, .fail 500 e)
    | none =>
      ((logStockMovement newItem.id "IN" body.qty "INITIAL" none user
        (some "Initial stock") s2).1, .created "Item added" newItem.id)

/-- The handler `app.put('/api/inventory/:id')`: the row is overwritten, then a
changed quantity is logged as an ADJUSTMENT movement of the difference.  The two
writes are not in a transaction: when the insert of the movement is rejected with the
error `fault`, `logStockMovement` throws it on and the answer is 500, the row staying
overwritten. -/
def putInventory (user id : Nat) (body : InventoryBody) (fault : Option String) (s : Store) :
    Store × Response :=
  match findById s id with
  | none => (s, .fail 404 "Item not found")
  | some oldRow =>
    if body.product_name.isSome &&
        s.inventory.any (fun r => r.id != id && r.product_name == body.product_name) then
      (s, .fail 500 uniqueViolation)
    else
      let s1 : Store :=
        { s with
          inventory := s.inventory.map (fun r => if r.id == id then updatedItem body r else r) }
      if oldRow.qty != body.qty then
        let diff := body.qty - oldRow.qty
        let movementType := if diff > 0 then "IN" else "OUT"
        match fault with
        | some e => (s1, .fail 500 e)
        | none =>
          (logAudit user "UPDATE" "inventory" (some id)
            (logStockMovement id movementType (mathAbs diff) "ADJUSTMENT" none user
              (some "Manual adjustment") s1).1, .changed "Item updated" 1)
      else (logAudit user "UPDATE" "inventory" (some id) s1, .changed "Item updated" 1)

/-- One turn of the loop of the receipt: the product's quantity is incremented and
its `last_ordered_date` set, then an IN movement is recorded. -/
def receiveItem (user poId now : Nat) (item : POItem) (tx : Store) : Except String Store :=
  if tx.inventory.any (fun r => r.id == item.product_id) then
    let tx1 : Store :=
      { tx with
        inventory := tx.inventory.map (fun r =>
          if r.id == item.product_id then
            { r with qty := r.qty + item.quantity, last_ordered_date := some now }
          else r) }
    .ok (stockMovementCreate item.product_id "IN" item.quantity "PO" (some poId) user
      (some ("Received from PO-" ++ toString poId)) tx1).1
  else .error recordNotFound

/-- The loop `for (const item of items)` of the receipt; the first failure ends it. -/
def receiveItems (user poId now : Nat) : List POItem → Store → Except String Store
  | [], tx => .ok tx
  | item :: rest, tx =>
    match receiveItem user poId now item tx with
    | .error e => .error e
    | .ok tx1 => receiveItems user poId now rest tx1

/-- Models `purchaseOrder.update({ where: { id }, data: { status } })`. -/
def purchaseOrderSetStatus (id : Nat) (status : String) (s : Store) : Except String Store :=
  if s.purchaseOrders.any (fun po => po.id == id) then
    .ok { s with purchaseOrders :=
      s.purchaseOrders.map (fun po => if po.id == id then { po with status := status } else po) }
  else .error recordNotFound

/-- The body of the transaction of the receipt. -/
def receiveTx (user poId now : Nat) (items : List POItem) (tx : Store) :
    Except String (Store × Unit) :=
  match receiveItems user poId now items tx with
  | .error e => .error e
  | .ok tx1 =>
    match purchaseOrderSetStatus poId "Received" tx1 with
    | .error e => .error e
    | .ok tx2 => .ok (tx2, ())

/-- The handler `app.post('/api/purchase-orders/:id/receive')` at time `now`. -/
def receivePurchaseOrder (user poId now : Nat) (s : Store) : Store × Response :=
  let items := s.poItems.filter (fun it => it.po_id == poId)
  if items.isEmpty then (s, .fail 400 "PO has no items")
  else
    match transaction (receiveTx user poId now items) s with
    | (s', .ok _) =>
      (logAudit user "RECEIVE_PO" "purchase_orders" (some poId) s',
        .message "PO received, inventory updated")
    | (s', .error msg) => (s', .fail 500 msg)

/-! ## Sequences of stock-affecting requests -/

/-- The requests that change a quantity on hand. -/
inductive StockOp where
  /-- `POST /api/maintenance`. -/
  | maintenance (user : Nat) (body : MaintenanceBody) (fault : Option String)
  /-- `DELETE /api/logs/:id`. -/
  | deleteLog (user id : Nat)
  /-- `POST /api/purchase-orders/:id/receive`. -/
  | receive (user poId now : Nat)
  /-- `PUT /api/inventory/:id`; `fault` is the error of a rejected ledger insert. -/
  | update (user id : Nat) (body : InventoryBody) (fault : Option String)

/-- The store after one request. -/
def StockOp.apply : StockOp → Store → Store
  | .maintenance user body fault, s => (postMaintenance user body fault s).1
  | .deleteLog user id, s => (InventoryManagement.deleteLog user id s).1
  | .receive user poId now, s => (receivePurchaseOrder user poId now s).1
  | .update user id body fault, s => (putInventory user id body fault s).1

/-- The store after a sequence of requests, served one after the other. -/
def runOps : List StockOp → Store → Store
  | [], s => s
  | op :: ops, s => runOps ops (op.apply s)

/-- The store accepts the insert into the ledger that a manual update makes outside a
transaction. -/
def StockOp.ledgerAccepts : StockOp → Bool
  | .update _ _ _ (some _) => false
  | _ => true

/-- The sum of the quantities of the IN movements of product `id`. -/
def sumIn (id : Nat) : List StockMovement → Int
  | [] => 0
  | m :: ms =>
    (if m.product_id == id && m.movement_type == "IN" then m.quantity else 0) + sumIn id ms

/-- The sum of the quantities of the OUT movements of product `id`. -/
def sumOut (id : Nat) : List StockMovement → Int
  | [] => 0
  | m :: ms =>
    (if m.product_id == id && m.movement_type == "OUT" then m.quantity else 0) + sumOut id ms

/-- The movements a request sequence added: the ledger after it without the rows
that were there before. -/
def appended (before after : Store) : List StockMovement :=
  after.stockMovements.drop before.stockMovements.length

/-- A request conserves stock when it only appends movements and every quantity
moves by the IN total minus the OUT total of the movements appended for it. -/
def Conserves (s s' : Store) : Prop :=
  ∃ ms, s'.stockMovements = s.stockMovements ++ ms ∧
    ∀ i, qtyOf s' i = (qtyOf s i).map (fun q => q + sumIn i ms - sumOut i ms)

/-- A request appends only movements of kind `P` when the ledger after it is the ledger
before it followed by rows that all satisfy `P`. -/
def Appends (P : StockMovement → Prop) (s s' : Store) : Prop :=
  ∃ ms, s'.stockMovements = s.stockMovements ++ ms ∧ ∀ m ∈ ms, P m

/-! ## Grouping on a plain object -/

/-- The names of the members of `Object.prototype`.  A plain object `{}` answers a
lookup of one of them with the inherited member although it has no key of its own. -/
def prototypeKeys : List String :=
  ["constructor", "__defineGetter__", "__defineSetter__", "hasOwnProperty",
    "__lookupGetter__", "__lookupSetter__", "isPrototypeOf", "propertyIsEnumerable",
    "toString", "valueOf", "__proto__", "toLocaleString"]

/-- The message of the `TypeError` of `receiver.push(x)` when `receiver` is not an
array. -/
def notAFunction (receiver : String) : String := receiver ++ ".push is not a function"

/-- Models `if (!groups[key]) groups[key] = []; groups[key].push(x)` on a plain object
`groups`, given as its own keys in the order of their creation; `receiver` is the text of
`groups[key]` in the source.  For a key that names a member of `Object.prototype` the
lookup finds the inherited member, which is truthy and has no `push`: a `TypeError`. -/
def pushTo {α : Type} (receiver : String) (groups : List (String × List α)) (key : String)
    (x : α) : Except String (List (String × List α)) :=
  if groups.any (fun g => g.1 == key) then
    .ok (groups.map (fun g => if g.1 == key then (g.1, g.2 ++ [x]) else g))
  else if prototypeKeys.contains key then .error (notAFunction receiver)
  else .ok (groups ++ [(key, [x])])

/-- The loop `list.forEach(x => { if (!val(x)) return; ...push... })` that fills the
plain object `groups`: an element without value is skipped, and the first `TypeError`
ends the loop. -/
def forEachInto {α β : Type} (receiver : String) (key : β → String) (val : β → Option α) :
    List β → List (String × List α) → Except String (List (String × List α))
  | [], groups => .ok groups
  | x :: xs, groups =>
    match val x with
    | none => forEachInto receiver key val xs groups
    | some v =>
      match pushTo receiver groups (key x) v with
      | .error e => .error e
      | .ok groups1 => forEachInto receiver key val xs groups1

/-- The number a list of decimal digits writes, if the characters are all digits. -/
def digitsValue (cs : List Char) : Option Nat :=
  cs.foldl (fun acc c =>
    match acc with
    | some n => if c.isDigit then some (n * 10 + (c.toNat - 48)) else none
    | none => none) (some 0)

/-- The array index a key is, if it is one: the canonical decimal string, without
leading zero, of an integer from 0 to 2^32 - 2. -/
def arrayIndex (key : String) : Option Nat :=
  match key.toList with
  | [] => none
  | ['0'] => some 0
  | '0' :: _ => none
  | cs =>
    match digitsValue cs with
    | some n => if n < 2 ^ 32 - 1 then some n else none
    | none => none

/-- Models `Object.entries(groups)`: the keys that are array indices come first, in
ascending numeric order, then the other keys in the order of their creation. -/
def objectEntries {α : Type} (groups : List (String × List α)) : List (String × List α) :=
  (groups.filter (fun g => (arrayIndex g.1).isSome)).insertionSort
      (fun a b => (arrayIndex a.1).getD 0 ≤ (arrayIndex b.1).getD 0) ++
    groups.filter (fun g => !(arrayIndex g.1).isSome)

/-! ## `automationService.js`: purchase-order generation -/

/-- The bucket of an item: `item.supplier_name || 'Unknown Supplier'`. -/
def supplierOf (item : Inventory) : String :=
  if truthyStr item.supplier_name then item.supplier_name.getD "" else "Unknown Supplier"

/-- The object `itemsBySupplier` after the `forEach`, as its own keys in the order of
their creation, or the `TypeError` the `forEach` throws. -/
def itemsBySupplier (lowStockItems : List Inventory) :
    Except String (List (String × List Inventory)) :=
  forEachInto "itemsBySupplier[supplier]" supplierOf (fun item => some item) lowStockItems []

/-- The quantity ordered of an item: `item.reorder_qty || 20`. -/
def orderQty (item : Inventory) : Int :=
  if truthyNum item.reorder_qty then item.reorder_qty.getD 0 else 20

/-- The unit cost used for an item: `item.unit_cost || 0`. -/
def unitCost (item : Inventory) : Double :=
  match item.unit_cost with
  | some c => if c.truthy then c else .zero
  | none => .zero

/-- The cost of a group:
`items.reduce((sum, item) => sum + (item.unit_cost || 0) * (item.reorder_qty || 20), 0)`,
in the arithmetic of numbers. -/
def totalCost (items : List Inventory) : Double :=
  items.foldl (fun sum item => sum.add ((unitCost item).mul (.ofInt (orderQty item)))) .zero

/-- The message of the error Prisma throws when a `po_number` is already taken. -/
def poNumberTaken : String := "Unique constraint failed on the fields: (po_number)"

/-- The `po_items` rows of the nested `items: { create: ... }`, numbered from `firstId`. -/
def poItemRows (poId : Nat) : Nat → List Inventory → List POItem
  | _, [] => []
  | firstId, item :: rest =>
    { id := firstId, po_id := poId, product_id := item.id, quantity := orderQty item,
      unit_cost := some (unitCost item) } :: poItemRows poId (firstId + 1) rest

/-- Models `purchaseOrder.create({ data: { ..., status: 'Draft', items: { create } } })`:
one `purchase_orders` row and one `po_items` row per item; `po_number` is unique. -/
def purchaseOrderCreate (po_number supplier_name : String) (total_cost : Double)
    (notes : String) (items : List Inventory) (s : Store) : Except String Store :=
  if s.purchaseOrders.any (fun po => po.po_number == po_number) then .error poNumberTaken
  else
    .ok { s with
      purchaseOrders := s.purchaseOrders ++
        [{ id := s.nextPOId, po_number := po_number, supplier_name := some supplier_name,
           status := "Draft", total_cost := some total_cost, notes := some notes }]
      poItems := s.poItems ++ poItemRows s.nextPOId s.nextPOItemId items
      nextPOId := s.nextPOId + 1
      nextPOItemId := s.nextPOItemId + items.length }

/-- A line of an entry of `createdPOs`. -/
structure CreatedLine where
  product_name : Option String
  quantity : Int
  unit_cost : Double
  deriving DecidableEq, Repr

/-- An entry of `createdPOs`, the summary mailed for a purchase order. -/
structure CreatedPO where
  poNumber : String
  supplier : String
  supplierEmail : String
  itemCount : Nat
  totalCost : Double
  items : List CreatedLine
  deriving DecidableEq, Repr

/-- The entry pushed onto `createdPOs` for a group. -/
def createdPO (poNumber supplier : String) (items : List Inventory) : CreatedPO :=
  { poNumber := poNumber
    supplier := supplier
    supplierEmail :=
      match items.head? with
      | some first => if truthyStr first.supplier_email then first.supplier_email.getD "" else ""
      | none => ""
    itemCount := items.length
    totalCost := totalCost items
    items := items.map (fun i =>
      { product_name := i.product_name, quantity := orderQty i, unit_cost := unitCost i }) }

/-- The loop `for (const [supplier, items] of Object.entries(itemsBySupplier))` over the
entries; `poNumber k` is the number `generatePONumber()` returns on its call number `k`.
A rejected insert ends the loop with the error, the orders created before it staying. -/
def createPOs (poNumber : Nat → String) :
    Nat → List (String × List Inventory) → Store → List CreatedPO →
      Store × Except String (List CreatedPO)
  | _, [], s, created => (s, .ok created)
  | k, (supplier, items) :: rest, s, created =>
    match purchaseOrderCreate (poNumber k) supplier (totalCost items)
        ("Generated for " ++ toString items.length ++ " low stock items") items s with
    | .error e => (s, .error e)
    | .ok s1 =>
      createPOs poNumber (k + 1) rest s1 (created ++ [createdPO (poNumber k) supplier items])

/-- What `autoGeneratePurchaseOrders` returns. -/
inductive ReorderResult where
  /-- `{ message: 'No items need reordering', items: [] }`. -/
  | nothing
  /-- `{ message: 'Purchase orders generated', pos: createdPOs }`. -/
  | generated (pos : List CreatedPO)
  deriving DecidableEq, Repr

/-- The function `autoGeneratePurchaseOrders`; the confirmation mails do not touch the
store, and an error is thrown on to the caller. -/
def autoGeneratePurchaseOrders (poNumber : Nat → String) (s : Store) :
    Store × Except String ReorderResult :=
  let lowStockItems := (checkLowStock s).2
  if lowStockItems.isEmpty then (s, .ok .nothing)
  else
    match itemsBySupplier lowStockItems with
    | .error e => (s, .error e)
    | .ok groups =>
      match createPOs poNumber 0 (objectEntries groups) s [] with
      | (s', .ok created) => (s', .ok (.generated created))
      | (s', .error e) => (s', .error e)

/-- The handler `app.post('/api/automation/trigger-reorder')`: the orders are
generated, then the audit trail records the run; an error thrown on the way is
answered with status 500. -/
def triggerReorder (user : Nat) (poNumber : Nat → String) (s : Store) :
    Store × Except String ReorderResult :=
  match autoGeneratePurchaseOrders poNumber s with
  | (s', .ok result) => (logAudit user "AUTO_REORDER" "purchase_orders" none s', .ok result)
  | (s', .error e) => (s', .error e)

/-! ## `index.js`: deletions, and `backupService.js` -/

/-- The referential action of the foreign keys that point at a deleted row.  The Prisma
schema that declares it is not among the sources, so it is a parameter; the tables of
`migrate.js` declare their keys without `ON DELETE`, which is `noAction`. -/
inductive OnDelete where
  /-- The deletion of a row that is referenced is rejected. -/
  | noAction
  /-- The rows that reference the deleted row are deleted with it. -/
  | cascade
  deriving DecidableEq, Repr

/-- The message of the error Prisma throws when a foreign key forbids a deletion. -/
def foreignKeyViolation : String := "Foreign key constraint failed"

/-- The handler `app.delete('/api/inventory/:id')`.  The tables `stock_movements` and
`po_items` reference `inventory(id)`. -/
def deleteInventory (onDelete : OnDelete) (user id : Nat) (s : Store) : Store × Response :=
  match findById s id with
  | none => (s, .fail 404 "Item not found")
  | some _ =>
    match onDelete with
    | .noAction =>
      if s.stockMovements.any (fun m => m.product_id == id) ||
          s.poItems.any (fun it => it.product_id == id) then
        (s, .fail 500 foreignKeyViolation)
      else
        (logAudit user "DELETE" "inventory" (some id)
          { s with inventory := s.inventory.filter (fun r => !(r.id == id)) },
          .changed "Item deleted" 1)
    | .cascade =>
      (logAudit user "DELETE" "inventory" (some id)
        { s with
          inventory := s.inventory.filter (fun r => !(r.id == id))
          stockMovements := s.stockMovements.filter (fun m => !(m.product_id == id))
          poItems := s.poItems.filter (fun it => !(it.product_id == id)) },
        .changed "Item deleted" 1)

/-- The handler `app.delete('/api/users/:id')` for the authenticated user `user`.  The
tables `stock_movements` (`performed_by`) and `audit_log` (`user_id`) reference
`users(id)`. -/
def deleteUser (onDelete : OnDelete) (user userId : Nat) (s : Store) : Store × Response :=
  if user == userId then (s, .fail 400 "You cannot delete your own account.")
  else if !s.users.contains userId then (s, .fail 404 "User not found")
  else
    match onDelete with
    | .noAction =>
      if s.stockMovements.any (fun m => m.performed_by == userId) ||
          s.auditLog.any (fun a => a.user_id == userId) then
        (s, .fail 500 "Failed to delete user")
      else
        (logAudit user "DELETE_USER" "users" (some userId)
          { s with users := s.users.filter (fun u => !(u == userId)) },
          .message "User deleted successfully")
    | .cascade =>
      (logAudit user "DELETE_USER" "users" (some userId)
        { s with
          users := s.users.filter (fun u => !(u == userId))
          stockMovements := s.stockMovements.filter (fun m => !(m.performed_by == userId))
          auditLog := s.auditLog.filter (fun a => !(a.user_id == userId)) },
        .message "User deleted successfully")

/-- The function `restoreBackup` behind `POST /api/backup/restore`: `backup` is the
database the named file holds, `none` when there is no such file.  The file is copied
over the database, which is then the database of the backup. -/
def restoreBackup (backup : Option Store) (s : Store) : Store × Response :=
  match backup with
  | none => (s, .fail 500 "Restore failed")
  | some b => (b, .message "Database restored")

/-- The function `createBackup` behind `POST /api/backup/create`: the database file is
copied and the database stays as it is. -/
def createBackup (s : Store) : Store × Response :=
  (s, .message "Backup created")

/-! ## The requests of the model -/

/-- The requests of the model: those that write `inventory`, `logs` or
`stock_movements`, that delete a row these tables refer to, or that replace the
database, and the low-stock read.  The other endpoints (login, logout, creation of a
user, manual creation of a purchase order, the lists and reports, the mail test and the
QR decoder) leave `inventory`, `logs` and `stock_movements` as they are. -/
inductive Request where
  /-- A request that changes a quantity on hand. -/
  | stock (op : StockOp)
  /-- `DELETE /api/inventory/:id`, under the referential action `onDelete`. -/
  | deleteItem (onDelete : OnDelete) (user id : Nat)
  /-- `DELETE /api/users/:id`, under the referential action `onDelete`. -/
  | deleteUser (onDelete : OnDelete) (user userId : Nat)
  /-- `POST /api/backup/create`. -/
  | backup
  /-- `POST /api/backup/restore`, with the database the named file holds. -/
  | restore (saved : Option Store)
  /-- `POST /api/inventory`; `fault` is the error of a rejected ledger insert. -/
  | createItem (user : Nat) (body : NewItemBody) (fault : Option String)
  /-- `PUT /api/logs/:id`. -/
  | updateLog (user id : Nat) (body : LogBody)
  /-- `GET /api/inventory/low-stock`. -/
  | lowStock
  /-- `POST /api/automation/trigger-reorder`, with the order numbers it draws. -/
  | reorder (user : Nat) (poNumber : Nat → String)

/-- The store after one request. -/
def Request.apply : Request → Store → Store
  | .stock op, s => op.apply s
  | .deleteItem onDelete user id, s => (deleteInventory onDelete user id s).1
  | .deleteUser onDelete user userId, s => (InventoryManagement.deleteUser onDelete user userId s).1
  | .backup, s => (createBackup s).1
  | .restore saved, s => (restoreBackup saved s).1
  | .createItem user body fault, s => (postInventory user body fault s).1
  | .updateLog user id body, s => (putLog user id body s).1
  | .lowStock, s => (checkLowStock s).1
  | .reorder user poNumber, s => (triggerReorder user poNumber s).1

/-- The store after a sequence of requests, served one after the other. -/
def runRequests : List Request → Store → Store
  | [], s => s
  | req :: reqs, s => runRequests reqs (req.apply s)

/-- The request is neither the restore of a backup nor a deletion under a cascading
foreign key. -/
def Request.keepsLedger : Request → Bool
  | .restore _ => false
  | .deleteItem .cascade _ _ => false
  | .deleteUser .cascade _ _ => false
  | _ => true

/-! ## Specification predicates for purchase-order generation -/

/-- Adds the value `x` to the group of `key`, a new last group when there is none. -/
def addTo {α : Type} (groups : List (String × List α)) (key : String) (x : α) :
    List (String × List α) :=
  if groups.any (fun g => g.1 == key) then
    groups.map (fun g => if g.1 == key then (g.1, g.2 ++ [x]) else g)
  else groups ++ [(key, [x])]

/-- The entries `gs` group the values of `pre` by key: keys are distinct, the group of
a key holds the values of the elements of `pre` with that key, in order, and every
element of `pre` has its key among the entries. -/
def Grouped {α β : Type} (key : β → String) (val : β → α) (pre : List β)
    (gs : List (String × List α)) : Prop :=
  (gs.map Prod.fst).Nodup ∧
    (∀ g ∈ gs, g.2 = (pre.filter (fun x => key x == g.1)).map val ∧ g.2 ≠ []) ∧
    (∀ x ∈ pre, key x ∈ gs.map Prod.fst) ∧
    (gs.map (fun g => g.2.length)).sum = pre.length

/-- The quantity a line orders of `item`: its `reorder_qty`, or 20 when that is absent
or 0. -/
def lineQuantity (item : Inventory) : Int :=
  match item.reorder_qty with
  | some n => if n = 0 then 20 else n
  | none => 20

/-- The unit cost a line carries for `item`: its `unit_cost`, or 0 when that is absent,
0 or not a number. -/
def lineCost (item : Inventory) : Double :=
  match item.unit_cost with
  | some (.finite m e) => if m = 0 then .finite 0 0 else .finite m e
  | some (.infinite n) => .infinite n
  | _ => .finite 0 0

/-- The sum of cost times quantity over the pairs of `lines`, added up from 0 in the
order of the list, each product and each sum rounded as numbers are. -/
def sumOfProducts (lines : List (Double × Int)) : Double :=
  lines.foldl (fun sum l => sum.add (l.1.mul (.ofInt l.2))) (.finite 0 0)

/-- The `po_items` row `it` is the line ordered for `item`. -/
def LineOf (item : Inventory) (it : POItem) : Prop :=
  it.product_id = item.id ∧ it.quantity = lineQuantity item ∧
    it.unit_cost = some (lineCost item)

/-- The rows of a generated order match its group: supplier, status, cost, and one
item row per member of the group, in order, pointing at the order. -/
def RowOf (g : String × List Inventory) (r : PurchaseOrder × List POItem) : Prop :=
  r.1.supplier_name = some g.1 ∧ r.1.status = "Draft" ∧
    r.1.total_cost =
      some (sumOfProducts (g.2.map (fun i => (lineCost i, lineQuantity i)))) ∧
    List.Forall₂ LineOf g.2 r.2 ∧ ∀ it ∈ r.2, it.po_id = r.1.id

/-- The numbers drawn for the next `n` orders, from call `k` on, are taken by no
existing order and differ from one another. -/
def FreshNumbers (poNumber : Nat → String) (k n : Nat) (s : Store) : Prop :=
  (∀ j < n, ∀ po ∈ s.purchaseOrders, po.po_number ≠ poNumber (k + j)) ∧
    ∀ j < n, ∀ i < j, poNumber (k + i) ≠ poNumber (k + j)

instance (poNumber : Nat → String) (k n : Nat) (s : Store) :
    Decidable (FreshNumbers poNumber k n s) := by
  unfold FreshNumbers
  exact inferInstance

/-! ## Specification predicates for the receipt of an order -/

/-- The sum of the quantities of the order lines for product `id`. -/
def sumQty (id : Nat) : List POItem → Int
  | [] => 0
  | it :: rest => (if it.product_id == id then it.quantity else 0) + sumQty id rest

/-- The movement `m` is the receipt of the order line `it` of order `poId` by `user`. -/
def ReceiptOf (user poId : Nat) (it : POItem) (m : StockMovement) : Prop :=
  m.product_id = it.product_id ∧ m.movement_type = "IN" ∧ m.quantity = it.quantity ∧
    m.reference_type = "PO" ∧ m.reference_id = some poId ∧ m.performed_by = user

/-! ## `index.js`: predictive analytics -/

/-- The milliseconds of a day: `1000 * 60 * 60 * 24`. -/
def msPerDay : Int := 1000 * 60 * 60 * 24

/-- Models `Math.ceil(a / b)` for an integer `a` and a positive integer `b`, the
quotient being exact. -/
def ceilDiv (a b : Int) : Int := -((-a) / b)

/-- Models `Math.round(a / b)` for an integer `a` and a positive integer `b`, the
quotient being exact: the nearest integer, a half rounding up. -/
def roundDiv (a b : Int) : Int := (2 * a + b) / (2 * b)

/-- The days from 1 January 1970 to the day `y`-`m`-`d` of the Gregorian calendar. -/
def daysFromCivil (y m d : Int) : Int :=
  let y' := if m ≤ 2 then y - 1 else y
  let era := y' / 400
  let yoe := y' - era * 400
  let mp := (m + 9) % 12
  let doy := (153 * mp + 2) / 5 + d - 1
  let doe := yoe * 365 + yoe / 4 - yoe / 100 + doy
  era * 146097 + doe - 719468

/-- The instant `new Date('YYYY-MM-DD')` denotes, in milliseconds since the epoch:
midnight UTC of that day. -/
def dateUTC (y m d : Int) : Int := daysFromCivil y m d * msPerDay

/-- The time zone of the server.  `offsetAt t` is the offset of local time from UTC, in
milliseconds, at the instant `t`; `offsetOfLocal w` is the offset with which the local
wall-clock time `w` is read back as an instant, which for a time that a change of offset
skips or repeats is the offset before the change. -/
structure Zone where
  offsetAt : Int → Int
  offsetOfLocal : Int → Int

/-- A zone that is `tz` milliseconds east of UTC all year. -/
def Zone.fixed (tz : Int) : Zone :=
  { offsetAt := fun _ => tz, offsetOfLocal := fun _ => tz }

/-- The local wall-clock time of the instant `t`: `LocalTime(t)`. -/
def localTime (zone : Zone) (t : Int) : Int := t + zone.offsetAt t

/-- The instant of the local wall-clock time `w`: `UTC(w)`. -/
def utcOf (zone : Zone) (w : Int) : Int := w - zone.offsetOfLocal w

/-- Models `d.setHours(0, 0, 0, 0)`: the local midnight that starts the local day of
`t`. -/
def startOfDay (zone : Zone) (t : Int) : Int :=
  utcOf zone (localTime zone t - localTime zone t % msPerDay)

/-- Models `d.setDate(d.getDate() + k)`: `k` calendar days later, at the same local
wall-clock time. -/
def addDays (zone : Zone) (t k : Int) : Int := utcOf zone (localTime zone t + k * msPerDay)

/-- The number of the local calendar day of the instant `t`. -/
def localDay (zone : Zone) (t : Int) : Int := localTime zone t / msPerDay

/-- A row of the query of the predictive endpoint, which selects the logs with a
non-empty `system` and an action among 'Replaced', 'Fixed' and 'Repair', ordered by
system and date.  `event_date` is the instant `new Date(row.event_date)` denotes, and
`none` when the column is null. -/
structure EventRow where
  system : String
  event_date : Option Int
  action : String
  deriving DecidableEq, Repr

/-- The object `systemEvents` after the `forEach`, as its own keys in the order of their
creation: a row without date is skipped, the others add their date to the array of
their system; or the `TypeError` the `forEach` throws. -/
def systemEvents (data : List EventRow) : Except String (List (String × List Int)) :=
  forEachInto "systemEvents[row.system]" (fun row => row.system) (fun row => row.event_date)
    data []

/-- The loop `for (let i = 1; i < dates.length; i++)` over consecutive dates, from the
given `totalDays` and `intervals`. -/
def intervalLoop : List Int → Int → Int → Int × Int
  | prev :: cur :: rest, totalDays, intervals =>
    let diffTime := mathAbs (cur - prev)
    let diffDays := ceilDiv diffTime msPerDay
    intervalLoop (cur :: rest) (totalDays + diffDays) (intervals + 1)
  | _, totalDays, intervals => (totalDays, intervals)

/-- The variable `mtbf` after the `if (dates.length >= 2) ... else ...`. -/
def mtbfOf (dates : List Int) : Int :=
  if dates.length ≥ 2 then
    let r := intervalLoop dates 0 0
    if r.2 > 0 then roundDiv r.1 r.2 else 0
  else 30

/-- An entry of the response of the predictive endpoint. -/
structure Prediction where
  system : String
  mtbf_days : Option Int
  last_failure : Int
  predicted_date : Int
  days_until_due : Int
  status : String
  deriving DecidableEq, Repr

/-- The body of the loop over the systems, at the instant `now` on a server in the time
zone `zone`: nothing for a system without dates, else its prediction. -/
def predict (zone : Zone) (now : Int) (system : String) (dates : List Int) :
    Option Prediction :=
  match dates.getLast? with
  | none => none
  | some lastFailure =>
    let mtbf := mtbfOf dates
    let nextFailure := addDays zone lastFailure (if mtbf != 0 then mtbf else 30)
    let today := startOfDay zone now
    let nextFailure := startOfDay zone nextFailure
    let diffTime := nextFailure - today
    let daysUntil := ceilDiv diffTime msPerDay
    let status :=
      if daysUntil < 0 then "Critical" else if daysUntil ≤ 7 then "Risk" else "Good"
    some
      { system := system
        mtbf_days := if mtbf > 0 then some mtbf else none
        last_failure := lastFailure
        predicted_date := nextFailure
        days_until_due := daysUntil
        status := status }

/-- The data of the response of `app.get('/api/analytics/predictive')` for the rows of
its query, at the instant `now`: the predictions of the entries of `systemEvents`,
sorted by `days_until_due` with a stable sort; or the error the endpoint answers with
status 500. -/
def getPredictions (zone : Zone) (now : Int) (rows : List EventRow) :
    Except String (List Prediction) :=
  match systemEvents rows with
  | .error e => .error e
  | .ok groups =>
    .ok (((objectEntries groups).filterMap (fun g => predict zone now g.1 g.2)).insertionSort
      (fun a b => a.days_until_due ≤ b.days_until_due))

/-- The gaps in days between consecutive dates: `ceil(|dᵢ − dᵢ₋₁| / 1 day)`. -/
def gaps : List Int → List Int
  | prev :: cur :: rest => ceilDiv (mathAbs (cur - prev)) msPerDay :: gaps (cur :: rest)
  | _ => []

/-- The dates of the rows of a system, in the order of the rows; rows without date are
left out. -/
def datesOf (rows : List EventRow) (system : String) : List Int :=
  (rows.filter (fun r => r.system == system)).filterMap (fun r => r.event_date)

/-! ## Sample data -/

/-- The first part of the sample store. -/
def sampleItem : Inventory :=
  { id := 1, product_name := some "Bearing SKF 6205", qty := 5, reorder_point := some 20 }

/-- A store with two parts, one purchase order of two lines and two earlier logs. -/
def sampleStore : Store :=
  { inventory :=
      [sampleItem,
       { id := 2, product_name := some "V-Belt A50", qty := 50, reorder_point := some 15 }]
    logs :=
      [{ id := 1, engineer := "Ann", action := "Inspected" },
       { id := 2, engineer := "Raj", action := "Replaced", product_id := some 2, qty_used := 4 }]
    purchaseOrders := [{ id := 1, po_number := "PO-1" }]
    poItems :=
      [{ id := 1, po_id := 1, product_id := 1, quantity := 5 },
       { id := 2, po_id := 1, product_id := 2, quantity := 10 }]
    nextLogId := 3 }

/-- A "Replaced" submission that takes three bearings. -/
def sampleBody : MaintenanceBody :=
  { engineer := some "Ann", action := some "Replaced",
    spare_part_used := some "Bearing SKF 6205 : (5)", quantity := some 3 }

/-- A manual update that sets the quantity of a part to nine. -/
def sampleUpdate : InventoryBody :=
  { qty := 9, min_qty := 5, reorder_point := 20, reorder_qty := 20 }

/-- The sample store with two users and one movement already in the ledger. -/
def ledgerStore : Store :=
  { sampleStore with
    users := [7, 8]
    stockMovements :=
      [{ id := 1, product_id := 2, movement_type := "IN", quantity := 50,
         reference_type := "INITIAL", performed_by := 7 }]
    nextMovementId := 2 }

/-- A maintenance creation, the deletion of its log, the deletion of the part it used, a
backup and the deletion of a user who wrote nothing. -/
def ledgerRequests : List Request :=
  [.stock (.maintenance 7 sampleBody none), .stock (.deleteLog 7 3),
    .deleteItem .noAction 7 1, .backup, .deleteUser .noAction 7 8]

/-- The error of a rejected insert into `stock_movements`. -/
def ledgerFault : String := "SQLITE_BUSY: database is locked"

/-- A maintenance deduction, a receipt, a manual update and the deletion of the new log. -/
def sampleOps : List StockOp :=
  [.maintenance 7 sampleBody none, .receive 7 1 100, .update 7 1 sampleUpdate none,
    .deleteLog 9 3]

/-- Three parts at or below their reorder point, two of them supplied by Acme, at unit
costs of 2 and 3, and one without a supplier, at a unit cost of 2.5, and one part that
is well stocked. -/
def reorderStore : Store :=
  { inventory :=
      [{ id := 1, product_name := some "Bearing SKF 6205", qty := 2, reorder_point := some 10,
         reorder_qty := some 5, unit_cost := some (.ofInt 2), supplier_name := some "Acme" },
       { id := 2, product_name := some "V-Belt A50", qty := 0, reorder_point := some 10,
         reorder_qty := some 30, unit_cost := some (.ofInt 3), supplier_name := some "Acme" },
       { id := 3, product_name := some "Fuse 2A", qty := 1, reorder_point := some 5,
         unit_cost := some (.finite 5 (-1)) },
       { id := 4, product_name := some "Relay 24VDC", qty := 50, reorder_point := some 5,
         supplier_name := some "Acme" }] }

/-- Two parts at or below their reorder point, one supplied by Acme and one by a
supplier whose name is "constructor". -/
def prototypeStore : Store :=
  { inventory :=
      [{ id := 1, product_name := some "Bearing SKF 6205", qty := 2, reorder_point := some 10,
         supplier_name := some "Acme" },
       { id := 2, product_name := some "V-Belt A50", qty := 0, reorder_point := some 10,
         supplier_name := some "constructor" }] }

/-- The order numbers drawn when the random part comes out as 007 at every call. -/
def repeatedPONumber (_ : Nat) : String := "PO-20240105-007"

/-- The order numbers drawn on 5 January 2024, the random part being the call number. -/
def samplePONumber (k : Nat) : String := "PO-20240105-00" ++ toString k

/-- The sample store with a third line on its order, for a product that does not exist. -/
def orphanStore : Store :=
  { sampleStore with
    poItems := sampleStore.poItems ++ [{ id := 3, po_id := 1, product_id := 9, quantity := 4 }] }

/-- The rows of the scenarios of the specification: three replacements on the conveyor,
ten days apart, and one repair of the robot. -/
def scenarioRows : List EventRow :=
  [{ system := "Conveyor", event_date := some (dateUTC 2024 1 1), action := "Replaced" },
   { system := "Conveyor", event_date := some (dateUTC 2024 1 11), action := "Replaced" },
   { system := "Conveyor", event_date := some (dateUTC 2024 1 21), action := "Replaced" },
   { system := "Robot", event_date := some (dateUTC 2024 1 1), action := "Fixed" }]

/-- The milliseconds of an hour. -/
def msPerHour : Int := 3600000

/-- Mountain Time through 2024: seven hours west of UTC, and six from 10 March, 2 a.m.
local time, to 3 November, 2 a.m. local time. -/
def mountainTime : Zone :=
  { offsetAt := fun t =>
      if dateUTC 2024 3 10 + 9 * msPerHour ≤ t ∧ t < dateUTC 2024 11 3 + 8 * msPerHour then
        -6 * msPerHour
      else -7 * msPerHour
    offsetOfLocal := fun w =>
      if dateUTC 2024 3 10 + 3 * msPerHour ≤ w ∧ w < dateUTC 2024 11 3 + 2 * msPerHour then
        -6 * msPerHour
      else -7 * msPerHour }

/-- One repair of the press, dated 5 February 2024. -/
def pressRows : List EventRow :=
  [{ system := "Press", event_date := some (dateUTC 2024 2 5), action := "Fixed" }]

/-- The rows of the scenario with the system named "constructor". -/
def constructorRows : List EventRow :=
  [{ system := "constructor", event_date := some (dateUTC 2024 1 1), action := "Replaced" },
   { system := "constructor", event_date := some (dateUTC 2024 1 11), action := "Replaced" },
   { system := "constructor", event_date := some (dateUTC 2024 1 21), action := "Replaced" }]

/-- The prediction of the conveyor in the scenario of the specification, on 5 February
2024 with the server clock in UTC. -/
def scenarioPrediction : Prediction :=
  { system := "Conveyor", mtbf_days := some 10, last_failure := dateUTC 2024 1 21,
    predicted_date := dateUTC 2024 1 31, days_until_due := -5, status := "Critical" }

/-- A new part registered with nothing on the shelf yet. -/
def emptyShelf : NewItemBody :=
  { product_name := some "Gasket 40mm", qty := 0 }

/-- An update of a log that stores a negative quantity. -/
def negativeUpdate : LogBody := { qty_used := -2 }

/-- An update of a log that raises the quantity to four. -/
def largerUpdate : LogBody := { qty_used := 4 }

/-- An update of a log that changes the action to "Inspected". -/
def inspectedUpdate : LogBody := { action := some "Inspected", qty_used := 3 }

/-! ## Lemmas on the store primitives -/

theorem any_id_of_mem {l : List Inventory} {r : Inventory} (h : r ∈ l) :
    l.any (fun x => x.id == r.id) = true := by
  rw [List.any_eq_true]
  exact ⟨r, h, by simp⟩

theorem any_id_of_findByName {s : Store} {name : String} {item : Inventory}
    (h : findByName s name = some item) :
    s.inventory.any (fun x => x.id == item.id) = true :=
  any_id_of_mem (List.mem_of_find?_eq_some h)

theorem map_increment_decrement (l : List Inventory) (id : Nat) (d : Int) :
    (l.map (fun r => if r.id == id then { r with qty := r.qty - d } else r)).map
      (fun r => if r.id == id then { r with qty := r.qty + d } else r) = l := by
  rw [List.map_map]
  conv_rhs => rw [← List.map_id l]
  apply List.map_congr_left
  intro r _
  cases r with
  | mk rid nm q mq rp rq sn se lo uc =>
    by_cases h : rid = id
    · simp [h]
    · simp [h]

theorem find_log_append_fresh (logs : List Log) (l : Log)
    (hfresh : ∀ x ∈ logs, x.id ≠ l.id) :
    (logs ++ [l]).find? (fun x => x.id == l.id) = some l := by
  rw [List.find?_append]
  have : logs.find? (fun x => x.id == l.id) = none := by
    rw [List.find?_eq_none]
    intro x hx
    simpa using hfresh x hx
  simp [this]

theorem includes_of_isPrefixOf (needle hay : List Char) (h : needle.isPrefixOf hay = true) :
    includes needle hay = true := by
  cases hay with
  | nil => cases needle <;> simp_all [includes]
  | cons c cs => simp [includes, h]

theorem qtyUsed_eq_max (quantity : Option Int)
    (hr : (quantity.getD 0).natAbs < 10 ^ 21) :
    qtyUsed quantity = max 1 (quantity.getD 0) := by
  unfold qtyUsed
  cases quantity with
  | none => simp [truthyNum]
  | some n =>
    simp only [Option.getD_some] at hr
    by_cases h0 : n = 0
    · simp [truthyNum, h0]
    · simp only [truthyNum, Option.getD_some, parseInt, if_pos hr]
      simp only [bne_iff_ne, ne_eq, h0, not_false_eq_true, if_true]
      split <;> omega

theorem qtyUsed_pos (quantity : Option Int) : 0 < qtyUsed quantity := by
  unfold qtyUsed
  simp only
  split <;> omega

theorem parseInt_nonpos (r : Int) (hr : r ≤ 0) : parseInt r ≤ 0 := by
  unfold parseInt
  split
  · exact hr
  · rename_i hbig
    have hneg : r < 0 := by
      rcases lt_or_eq_of_le hr with h | h
      · exact h
      · subst h; simp at hbig
    simp only [if_pos hneg]
    exact neg_nonpos.mpr (Int.natCast_nonneg _)

theorem qtyUsed_of_nonpos (quantity : Option Int) (hq : quantity.getD 0 ≤ 0) :
    qtyUsed quantity = 1 := by
  unfold qtyUsed
  cases quantity with
  | none => simp [truthyNum]
  | some n =>
    simp only [Option.getD_some] at hq
    have := parseInt_nonpos n hq
    simp only [Option.getD_some]
    by_cases ht : truthyNum (some n) = true
    · rw [if_pos ht, if_pos this]
    · rw [if_neg ht]; simp

theorem maintenanceTx_ok (user : Nat) (body : MaintenanceBody) (name : String)
    (item : Inventory) (s : Store) (hitem : findByName s name = some item) :
    maintenanceTx user body name none s = .ok
      ({ s with
          inventory := s.inventory.map (fun r =>
            if r.id == item.id then { r with qty := r.qty - qtyUsed body.quantity } else r)
          stockMovements := s.stockMovements ++
            [{ id := s.nextMovementId, product_id := item.id, movement_type := "OUT",
               quantity := qtyUsed body.quantity, reference_type := "MAINTENANCE",
               reference_id := none, performed_by := user,
               notes := some ("Maintenance: " ++ body.action.getD "") }]
          nextMovementId := s.nextMovementId + 1
          logs := s.logs ++
            [{ newLogData body (some item.id) (qtyUsed body.quantity) with id := s.nextLogId }]
          nextLogId := s.nextLogId + 1 },
       ({ newLogData body (some item.id) (qtyUsed body.quantity) with id := s.nextLogId },
        item.qty - qtyUsed body.quantity)) := by
  simp [maintenanceTx, hitem, inventoryDecrement, any_id_of_findByName hitem,
    stockMovementCreate, logCreate]

theorem postMaintenance_replaced (user : Nat) (body : MaintenanceBody) (name : String)
    (item : Inventory) (s : Store)
    (heng : truthyStr body.engineer = true) (hact : body.action = some "Replaced")
    (hname : targetItemName body.spare_part_used = some name) (hne : name ≠ "")
    (hitem : findByName s name = some item) :
    postMaintenance user body none s =
      (logAudit user "CREATE" "logs" (some s.nextLogId)
        { s with
          inventory := s.inventory.map (fun r =>
            if r.id == item.id then { r with qty := r.qty - qtyUsed body.quantity } else r)
          stockMovements := s.stockMovements ++
            [{ id := s.nextMovementId, product_id := item.id, movement_type := "OUT",
               quantity := qtyUsed body.quantity, reference_type := "MAINTENANCE",
               reference_id := none, performed_by := user,
               notes := some ("Maintenance: " ++ body.action.getD "") }]
          nextMovementId := s.nextMovementId + 1
          logs := s.logs ++
            [{ newLogData body (some item.id) (qtyUsed body.quantity) with id := s.nextLogId }]
          nextLogId := s.nextLogId + 1 },
       .stock "Maintenance Logged & Stock Updated" (some (item.qty - qtyUsed body.quantity))) := by
  have hact' : truthyStr body.action = true := by rw [hact]; decide
  have hn : truthyStr (some name) = true := by simp [truthyStr, hne]
  simp [postMaintenance, heng, hact', hname, hn, transaction, maintenanceTx_ok user body name item s hitem]
  simp [hact]

/-! ## Creation followed by deletion -/

theorem any_log_of_find {logs : List Log} {id : Nat} {log : Log}
    (h : logs.find? (fun l => l.id == id) = some log) :
    logs.any (fun l => l.id == id) = true := by
  rw [List.any_eq_true]
  exact ⟨log, List.mem_of_find?_eq_some h, @List.find?_some _ (fun l : Log => l.id == id) _ _ h⟩

theorem deleteLog_reverses (user id : Nat) (s : Store) (log : Log) (p : Nat)
    (hfind : s.logs.find? (fun l => l.id == id) = some log)
    (hrev : reversesStock log = true) (hp : log.product_id = some p)
    (hex : s.inventory.any (fun r => r.id == p) = true) :
    deleteLog user id s =
      ({ s with
          inventory := s.inventory.map (fun r =>
            if r.id == p then { r with qty := r.qty + log.qty_used } else r)
          stockMovements := s.stockMovements ++
            [{ id := s.nextMovementId, product_id := p, movement_type := "IN",
               quantity := log.qty_used, reference_type := "Maintenance Correction",
               reference_id := some log.id, performed_by := user,
               notes := some ("Stock restored due to deletion of Log #" ++ toString id) }]
          nextMovementId := s.nextMovementId + 1
          logs := s.logs.filter (fun l => !(l.id == id))
          auditLog := s.auditLog ++
            [{ id := s.nextAuditId, user_id := user, action := "DELETE", table_name := "logs",
               record_id := some id, backup := some log }]
          nextAuditId := s.nextAuditId + 1 },
       .changed "Log deleted and stock restored if applicable" 1) := by
  simp [deleteLog, hfind, transaction, deleteLogTx, hrev, hp, inventoryIncrement, hex,
    stockMovementCreate, logDelete, any_log_of_find hfind, auditCreate]

theorem deleteLog_plain (user id : Nat) (s : Store) (log : Log)
    (hfind : s.logs.find? (fun l => l.id == id) = some log)
    (hrev : reversesStock log = false) :
    deleteLog user id s =
      ({ s with
          logs := s.logs.filter (fun l => !(l.id == id))
          auditLog := s.auditLog ++
            [{ id := s.nextAuditId, user_id := user, action := "DELETE", table_name := "logs",
               record_id := some id, backup := some log }]
          nextAuditId := s.nextAuditId + 1 },
       .changed "Log deleted and stock restored if applicable" 1) := by
  simp [deleteLog, hfind, transaction, deleteLogTx, hrev, logDelete, any_log_of_find hfind,
    auditCreate]

/-- Claim C1 (reversal).  In a store whose log ids are below the next log id and
whose part `item`, found by exact name, has a non-zero id: a "Replaced" submission that
passes the required-field check succeeds, and deleting the log it created restores the
whole inventory table, so the part's quantity is what it was before the creation; the two
requests append exactly two movements for the part, an OUT of `qtyUsed` and then an IN of
`qtyUsed`. -/
theorem reversal_create_then_delete (s : Store) (user admin : Nat) (body : MaintenanceBody)
    (name : String) (item : Inventory)
    (hfresh : ∀ l ∈ s.logs, l.id ≠ s.nextLogId) (hid : item.id ≠ 0)
    (heng : truthyStr body.engineer = true) (hact : body.action = some "Replaced")
    (hname : targetItemName body.spare_part_used = some name) (hne : name ≠ "")
    (hitem : findByName s name = some item) :
    (postMaintenance user body none s).2 =
        .stock "Maintenance Logged & Stock Updated" (some (item.qty - qtyUsed body.quantity)) ∧
      (deleteLog admin s.nextLogId (postMaintenance user body none s).1).2 =
        .changed "Log deleted and stock restored if applicable" 1 ∧
      (deleteLog admin s.nextLogId (postMaintenance user body none s).1).1.inventory =
        s.inventory ∧
      qtyOf (deleteLog admin s.nextLogId (postMaintenance user body none s).1).1 item.id =
        qtyOf s item.id ∧
      (deleteLog admin s.nextLogId (postMaintenance user body none s).1).1.stockMovements =
        s.stockMovements ++
          [{ id := s.nextMovementId, product_id := item.id, movement_type := "OUT",
             quantity := qtyUsed body.quantity, reference_type := "MAINTENANCE",
             reference_id := none, performed_by := user,
             notes := some "Maintenance: Replaced" },
           { id := s.nextMovementId + 1, product_id := item.id, movement_type := "IN",
             quantity := qtyUsed body.quantity, reference_type := "Maintenance Correction",
             reference_id := some s.nextLogId, performed_by := admin,
             notes := some ("Stock restored due to deletion of Log #" ++ toString s.nextLogId) }] := by
  rw [postMaintenance_replaced user body name item s heng hact hname hne hitem]
  have hq := qtyUsed_pos body.quantity
  set newLog : Log :=
    { newLogData body (some item.id) (qtyUsed body.quantity) with id := s.nextLogId } with hnl
  have hfind := find_log_append_fresh s.logs newLog (fun x hx => hfresh x hx)
  have hrev : reversesStock newLog = true := by
    simp [reversesStock, hnl, newLogData, truthyId, hid, hq, hact]
  have hex : (s.inventory.map (fun r =>
      if r.id == item.id then { r with qty := r.qty - qtyUsed body.quantity } else r)).any
        (fun r => r.id == item.id) = true := by
    rw [List.any_eq_true]
    have hmem := List.mem_of_find?_eq_some hitem
    refine ⟨{ item with qty := item.qty - qtyUsed body.quantity }, ?_, by simp⟩
    rw [List.mem_map]
    exact ⟨item, hmem, by simp⟩
  rw [logAudit, auditCreate]
  rw [deleteLog_reverses admin s.nextLogId _ newLog item.id hfind hrev rfl hex]
  have hinv := map_increment_decrement s.inventory item.id (qtyUsed body.quantity)
  refine ⟨rfl, rfl, hinv, ?_, ?_⟩
  · exact congrArg
      (fun inv : List Inventory => (inv.find? (fun r => r.id == item.id)).map (fun r => r.qty))
      hinv
  · simp [hnl, hact, newLogData]

/-- Claim C1 at the sample store: three bearings are taken and given back. -/
theorem reversal_create_then_delete_witness :
    (∀ l ∈ sampleStore.logs, l.id ≠ sampleStore.nextLogId) ∧ sampleItem.id ≠ 0 ∧
      truthyStr sampleBody.engineer = true ∧ sampleBody.action = some "Replaced" ∧
      targetItemName sampleBody.spare_part_used = some "Bearing SKF 6205" ∧
      findByName sampleStore "Bearing SKF 6205" = some sampleItem ∧
      qtyOf (postMaintenance 7 sampleBody none sampleStore).1 1 = some 2 ∧
      qtyOf (deleteLog 9 sampleStore.nextLogId
        (postMaintenance 7 sampleBody none sampleStore).1).1 sampleItem.id =
        qtyOf sampleStore sampleItem.id :=
  ⟨by decide, by decide, by decide, by decide, by decide, by decide, by decide,
    (reversal_create_then_delete sampleStore 7 9 sampleBody "Bearing SKF 6205" sampleItem
      (by decide) (by decide) (by decide) (by decide) (by decide) (by decide)
      (by decide)).2.2.2.1⟩

/-! ## Conservation of stock -/

theorem sumIn_append (i : Nat) (a b : List StockMovement) :
    sumIn i (a ++ b) = sumIn i a + sumIn i b := by
  induction a with
  | nil => simp [sumIn]
  | cons m ms ih => rw [List.cons_append, sumIn, sumIn, ih]; ring

theorem sumOut_append (i : Nat) (a b : List StockMovement) :
    sumOut i (a ++ b) = sumOut i a + sumOut i b := by
  induction a with
  | nil => simp [sumOut]
  | cons m ms ih => rw [List.cons_append, sumOut, sumOut, ih]; ring

theorem Conserves.of_eq {s s' : Store} (hinv : s'.inventory = s.inventory)
    (hmv : s'.stockMovements = s.stockMovements) : Conserves s s' := by
  refine ⟨[], by simp [hmv], fun i => ?_⟩
  simp only [qtyOf, findById, hinv, sumIn, sumOut, add_zero, sub_zero]
  exact Option.map_id'.symm

theorem Conserves.refl (s : Store) : Conserves s s := Conserves.of_eq rfl rfl

theorem Conserves.trans {a b c : Store} (h₁ : Conserves a b) (h₂ : Conserves b c) :
    Conserves a c := by
  obtain ⟨m₁, hm₁, hq₁⟩ := h₁
  obtain ⟨m₂, hm₂, hq₂⟩ := h₂
  refine ⟨m₁ ++ m₂, by rw [hm₂, hm₁, List.append_assoc], fun i => ?_⟩
  rw [hq₂ i, hq₁ i, Option.map_map]
  congr 1
  funext q
  simp only [Function.comp, sumIn_append, sumOut_append]
  ring

theorem findById_map (s : Store) (f : Inventory → Inventory) (hf : ∀ r, (f r).id = r.id)
    (i : Nat) :
    (s.inventory.map f).find? (fun r => r.id == i) = (findById s i).map f := by
  rw [List.find?_map, findById]
  congr 2
  funext r
  simp [Function.comp, hf]

theorem Conserves.of_map {s s' : Store} (p : Nat) (g : Inventory → Inventory)
    (ms : List StockMovement) (δ : Int)
    (hinv : s'.inventory = s.inventory.map (fun r => if r.id == p then g r else r))
    (hgid : ∀ r, (g r).id = r.id)
    (hq : ∀ r, findById s p = some r → (g r).qty = r.qty + δ)
    (hmv : s'.stockMovements = s.stockMovements ++ ms)
    (hsum : ∀ i, sumIn i ms - sumOut i ms = if i = p then δ else 0) : Conserves s s' := by
  refine ⟨ms, hmv, fun i => ?_⟩
  have hf : ∀ r : Inventory, (if r.id == p then g r else r).id = r.id := by
    intro r; split <;> simp [hgid]
  have h1 : qtyOf s' i = ((findById s i).map
      (fun r => if r.id == p then g r else r)).map (fun r => r.qty) := by
    rw [qtyOf, findById, hinv, findById_map s _ hf i]
  rw [h1, qtyOf]
  cases hfi : findById s i with
  | none => simp
  | some r =>
    have hri : r.id = i := by
      have := @List.find?_some _ (fun r : Inventory => r.id == i) _ _ hfi
      simpa using this
    have hs := hsum i
    by_cases hip : i = p
    · subst hip
      have := hq r hfi
      simp only [Option.map_some', hri, beq_self_eq_true, if_true, this]
      simp only [if_true] at hs
      congr 1; omega
    · have hne : ¬ r.id = p := by rw [hri]; exact hip
      simp only [Option.map_some', beq_iff_eq, hne, if_false]
      simp only [hip, if_false] at hs
      congr 1; omega

theorem Conserves.logAudit {s s' : Store} (h : Conserves s s') (user : Nat) (a t : String)
    (r : Option Nat) : Conserves s (logAudit user a t r s') :=
  h.trans (Conserves.of_eq rfl rfl)

theorem sum_single (p i : Nat) (m : StockMovement) (hp : m.product_id = p) :
    (m.movement_type = "IN" →
      sumIn i [m] - sumOut i [m] = if i = p then m.quantity else 0) ∧
    (m.movement_type = "OUT" →
      sumIn i [m] - sumOut i [m] = if i = p then -m.quantity else 0) := by
  subst hp
  constructor
  · intro ht
    by_cases h : m.product_id = i
    · simp [sumIn, sumOut, h, ht]
    · have h' : ¬ i = m.product_id := fun e => h e.symm
      simp [sumIn, sumOut, h, h']
  · intro ht
    by_cases h : m.product_id = i
    · simp [sumIn, sumOut, h, ht]
    · have h' : ¬ i = m.product_id := fun e => h e.symm
      simp [sumIn, sumOut, h, h']

theorem maintenanceTx_conserves (user : Nat) (body : MaintenanceBody) (name : String)
    (fault : Option String) (s : Store) (r : Store × (Log × Int))
    (h : maintenanceTx user body name fault s = .ok r) : Conserves s r.1 := by
  unfold maintenanceTx at h
  cases hitem : findByName s name with
  | none => simp [hitem] at h
  | some item =>
    cases fault with
    | some e =>
      simp [hitem, inventoryDecrement, any_id_of_findByName hitem, logCreate] at h
    | none =>
      simp only [hitem, inventoryDecrement, any_id_of_findByName hitem, if_true, logCreate,
        stockMovementCreate, Except.ok.injEq] at h
      subst h
      refine Conserves.of_map item.id
        (fun r => { r with qty := r.qty - qtyUsed body.quantity }) _
        (-qtyUsed body.quantity) rfl (fun _ => rfl) (fun r _ => by simp; ring) rfl ?_
      intro i
      exact (sum_single item.id i _ rfl).2 rfl

theorem conserves_postMaintenance (user : Nat) (body : MaintenanceBody) (fault : Option String)
    (s : Store) : Conserves s (postMaintenance user body fault s).1 := by
  rw [postMaintenance]
  by_cases hv : (!truthyStr body.engineer || !truthyStr body.action) = true
  · rw [if_pos hv]; exact Conserves.refl s
  · rw [if_neg hv]
    simp only
    by_cases hr : (body.action == some "Replaced" &&
        truthyStr (targetItemName body.spare_part_used)) = true
    · rw [if_pos hr]
      cases htx : maintenanceTx user body ((targetItemName body.spare_part_used).getD "")
          fault s with
      | error e =>
        simp only [transaction, htx]
        split <;> exact Conserves.refl s
      | ok r =>
        simp only [transaction, htx]
        exact (maintenanceTx_conserves _ _ _ _ _ _ htx).logAudit _ _ _ _
    · rw [if_neg hr]
      cases fault with
      | some e =>
        simp only [logCreate]
        split <;> exact Conserves.refl s
      | none =>
        simp only [logCreate]
        exact (Conserves.of_eq rfl rfl).logAudit _ _ _ _

theorem deleteLogTx_conserves (user id : Nat) (log : Log) (s : Store) (r : Store × Unit)
    (h : deleteLogTx user id log s = .ok r) : Conserves s r.1 := by
  unfold deleteLogTx at h
  cases hrev : reversesStock log with
  | false =>
    by_cases hl : s.logs.any (fun l => l.id == id) = true
    · simp only [hrev, Bool.false_eq_true, if_false, logDelete, hl, if_true, auditCreate,
        Except.ok.injEq] at h
      subst h
      exact Conserves.of_eq rfl rfl
    · simp [hrev, logDelete, hl] at h
  | true =>
    cases hex : s.inventory.any (fun r => r.id == log.product_id.getD 0) with
    | false => simp [hrev, inventoryIncrement, hex] at h
    | true =>
      by_cases hl : s.logs.any (fun l => l.id == id) = true
      · simp only [hrev, inventoryIncrement, hex, if_true, stockMovementCreate, logDelete, hl,
          auditCreate, Except.ok.injEq] at h
        subst h
        refine Conserves.of_map (log.product_id.getD 0)
          (fun r => { r with qty := r.qty + log.qty_used }) _ log.qty_used rfl (fun _ => rfl)
          (fun r _ => rfl) rfl ?_
        intro i
        exact (sum_single (log.product_id.getD 0) i _ rfl).1 rfl
      · simp [hrev, inventoryIncrement, hex, stockMovementCreate, logDelete, hl] at h

theorem conserves_deleteLog (user id : Nat) (s : Store) :
    Conserves s (deleteLog user id s).1 := by
  rw [deleteLog]
  cases hfind : s.logs.find? (fun l => l.id == id) with
  | none => exact Conserves.refl s
  | some log =>
    cases htx : deleteLogTx user id log s with
    | error e => simp only [transaction, htx]; exact Conserves.refl s
    | ok r => simp only [transaction, htx]; exact deleteLogTx_conserves _ _ _ _ _ htx

theorem conserves_putInventory (user id : Nat) (body : InventoryBody) (s : Store) :
    Conserves s (putInventory user id body none s).1 := by
  rw [putInventory]
  cases hold : findById s id with
  | none => exact Conserves.refl s
  | some oldRow =>
    simp only
    split
    · exact Conserves.refl s
    · by_cases hq : oldRow.qty = body.qty
      · -- the quantity is not changed and nothing is logged
        have hne : (oldRow.qty != body.qty) = false := by simp [hq]
        rw [if_neg (by simp [hne])]
        refine Conserves.logAudit ?_ _ _ _ _
        refine Conserves.of_map id (updatedItem body) [] 0 rfl (fun _ => rfl) ?_ (by simp) ?_
        · intro r hr
          rw [hold] at hr
          cases hr
          simp [updatedItem, hq]
        · intro i; simp [sumIn, sumOut]
      · have hne : (oldRow.qty != body.qty) = true := by simp [hq]
        rw [if_pos hne]
        refine Conserves.logAudit ?_ _ _ _ _
        simp only [logStockMovement, stockMovementCreate]
        refine Conserves.of_map id (updatedItem body) _ (body.qty - oldRow.qty) rfl
          (fun _ => rfl) ?_ rfl ?_
        · intro r hr
          rw [hold] at hr
          cases hr
          simp [updatedItem]
        · intro i
          by_cases hpos : body.qty - oldRow.qty > 0
          · have := (sum_single id i
              { id := s.nextMovementId, product_id := id, movement_type := "IN",
                quantity := mathAbs (body.qty - oldRow.qty), reference_type := "ADJUSTMENT",
                reference_id := none, performed_by := user,
                notes := some "Manual adjustment" } rfl).1 rfl
            have habs : mathAbs (body.qty - oldRow.qty) = body.qty - oldRow.qty := by
              unfold mathAbs; split <;> omega
            simp only [hpos, if_true, habs] at this ⊢
            exact this
          · have := (sum_single id i
              { id := s.nextMovementId, product_id := id, movement_type := "OUT",
                quantity := mathAbs (body.qty - oldRow.qty), reference_type := "ADJUSTMENT",
                reference_id := none, performed_by := user,
                notes := some "Manual adjustment" } rfl).2 rfl
            have habs : -mathAbs (body.qty - oldRow.qty) = body.qty - oldRow.qty := by
              unfold mathAbs; split <;> omega
            simp only [hpos, if_false, habs] at this ⊢
            exact this

theorem receiveItem_conserves (user poId now : Nat) (item : POItem) (s s' : Store)
    (h : receiveItem user poId now item s = .ok s') : Conserves s s' := by
  unfold receiveItem at h
  cases hex : s.inventory.any (fun r => r.id == item.product_id) with
  | false => simp [hex] at h
  | true =>
    simp only [hex, if_true, stockMovementCreate, Except.ok.injEq] at h
    subst h
    refine Conserves.of_map item.product_id
      (fun r => { r with qty := r.qty + item.quantity, last_ordered_date := some now }) _
      item.quantity rfl (fun _ => rfl) (fun r _ => rfl) rfl ?_
    intro i
    exact (sum_single item.product_id i _ rfl).1 rfl

theorem receiveItems_conserves (user poId now : Nat) (items : List POItem) :
    ∀ (s s' : Store), receiveItems user poId now items s = .ok s' → Conserves s s' := by
  induction items with
  | nil =>
    intro s s' h
    simp only [receiveItems, Except.ok.injEq] at h
    subst h
    exact Conserves.refl s
  | cons item rest ih =>
    intro s s' h
    rw [receiveItems] at h
    cases h1 : receiveItem user poId now item s with
    | error e => simp [h1] at h
    | ok s1 =>
      simp only [h1] at h
      exact (receiveItem_conserves _ _ _ _ _ _ h1).trans (ih s1 s' h)

theorem receiveTx_conserves (user poId now : Nat) (items : List POItem) (s : Store)
    (r : Store × Unit) (h : receiveTx user poId now items s = .ok r) : Conserves s r.1 := by
  unfold receiveTx at h
  cases h1 : receiveItems user poId now items s with
  | error e => simp [h1] at h
  | ok s1 =>
    simp only [h1, purchaseOrderSetStatus] at h
    by_cases hpo : s1.purchaseOrders.any (fun po => po.id == poId) = true
    · simp only [hpo, if_true, Except.ok.injEq] at h
      subst h
      exact (receiveItems_conserves _ _ _ _ _ _ h1).trans (Conserves.of_eq rfl rfl)
    · simp [hpo] at h

theorem conserves_receivePurchaseOrder (user poId now : Nat) (s : Store) :
    Conserves s (receivePurchaseOrder user poId now s).1 := by
  rw [receivePurchaseOrder]
  split
  · exact Conserves.refl s
  · cases htx : receiveTx user poId now (s.poItems.filter (fun it => it.po_id == poId)) s with
    | error e => simp only [transaction, htx]; exact Conserves.refl s
    | ok r =>
      simp only [transaction, htx]
      exact (receiveTx_conserves _ _ _ _ _ _ htx).logAudit _ _ _ _

theorem conserves_apply (op : StockOp) (hop : op.ledgerAccepts = true) (s : Store) :
    Conserves s (op.apply s) := by
  cases op with
  | maintenance user body fault => exact conserves_postMaintenance user body fault s
  | deleteLog user id => exact conserves_deleteLog user id s
  | receive user poId now => exact conserves_receivePurchaseOrder user poId now s
  | update user id body fault =>
    cases fault with
    | none => exact conserves_putInventory user id body s
    | some e => simp [StockOp.ledgerAccepts] at hop

theorem conserves_runOps (ops : List StockOp) (hops : ∀ op ∈ ops, op.ledgerAccepts = true) :
    ∀ s : Store, Conserves s (runOps ops s) := by
  induction ops with
  | nil => intro s; exact Conserves.refl s
  | cons op ops ih =>
    intro s
    exact (conserves_apply op (hops op (List.mem_cons_self _ _)) s).trans
      (ih (fun o ho => hops o (List.mem_cons_of_mem _ ho)) (op.apply s))

/-- As long as the store accepts the ledger insert of every manual update, a sequence
of maintenance creations, log deletions, receipts and manual updates appends movements
to the ledger and leaves every quantity at its initial value plus the IN quantities
minus the OUT quantities appended for the item. -/
theorem conservation_of_accepted (ops : List StockOp)
    (hops : ∀ op ∈ ops, op.ledgerAccepts = true) (s : Store) (id : Nat) (q₀ : Int)
    (h : qtyOf s id = some q₀) :
    (runOps ops s).stockMovements = s.stockMovements ++ appended s (runOps ops s) ∧
      qtyOf (runOps ops s) id =
        some (q₀ + sumIn id (appended s (runOps ops s)) - sumOut id (appended s (runOps ops s))) := by
  obtain ⟨ms, hms, hq⟩ := conserves_runOps ops hops s
  have happ : appended s (runOps ops s) = ms := by
    rw [appended, hms, List.drop_left]
  rw [happ, hq id, h]
  exact ⟨hms, rfl⟩

/-- Claim C2 (the code at the failing input).  A manual update takes the sample bearing
from 5 to 9 and the store rejects the ledger insert that follows: the answer is 500, the
quantity stays 9 and no movement was appended, so 9 is not 5 plus the IN quantities minus
the OUT quantities appended. -/
theorem update_without_movement :
    qtyOf sampleStore 1 = some 5 ∧
      (putInventory 7 1 sampleUpdate (some ledgerFault) sampleStore).2 =
        .fail 500 ledgerFault ∧
      qtyOf (putInventory 7 1 sampleUpdate (some ledgerFault) sampleStore).1 1 = some 9 ∧
      appended sampleStore (putInventory 7 1 sampleUpdate (some ledgerFault) sampleStore).1 =
        [] ∧
      qtyOf (runOps [.update 7 1 sampleUpdate (some ledgerFault)] sampleStore) 1 ≠
        some (5 +
          sumIn 1 (appended sampleStore
            (runOps [.update 7 1 sampleUpdate (some ledgerFault)] sampleStore)) -
          sumOut 1 (appended sampleStore
            (runOps [.update 7 1 sampleUpdate (some ledgerFault)] sampleStore))) := by
  decide

/-! ## The maintenance hook -/

theorem findByName_map (s : Store) (f : Inventory → Inventory)
    (hf : ∀ r, (f r).product_name = r.product_name) (name : String) :
    (s.inventory.map f).find? (fun r => r.product_name == some name) =
      (findByName s name).map f := by
  rw [List.find?_map, findByName]
  congr 2
  funext r
  simp [Function.comp, hf]

set_option maxRecDepth 4096 in
/-- Claim C3 (counterexample).  With five bearings in stock a "Replaced" submission
asks for 10^21 of them: the number prints as '1e+21', `parseInt` reads 1, and one bearing
is deducted, four remaining, where `max(1, r)` is 10^21. -/
theorem huge_quantity_deducts_one :
    qtyOf sampleStore 1 = some 5 ∧
      (postMaintenance 7 { sampleBody with quantity := some (10 ^ 21) } none sampleStore).2 =
        .stock "Maintenance Logged & Stock Updated" (some 4) ∧
      qtyOf (postMaintenance 7 { sampleBody with quantity := some (10 ^ 21) } none
        sampleStore).1 1 = some 4 ∧
      (postMaintenance 7 { sampleBody with quantity := some (10 ^ 21) } none
        sampleStore).1.stockMovements.map (fun m => m.quantity) = [1] ∧
      (postMaintenance 7 { sampleBody with quantity := some (10 ^ 21) } none sampleStore).2 ≠
        .stock "Maintenance Logged & Stock Updated" (some (5 - max 1 (10 ^ 21))) := by
  decide

/-- Claim C3 (amended).  A "Replaced" submission that passes the required-field check,
whose parsed part name resolves to `item` and whose requested quantity `r` (0 when
absent) is below 10^21 in magnitude succeeds with `q = max 1 r`: the response carries
`item.qty - q`, the part's quantity is lowered by `q`, exactly one movement (OUT, `q`,
MAINTENANCE, performed by the submitting user) is appended for the part, and exactly one
log is inserted, with `product_id` the part's id and `qty_used = q`. -/
theorem replaced_creation (s : Store) (user : Nat) (body : MaintenanceBody) (name : String)
    (item : Inventory)
    (heng : truthyStr body.engineer = true) (hact : body.action = some "Replaced")
    (hname : targetItemName body.spare_part_used = some name) (hne : name ≠ "")
    (hitem : findByName s name = some item)
    (hr : (body.quantity.getD 0).natAbs < 10 ^ 21) :
    (postMaintenance user body none s).2 =
        .stock "Maintenance Logged & Stock Updated"
          (some (item.qty - max 1 (body.quantity.getD 0))) ∧
      (postMaintenance user body none s).1.inventory =
        s.inventory.map (fun r =>
          if r.id == item.id then { r with qty := r.qty - max 1 (body.quantity.getD 0) }
          else r) ∧
      findByName (postMaintenance user body none s).1 name =
        some { item with qty := item.qty - max 1 (body.quantity.getD 0) } ∧
      (postMaintenance user body none s).1.stockMovements =
        s.stockMovements ++
          [{ id := s.nextMovementId, product_id := item.id, movement_type := "OUT",
             quantity := max 1 (body.quantity.getD 0), reference_type := "MAINTENANCE",
             reference_id := none, performed_by := user,
             notes := some "Maintenance: Replaced" }] ∧
      ∃ l : Log, (postMaintenance user body none s).1.logs = s.logs ++ [l] ∧
        l.id = s.nextLogId ∧ l.product_id = some item.id ∧
        l.qty_used = max 1 (body.quantity.getD 0) ∧ l.action = "Replaced" ∧
        some l.engineer = body.engineer := by
  rw [postMaintenance_replaced user body name item s heng hact hname hne hitem,
    qtyUsed_eq_max body.quantity hr]
  refine ⟨rfl, rfl, ?_, ?_, ?_⟩
  · simp only [logAudit, auditCreate, findByName]
    rw [findByName_map s _ (fun r => by split <;> rfl) name, hitem]
    simp
  · simp [logAudit, auditCreate, hact]
  · refine ⟨_, rfl, rfl, rfl, rfl, ?_, ?_⟩
    · simp [newLogData, hact]
    · cases he : body.engineer with
      | none => simp [he, truthyStr] at heng
      | some e => simp [newLogData, he]

/-- Claim C3 at the sample store: three bearings out of five leave two. -/
theorem replaced_creation_witness :
    truthyStr sampleBody.engineer = true ∧ sampleBody.action = some "Replaced" ∧
      targetItemName sampleBody.spare_part_used = some "Bearing SKF 6205" ∧
      findByName sampleStore "Bearing SKF 6205" = some sampleItem ∧
      (sampleBody.quantity.getD 0).natAbs < 10 ^ 21 ∧
      sampleItem.qty - max 1 (sampleBody.quantity.getD 0) = 2 ∧
      qtyOf (postMaintenance 7 sampleBody none sampleStore).1 1 = some 2 ∧
      (postMaintenance 7 sampleBody none sampleStore).2 =
        .stock "Maintenance Logged & Stock Updated"
          (some (sampleItem.qty - max 1 (sampleBody.quantity.getD 0))) :=
  ⟨by decide, by decide, by decide, by decide, by decide, by decide, by decide,
    (replaced_creation sampleStore 7 sampleBody "Bearing SKF 6205" sampleItem
      (by decide) (by decide) (by decide) (by decide) (by decide) (by decide)).1⟩

theorem isPrefixOf_append (a b : List Char) : a.isPrefixOf (a ++ b) = true := by
  rw [List.isPrefixOf_iff_prefix]
  exact List.prefix_append a b

theorem includes_not_found (name : String) :
    includes "Spare part not found".toList
      ("Spare part not found in inventory: " ++ name).toList = true := by
  have h : ("Spare part not found in inventory: " ++ name).toList =
      "Spare part not found".toList ++ (" in inventory: ".toList ++ name.toList) := by
    show ("Spare part not found in inventory: " ++ name).data = _
    rw [String.data_append]
    rfl
  rw [h]
  exact includes_of_isPrefixOf _ _ (isPrefixOf_append _ _)

/-- Claim C4 (atomicity of creation).  When the store rejects the log insert of a
"Replaced" submission whose part resolves to `item`, the transaction body has lowered the
part's quantity and then fails with the insert's error, and the request leaves the store
as it was: the part's quantity is unchanged, no movement is in the ledger that was not
there before, no log is added, and the response is a failure. -/
theorem creation_atomic (s : Store) (user : Nat) (body : MaintenanceBody) (name e : String)
    (item : Inventory)
    (heng : truthyStr body.engineer = true) (hact : body.action = some "Replaced")
    (hname : targetItemName body.spare_part_used = some name) (hne : name ≠ "")
    (hitem : findByName s name = some item) :
    (∃ tx : Store, inventoryDecrement item.id (qtyUsed body.quantity) s = .ok tx ∧
        findByName tx name = some { item with qty := item.qty - qtyUsed body.quantity }) ∧
      maintenanceTx user body name (some e) s = .error e ∧
      (postMaintenance user body (some e) s).1 = s ∧
      qtyOf (postMaintenance user body (some e) s).1 item.id = qtyOf s item.id ∧
      (postMaintenance user body (some e) s).1.stockMovements = s.stockMovements ∧
      (postMaintenance user body (some e) s).1.logs = s.logs ∧
      ∃ code, (postMaintenance user body (some e) s).2 = .fail code e := by
  have htx : maintenanceTx user body name (some e) s = .error e := by
    simp [maintenanceTx, hitem, inventoryDecrement, any_id_of_findByName hitem, logCreate]
  have hact' : truthyStr body.action = true := by rw [hact]; decide
  have hn : truthyStr (some name) = true := by simp [truthyStr, hne]
  have hpost : postMaintenance user body (some e) s =
      if includes "Spare part not found".toList e.toList then (s, .fail 404 e)
      else (s, .fail 500 e) := by
    simp only [postMaintenance, heng, hact', hname, hn, transaction, htx, Option.getD_some]
    simp [hact]
  have hfst : (postMaintenance user body (some e) s).1 = s := by
    rw [hpost]; split <;> rfl
  refine ⟨?_, htx, hfst, by rw [hfst], by rw [hfst], by rw [hfst], ?_⟩
  · refine ⟨_, by simp only [inventoryDecrement, any_id_of_findByName hitem, if_true]; rfl, ?_⟩
    show (s.inventory.map _).find? _ = _
    rw [findByName_map s _ (fun r => by split <;> rfl) name, hitem]
    simp
  · rw [hpost]
    split
    · exact ⟨404, rfl⟩
    · exact ⟨500, rfl⟩

/-- Claim C4 at the sample store, the insert failing with "insert failed". -/
theorem creation_atomic_witness :
    truthyStr sampleBody.engineer = true ∧ sampleBody.action = some "Replaced" ∧
      targetItemName sampleBody.spare_part_used = some "Bearing SKF 6205" ∧
      findByName sampleStore "Bearing SKF 6205" = some sampleItem ∧
      (postMaintenance 7 sampleBody (some "insert failed") sampleStore).1 = sampleStore :=
  ⟨by decide, by decide, by decide, by decide,
    (creation_atomic sampleStore 7 sampleBody "Bearing SKF 6205" "insert failed" sampleItem
      (by decide) (by decide) (by decide) (by decide) (by decide)).2.2.1⟩

/-- Claim C5 (part not found).  A "Replaced" submission that passes the required-field
check and whose non-empty parsed part name is the name of no inventory row is answered
404 with the not-found message, and the store is unchanged: no log, no movement, no
quantity change, whether or not the store would have accepted the log. -/
theorem part_not_found (s : Store) (user : Nat) (body : MaintenanceBody) (name : String)
    (fault : Option String)
    (heng : truthyStr body.engineer = true) (hact : body.action = some "Replaced")
    (hname : targetItemName body.spare_part_used = some name) (hne : name ≠ "")
    (hnone : ∀ r ∈ s.inventory, r.product_name ≠ some name) :
    postMaintenance user body fault s =
      (s, .fail 404 ("Spare part not found in inventory: " ++ name)) := by
  have hitem : findByName s name = none := by
    rw [findByName, List.find?_eq_none]
    intro r hr
    simpa using hnone r hr
  have htx : maintenanceTx user body name fault s =
      .error ("Spare part not found in inventory: " ++ name) := by
    simp [maintenanceTx, hitem]
  have hact' : truthyStr body.action = true := by rw [hact]; decide
  have hn : truthyStr (some name) = true := by simp [truthyStr, hne]
  simp only [postMaintenance, heng, hact', hname, hn, transaction, htx, Option.getD_some,
    includes_not_found]
  simp [hact]

/-- Claim C5 at the sample store, for a part that is not stocked. -/
theorem part_not_found_witness :
    (∀ r ∈ sampleStore.inventory, r.product_name ≠ some "Gasket") ∧
      postMaintenance 7 { sampleBody with spare_part_used := some "Gasket : (2)" } none
          sampleStore =
        (sampleStore, .fail 404 ("Spare part not found in inventory: " ++ "Gasket")) :=
  ⟨by decide,
    part_not_found sampleStore 7 { sampleBody with spare_part_used := some "Gasket : (2)" }
      "Gasket" none (by decide) (by decide) (by decide) (by decide) (by decide)⟩

/-- Claim C6.  A submission that passes the required-field check and whose action is
not "Replaced", or that names no part, inserts exactly one log, with `product_id = null`
and `qty_used = 0`, answers `updatedStock = null`, and leaves the inventory table and the
ledger as they were, whatever quantity it requests. -/
theorem plain_creation (s : Store) (user : Nat) (body : MaintenanceBody)
    (heng : truthyStr body.engineer = true) (hact : truthyStr body.action = true)
    (hplain : body.action ≠ some "Replaced" ∨ truthyStr body.spare_part_used = false) :
    (postMaintenance user body none s).2 = .stock "Log Saved" none ∧
      (postMaintenance user body none s).1.inventory = s.inventory ∧
      (postMaintenance user body none s).1.stockMovements = s.stockMovements ∧
      ∃ l : Log, (postMaintenance user body none s).1.logs = s.logs ++ [l] ∧
        l.id = s.nextLogId ∧ l.product_id = none ∧ l.qty_used = 0 ∧
        some l.action = body.action := by
  have hcond : (body.action == some "Replaced" &&
      truthyStr (targetItemName body.spare_part_used)) = false := by
    rcases hplain with h | h
    · simp [h]
    · have hnone : targetItemName body.spare_part_used = none := by
        rw [targetItemName, if_neg (by simp [h])]
      rw [hnone]
      simp [truthyStr]
  have hpost : postMaintenance user body none s =
      (logAudit user "CREATE" "logs" (some s.nextLogId)
        { s with
          logs := s.logs ++ [{ newLogData body none 0 with id := s.nextLogId }]
          nextLogId := s.nextLogId + 1 }, .stock "Log Saved" none) := by
    simp only [postMaintenance, heng, hact, hcond, logCreate]
    simp
  rw [hpost]
  refine ⟨rfl, rfl, rfl, _, rfl, rfl, rfl, rfl, ?_⟩
  cases ha : body.action with
  | none => simp [ha, truthyStr] at hact
  | some a => simp [newLogData, ha]

/-- Claim C6 at the sample store: an inspection that names a part and a quantity. -/
theorem plain_creation_witness :
    ({ sampleBody with action := some "Inspected" } : MaintenanceBody).action ≠
        some "Replaced" ∧
      (postMaintenance 7 { sampleBody with action := some "Inspected" } none sampleStore).2 =
        .stock "Log Saved" none ∧
      (postMaintenance 7 { sampleBody with action := some "Inspected" } none
        sampleStore).1.inventory = sampleStore.inventory :=
  ⟨by decide,
    (plain_creation sampleStore 7 { sampleBody with action := some "Inspected" }
      (by decide) (by decide) (Or.inl (by decide))).1,
    by decide⟩

/-! ## Deleting and updating logs -/

theorem reversesStock_iff (log : Log) (hz : log.product_id ≠ some 0) :
    reversesStock log = true ↔
      log.product_id.isSome = true ∧ 0 < log.qty_used ∧ log.action = "Replaced" := by
  cases hp : log.product_id with
  | none => simp [reversesStock, truthyId, hp]
  | some p =>
    have hp0 : p ≠ 0 := by
      intro h; apply hz; rw [hp, h]
    simp [reversesStock, truthyId, hp, hp0]

/-- Claim C7 (deleteMaintenanceLog).  In a store whose inventory ids are non-zero and
whose logs reference existing parts: deleting an id that no log has is answered 404 and
changes nothing; otherwise the log row is removed, and when `product_id` is set,
`qty_used > 0` and the action is "Replaced" the part's quantity is raised by `qty_used`
and exactly one movement (IN, `qty_used`, "Maintenance Correction") is appended, while in
every other case the inventory table and the ledger are unchanged. -/
theorem deleteLog_spec (user id : Nat) (s : Store)
    (hpos : ∀ r ∈ s.inventory, r.id ≠ 0)
    (hfk : ∀ l ∈ s.logs, ∀ p ∈ l.product_id, ∃ r ∈ s.inventory, r.id = p) :
    match s.logs.find? (fun l => l.id == id) with
    | none => deleteLog user id s = (s, .fail 404 "Log not found")
    | some log =>
      (deleteLog user id s).2 = .changed "Log deleted and stock restored if applicable" 1 ∧
      (deleteLog user id s).1.logs = s.logs.filter (fun l => !(l.id == id)) ∧
      (log.product_id.isSome = true ∧ 0 < log.qty_used ∧ log.action = "Replaced" →
        (deleteLog user id s).1.inventory =
            s.inventory.map (fun r =>
              if some r.id == log.product_id then { r with qty := r.qty + log.qty_used }
              else r) ∧
          ∃ m : StockMovement,
            (deleteLog user id s).1.stockMovements = s.stockMovements ++ [m] ∧
            some m.product_id = log.product_id ∧ m.movement_type = "IN" ∧
            m.quantity = log.qty_used ∧ m.reference_type = "Maintenance Correction") ∧
      (¬ (log.product_id.isSome = true ∧ 0 < log.qty_used ∧ log.action = "Replaced") →
        (deleteLog user id s).1.inventory = s.inventory ∧
          (deleteLog user id s).1.stockMovements = s.stockMovements) := by
  cases hfind : s.logs.find? (fun l => l.id == id) with
  | none => simp [deleteLog, hfind]
  | some log =>
    have hmem := List.mem_of_find?_eq_some hfind
    have hz : log.product_id ≠ some 0 := by
      intro h
      obtain ⟨r, hr, hr0⟩ := hfk log hmem 0 (by simp [h])
      exact hpos r hr hr0
    simp only
    cases hrev : reversesStock log with
    | false =>
      rw [deleteLog_plain user id s log hfind hrev]
      refine ⟨rfl, rfl, ?_, fun _ => ⟨rfl, rfl⟩⟩
      intro h
      rw [(reversesStock_iff log hz).2 h] at hrev
      cases hrev
    | true =>
      obtain ⟨hsome, -, -⟩ := (reversesStock_iff log hz).1 hrev
      obtain ⟨p, hp⟩ := Option.isSome_iff_exists.1 hsome
      obtain ⟨r, hr, hrp⟩ := hfk log hmem p (by simp [hp])
      have hex : s.inventory.any (fun r => r.id == p) = true := by
        rw [List.any_eq_true]; exact ⟨r, hr, by simp [hrp]⟩
      rw [deleteLog_reverses user id s log p hfind hrev hp hex]
      refine ⟨rfl, rfl, fun _ => ⟨?_, _, rfl, ?_, rfl, rfl, rfl⟩, ?_⟩
      · simp [hp]
      · simp [hp]
      · intro h
        exact absurd ((reversesStock_iff log hz).1 hrev) h

/-- Claim C7 at the sample store: deleting log 2, which used four belts, gives them back. -/
theorem deleteLog_spec_witness :
    (∀ r ∈ sampleStore.inventory, r.id ≠ 0) ∧
      (∀ l ∈ sampleStore.logs, ∀ p ∈ l.product_id, ∃ r ∈ sampleStore.inventory, r.id = p) ∧
      (deleteLog 9 2 sampleStore).2 =
        .changed "Log deleted and stock restored if applicable" 1 ∧
      qtyOf sampleStore 2 = some 50 ∧ qtyOf (deleteLog 9 2 sampleStore).1 2 = some 54 :=
  ⟨by decide, by decide,
    (show (deleteLog 9 2 sampleStore).2 =
        .changed "Log deleted and stock restored if applicable" 1 ∧ _ from
      deleteLog_spec 9 2 sampleStore (by decide) (by decide)).1,
    by decide, by decide⟩

/-- Claim C8 (updateMaintenanceLog).  Updating a log, whatever the id and the new field
values, leaves the inventory table and the ledger as they were; the logs table differs
only in the addressed row, whose id and `product_id` are kept. -/
theorem putLog_frame (user id : Nat) (body : LogBody) (s : Store) :
    (putLog user id body s).1.inventory = s.inventory ∧
      (putLog user id body s).1.stockMovements = s.stockMovements ∧
      (putLog user id body s).1.logs =
        s.logs.map (fun l => if l.id == id then updatedLog body l else l) ∧
      ∀ l ∈ s.logs, (updatedLog body l).id = l.id ∧
        (updatedLog body l).product_id = l.product_id := by
  refine ⟨?_, ?_, ?_, fun l _ => ⟨rfl, rfl⟩⟩
  · rw [putLog]; split <;> rfl
  · rw [putLog]; split <;> rfl
  · rw [putLog]
    split
    · rfl
    · rename_i h
      symm
      conv_rhs => rw [← List.map_id s.logs]
      apply List.map_congr_left
      intro l hl
      have : ¬ l.id = id := by
        intro e
        apply h
        rw [List.any_eq_true]
        exact ⟨l, hl, by simp [e]⟩
      simp [this]

/-! ## The ledger helper and the low-stock query -/

/-- Claim C9, counterexample.  With five bearings in stock, `logStockMovement` of an IN
of 3 leaves five, not eight, and of an OUT of 3 leaves five, not two. -/
theorem logStockMovement_leaves_quantity :
    qtyOf sampleStore 1 = some 5 ∧
      qtyOf (logStockMovement 1 "IN" 3 "ADJUSTMENT" none 7 none sampleStore).1 1 = some 5 ∧
      qtyOf (logStockMovement 1 "IN" 3 "ADJUSTMENT" none 7 none sampleStore).1 1 ≠
        some (5 + 3) ∧
      qtyOf (logStockMovement 1 "OUT" 3 "ADJUSTMENT" none 7 none sampleStore).1 1 ≠
        some (5 - 3) := by
  decide

/-- Claim C9, amended.  `logStockMovement` appends exactly one movement carrying its
arguments, returns that movement's id, and changes nothing else in the store: every
quantity on hand is what it was. -/
theorem logStockMovement_spec (productId : Nat) (movementType : String) (quantity : Int)
    (referenceType : String) (referenceId : Option Nat) (performedBy : Nat)
    (notes : Option String) (s : Store) :
    (logStockMovement productId movementType quantity referenceType referenceId performedBy
        notes s).2 = s.nextMovementId ∧
      (logStockMovement productId movementType quantity referenceType referenceId performedBy
        notes s).1 =
        { s with
          stockMovements := s.stockMovements ++
            [{ id := s.nextMovementId, product_id := productId, movement_type := movementType,
               quantity := quantity, reference_type := referenceType,
               reference_id := referenceId, performed_by := performedBy, notes := notes }]
          nextMovementId := s.nextMovementId + 1 } ∧
      (logStockMovement productId movementType quantity referenceType referenceId performedBy
        notes s).1.inventory = s.inventory ∧
      ∀ id, qtyOf (logStockMovement productId movementType quantity referenceType referenceId
        performedBy notes s).1 id = qtyOf s id :=
  ⟨rfl, rfl, rfl, fun _ => rfl⟩

/-- Claim C10 (checkLowStock).  The query leaves the store unchanged and returns, in
table order and without repetition, exactly the inventory rows whose quantity is at most
their reorder point and whose name is neither null nor empty; asked again on the store it
left, it returns the same rows. -/
theorem checkLowStock_spec (s : Store) :
    (checkLowStock s).1 = s ∧
      (∀ r : Inventory, r ∈ (checkLowStock s).2 ↔
        r ∈ s.inventory ∧ (∃ p, r.reorder_point = some p ∧ r.qty ≤ p) ∧
          ∃ n, r.product_name = some n ∧ n ≠ "") ∧
      (checkLowStock s).2.Sublist s.inventory ∧
      (checkLowStock (checkLowStock s).1).2 = (checkLowStock s).2 := by
  refine ⟨rfl, fun r => ?_, List.filter_sublist _, rfl⟩
  simp only [checkLowStock, List.mem_filter, lowStockRow, Bool.and_eq_true]
  constructor
  · rintro ⟨hm, h1, h2⟩
    refine ⟨hm, ?_, ?_⟩
    · cases hp : r.reorder_point with
      | none => simp [hp] at h1
      | some p => exact ⟨p, rfl, by simpa [hp] using h1⟩
    · cases hn : r.product_name with
      | none => simp [hn] at h2
      | some n => exact ⟨n, rfl, by simpa [hn] using h2⟩
  · rintro ⟨hm, ⟨p, hp, hle⟩, ⟨n, hn, hne⟩⟩
    exact ⟨hm, by simp [hp, hle], by simp [hn, hne]⟩

/-! ## Purchase-order generation -/

theorem addTo_keys_of_mem {α : Type} (gs : List (String × List α)) (k : String) (x : α)
    (h : gs.any (fun g => g.1 == k) = true) :
    (addTo gs k x).map Prod.fst = gs.map Prod.fst := by
  rw [addTo, if_pos h, List.map_map]
  apply List.map_congr_left
  intro g _
  simp only [Function.comp]
  split <;> rfl

theorem sum_length_update {α : Type} (gs : List (String × List α)) (k : String) (x : α)
    (hnd : (gs.map Prod.fst).Nodup) (hk : k ∈ gs.map Prod.fst) :
    ((gs.map (fun g => if g.1 == k then (g.1, g.2 ++ [x]) else g)).map
      (fun g => g.2.length)).sum = (gs.map (fun g => g.2.length)).sum + 1 := by
  induction gs with
  | nil => simp at hk
  | cons g rest ih =>
    simp only [List.map_cons, List.nodup_cons, List.mem_cons] at hnd hk
    by_cases hg : g.1 = k
    · have hnot : k ∉ rest.map Prod.fst := by rw [← hg]; exact hnd.1
      have hrest : rest.map (fun g => if g.1 == k then (g.1, g.2 ++ [x]) else g) = rest := by
        conv_rhs => rw [← List.map_id rest]
        apply List.map_congr_left
        intro g' hg'
        have : ¬ g'.1 = k := by
          intro e
          exact hnot (List.mem_map.2 ⟨g', hg', e⟩)
        simp [this]
      simp only [List.map_cons, hrest, List.sum_cons, hg, beq_self_eq_true, if_true,
        List.length_append, List.length_singleton]
      omega
    · have hk' : k ∈ rest.map Prod.fst := by
        rcases hk with h | h
        · exact absurd h.symm hg
        · exact h
      have := ih hnd.2 hk'
      rw [List.map_cons, if_neg (by simpa using hg), List.map_cons, List.sum_cons,
        List.map_cons, List.sum_cons, this]
      omega

theorem Grouped.nil {α β : Type} (key : β → String) (val : β → α) :
    Grouped key val [] [] := by
  refine ⟨List.nodup_nil, ?_, ?_, rfl⟩ <;> simp

theorem Grouped.push {α β : Type} {key : β → String} {val : β → α} {pre : List β}
    {gs : List (String × List α)} (h : Grouped key val pre gs) (x : β) :
    Grouped key val (pre ++ [x]) (addTo gs (key x) (val x)) := by
  obtain ⟨hnd, hgrp, hcov, hsum⟩ := h
  by_cases hk : gs.any (fun g => g.1 == key x) = true
  · have hkeys := addTo_keys_of_mem gs (key x) (val x) hk
    have hkmem : key x ∈ gs.map Prod.fst := by
      rw [List.any_eq_true] at hk
      obtain ⟨g, hg, hgk⟩ := hk
      exact List.mem_map.2 ⟨g, hg, by simpa using hgk⟩
    refine ⟨by rw [hkeys]; exact hnd, ?_, ?_, ?_⟩
    · intro g hg
      rw [addTo, if_pos hk, List.mem_map] at hg
      obtain ⟨g₀, hg₀, rfl⟩ := hg
      obtain ⟨h1, h2⟩ := hgrp g₀ hg₀
      by_cases hgk : g₀.1 = key x
      · rw [if_pos (by simpa using hgk)]
        refine ⟨?_, by simp⟩
        simp [hgk, List.filter_append, h1]
      · have hgk' : ¬ key x = g₀.1 := fun e => hgk e.symm
        rw [if_neg (by simpa using hgk)]
        refine ⟨?_, h2⟩
        simp [hgk', List.filter_append, h1]
    · intro y hy
      rw [hkeys]
      rcases List.mem_append.1 hy with hy | hy
      · exact hcov y hy
      · simp only [List.mem_singleton] at hy
        rw [hy]; exact hkmem
    · rw [addTo, if_pos hk, sum_length_update gs (key x) (val x) hnd hkmem, hsum]
      simp
  · have hknot : key x ∉ gs.map Prod.fst := by
      intro hm
      apply hk
      rw [List.any_eq_true]
      obtain ⟨g, hg, hgk⟩ := List.mem_map.1 hm
      exact ⟨g, hg, by simp [hgk]⟩
    have hnone : pre.filter (fun y => key y == key x) = [] := by
      rw [List.filter_eq_nil_iff]
      intro y hy hyk
      apply hknot
      have := hcov y hy
      rwa [show key y = key x by simpa using hyk] at this
    rw [addTo, if_neg hk]
    refine ⟨?_, ?_, ?_, ?_⟩
    · rw [List.map_append, List.nodup_append]
      refine ⟨hnd, by simp, ?_⟩
      intro a ha hb
      simp only [List.map_cons, List.map_nil, List.mem_singleton] at hb
      subst hb
      exact hknot ha
    · intro g hg
      rcases List.mem_append.1 hg with hg | hg
      · obtain ⟨h1, h2⟩ := hgrp g hg
        have hgk : ¬ key x = g.1 := by
          intro e
          exact hknot (List.mem_map.2 ⟨g, hg, e.symm⟩)
        refine ⟨?_, h2⟩
        simp [List.filter_append, hgk, h1]
      · simp only [List.mem_singleton] at hg
        subst hg
        simp [List.filter_append, hnone]
    · intro y hy
      rw [List.map_append]
      rcases List.mem_append.1 hy with hy | hy
      · exact List.mem_append_left _ (hcov y hy)
      · simp only [List.mem_singleton] at hy
        subst hy
        exact List.mem_append_right _ (by simp)
    · simp [hsum]

theorem Grouped.foldl {α β : Type} {key : β → String} {val : β → α} (xs : List β) :
    ∀ (pre : List β) (gs : List (String × List α)), Grouped key val pre gs →
      Grouped key val (pre ++ xs) (xs.foldl (fun gs x => addTo gs (key x) (val x)) gs) := by
  induction xs with
  | nil => intro pre gs h; simpa using h
  | cons x xs ih =>
    intro pre gs h
    have := ih (pre ++ [x]) _ (h.push x)
    simpa using this

theorem Grouped.perm {α β : Type} {key : β → String} {val : β → α} {pre : List β}
    {gs gs' : List (String × List α)} (h : Grouped key val pre gs) (hp : gs'.Perm gs) :
    Grouped key val pre gs' := by
  obtain ⟨hnd, hgrp, hcov, hsum⟩ := h
  refine ⟨(hp.map Prod.fst).nodup_iff.2 hnd, fun g hg => hgrp g (hp.subset hg), ?_, ?_⟩
  · intro x hx
    exact (hp.map Prod.fst).symm.subset (hcov x hx)
  · rw [← hsum]
    exact (hp.map (fun g => g.2.length)).sum_eq

theorem objectEntries_perm {α : Type} (gs : List (String × List α)) :
    (objectEntries gs).Perm gs := by
  unfold objectEntries
  refine ((List.perm_insertionSort _ _).append_right _).trans ?_
  exact List.filter_append_perm (fun g => (arrayIndex g.1).isSome) gs

theorem pushTo_of_ok {α : Type} (receiver : String) (gs gs' : List (String × List α))
    (k : String) (x : α) (h : pushTo receiver gs k x = .ok gs') : gs' = addTo gs k x := by
  unfold pushTo at h
  unfold addTo
  by_cases hk : gs.any (fun g => g.1 == k) = true
  · rw [if_pos hk] at h ⊢
    exact (Except.ok.inj h).symm
  · rw [if_neg hk] at h ⊢
    by_cases hp : prototypeKeys.contains k = true
    · rw [if_pos hp] at h; cases h
    · rw [if_neg hp] at h
      exact (Except.ok.inj h).symm

theorem pushTo_eq_ok {α : Type} (receiver : String) (gs : List (String × List α))
    (k : String) (x : α) (hk : k ∉ prototypeKeys) :
    pushTo receiver gs k x = .ok (addTo gs k x) := by
  have hp : ¬ prototypeKeys.contains k = true := by simpa using hk
  unfold pushTo addTo
  by_cases hany : gs.any (fun g => g.1 == k) = true
  · rw [if_pos hany, if_pos hany]
  · rw [if_neg hany, if_neg hany, if_neg hp]

theorem pushTo_error {α : Type} (receiver : String) (gs : List (String × List α))
    (k : String) (x : α) (hk : k ∈ prototypeKeys) (hgs : ∀ g ∈ gs, g.1 ∉ prototypeKeys) :
    pushTo receiver gs k x = .error (notAFunction receiver) := by
  have hany : ¬ gs.any (fun g => g.1 == k) = true := by
    rw [List.any_eq_true]
    rintro ⟨g, hg, hgk⟩
    have : g.1 = k := by simpa using hgk
    exact hgs g hg (this ▸ hk)
  have hp : prototypeKeys.contains k = true := by simpa using hk
  unfold pushTo
  rw [if_neg hany, if_pos hp]

theorem addTo_keys {α : Type} (gs : List (String × List α)) (k : String) (x : α) :
    ∀ g ∈ addTo gs k x, g.1 = k ∨ g.1 ∈ gs.map Prod.fst := by
  intro g hg
  unfold addTo at hg
  split at hg
  · rw [List.mem_map] at hg
    obtain ⟨g₀, hg₀, rfl⟩ := hg
    right
    have : (if (g₀.1 == k) = true then (g₀.1, g₀.2 ++ [x]) else g₀).1 = g₀.1 := by
      split <;> rfl
    rw [this]
    exact List.mem_map.2 ⟨g₀, hg₀, rfl⟩
  · rcases List.mem_append.1 hg with h | h
    · exact Or.inr (List.mem_map.2 ⟨g, h, rfl⟩)
    · simp only [List.mem_singleton] at h
      subst h
      exact Or.inl rfl

theorem forEachInto_ok {α β : Type} (receiver : String) (key : β → String)
    (val : β → Option α) (xs : List β) :
    ∀ gs : List (String × List α),
      (∀ x ∈ xs, (val x).isSome = true → key x ∉ prototypeKeys) →
      forEachInto receiver key val xs gs =
        .ok ((xs.filterMap (fun x => (val x).map (fun v => (key x, v)))).foldl
          (fun g e => addTo g e.1 e.2) gs) := by
  induction xs with
  | nil => intro gs _; rfl
  | cons x xs ih =>
    intro gs h
    have hrest : ∀ y ∈ xs, (val y).isSome = true → key y ∉ prototypeKeys :=
      fun y hy => h y (List.mem_cons_of_mem _ hy)
    rw [forEachInto]
    cases hv : val x with
    | none =>
      simp only [List.filterMap_cons, hv, Option.map_none']
      exact ih gs hrest
    | some v =>
      have hk := h x (List.mem_cons_self _ _) (by simp [hv])
      simp only [List.filterMap_cons, hv, Option.map_some', List.foldl_cons,
        pushTo_eq_ok receiver gs (key x) v hk]
      exact ih _ hrest

theorem forEachInto_error {α β : Type} (receiver : String) (key : β → String)
    (val : β → Option α) (xs : List β) :
    ∀ gs : List (String × List α), (∀ g ∈ gs, g.1 ∉ prototypeKeys) →
      (∃ x ∈ xs, (val x).isSome = true ∧ key x ∈ prototypeKeys) →
      forEachInto receiver key val xs gs = .error (notAFunction receiver) := by
  induction xs with
  | nil => intro gs _ h; obtain ⟨x, hx, -⟩ := h; simp at hx
  | cons x xs ih =>
    intro gs hgs h
    rw [forEachInto]
    cases hv : val x with
    | none =>
      simp only
      apply ih gs hgs
      obtain ⟨y, hy, hys, hyk⟩ := h
      rcases List.mem_cons.1 hy with rfl | hy
      · simp [hv] at hys
      · exact ⟨y, hy, hys, hyk⟩
    | some v =>
      simp only
      by_cases hk : key x ∈ prototypeKeys
      · rw [pushTo_error receiver gs (key x) v hk hgs]
      · rw [pushTo_eq_ok receiver gs (key x) v hk]
        simp only
        apply ih
        · intro g hg
          rcases addTo_keys gs (key x) v g hg with e | e
          · rw [e]; exact hk
          · obtain ⟨g₀, hg₀, e₀⟩ := List.mem_map.1 e
            rw [← e₀]; exact hgs g₀ hg₀
        · obtain ⟨y, hy, hys, hyk⟩ := h
          rcases List.mem_cons.1 hy with rfl | hy
          · exact absurd hyk hk
          · exact ⟨y, hy, hys, hyk⟩

theorem orderQty_eq (i : Inventory) : orderQty i = lineQuantity i := by
  unfold orderQty lineQuantity
  cases h : i.reorder_qty with
  | none => simp [truthyNum]
  | some n =>
    by_cases hn : n = 0
    · simp [truthyNum, hn]
    · simp [truthyNum, hn]

theorem unitCost_eq (i : Inventory) : unitCost i = lineCost i := by
  unfold unitCost lineCost
  cases h : i.unit_cost with
  | none => rfl
  | some c =>
    cases c with
    | finite m e =>
      by_cases hm : m = 0
      · simp [Double.truthy, Double.zero, hm]
      · simp [Double.truthy, hm]
    | infinite n => simp [Double.truthy]
    | nan => simp [Double.truthy, Double.zero]

theorem totalCost_eq (items : List Inventory) :
    totalCost items = sumOfProducts (items.map (fun i => (lineCost i, lineQuantity i))) := by
  unfold totalCost sumOfProducts
  rw [List.foldl_map]
  simp only [unitCost_eq, orderQty_eq]
  rfl

theorem poItemRows_spec (poId : Nat) (items : List Inventory) :
    ∀ firstId : Nat,
      List.Forall₂ LineOf items (poItemRows poId firstId items) ∧
        ∀ it ∈ poItemRows poId firstId items, it.po_id = poId := by
  induction items with
  | nil => intro firstId; exact ⟨List.Forall₂.nil, by simp [poItemRows]⟩
  | cons item rest ih =>
    intro firstId
    obtain ⟨h1, h2⟩ := ih (firstId + 1)
    refine ⟨List.Forall₂.cons ⟨rfl, orderQty_eq item, ?_⟩ h1, ?_⟩
    · show some (unitCost item) = some (lineCost item)
      rw [unitCost_eq]
    · intro it hit
      simp only [poItemRows, List.mem_cons] at hit
      rcases hit with rfl | hit
      · rfl
      · exact h2 it hit

theorem FreshNumbers.step {poNumber : Nat → String} {k n : Nat} {s s1 : Store}
    (h : FreshNumbers poNumber k (n + 1) s) (po : PurchaseOrder)
    (hpo : po.po_number = poNumber k) (hs1 : s1.purchaseOrders = s.purchaseOrders ++ [po]) :
    FreshNumbers poNumber (k + 1) n s1 := by
  obtain ⟨hnew, hinj⟩ := h
  constructor
  · intro j hj p hp
    rw [hs1, List.mem_append] at hp
    have e : k + 1 + j = k + (j + 1) := by omega
    rw [e]
    rcases hp with hp | hp
    · exact hnew (j + 1) (by omega) p hp
    · simp only [List.mem_singleton] at hp
      rw [hp, hpo]
      exact hinj (j + 1) (by omega) 0 (by omega)
  · intro j hj i hi
    have e1 : k + 1 + j = k + (j + 1) := by omega
    have e2 : k + 1 + i = k + (i + 1) := by omega
    rw [e1, e2]
    exact hinj (j + 1) (by omega) (i + 1) (by omega)

/-- The rows the loop over the entries appends: the rows of the orders of a first part
of the entries, which is all of them exactly when the loop ends without error, as it
does when the numbers drawn are fresh. -/
theorem createPOs_rows (poNumber : Nat → String) (gs : List (String × List Inventory)) :
    ∀ (k : Nat) (s : Store) (created : List CreatedPO),
      ∃ rows : List (PurchaseOrder × List POItem),
        rows.length ≤ gs.length ∧
        List.Forall₂ RowOf (gs.take rows.length) rows ∧
        rows.map (fun r => r.1.id) = List.range' s.nextPOId rows.length ∧
        (createPOs poNumber k gs s created).1.purchaseOrders =
          s.purchaseOrders ++ rows.map Prod.fst ∧
        (createPOs poNumber k gs s created).1.poItems =
          s.poItems ++ (rows.map Prod.snd).flatten ∧
        ((∃ c, (createPOs poNumber k gs s created).2 = .ok c) ↔ rows.length = gs.length) ∧
        (FreshNumbers poNumber k gs.length s → rows.length = gs.length) := by
  induction gs with
  | nil =>
    intro k s created
    exact ⟨[], le_refl _, List.Forall₂.nil, rfl, by simp [createPOs], by simp [createPOs],
      by simp [createPOs], fun _ => rfl⟩
  | cons g rest ih =>
    intro k s created
    obtain ⟨supplier, items⟩ := g
    rw [createPOs]
    by_cases hc : s.purchaseOrders.any (fun po => po.po_number == poNumber k) = true
    · have hpc : purchaseOrderCreate (poNumber k) supplier (totalCost items)
          ("Generated for " ++ toString items.length ++ " low stock items") items s =
          .error poNumberTaken := by
        rw [purchaseOrderCreate, if_pos hc]
      rw [hpc]
      refine ⟨[], Nat.zero_le _, List.Forall₂.nil, rfl, by simp, by simp, by simp, ?_⟩
      intro hfresh
      exfalso
      rw [List.any_eq_true] at hc
      obtain ⟨po, hpo, he⟩ := hc
      exact hfresh.1 0 (by simp) po hpo (by simpa using he)
    · set po : PurchaseOrder :=
        { id := s.nextPOId, po_number := poNumber k, supplier_name := some supplier,
          status := "Draft", total_cost := some (totalCost items),
          notes := some ("Generated for " ++ toString items.length ++ " low stock items") }
        with hpo
      set s1 : Store :=
        { s with
          purchaseOrders := s.purchaseOrders ++ [po]
          poItems := s.poItems ++ poItemRows s.nextPOId s.nextPOItemId items
          nextPOId := s.nextPOId + 1
          nextPOItemId := s.nextPOItemId + items.length } with hs1
      have hcreate : purchaseOrderCreate (poNumber k) supplier (totalCost items)
          ("Generated for " ++ toString items.length ++ " low stock items") items s =
          .ok s1 := by
        rw [purchaseOrderCreate, if_neg hc]
      rw [hcreate]
      simp only
      obtain ⟨rows, hlen, hrows, hids, hpos, hits, hok, hfr⟩ :=
        ih (k + 1) s1 (created ++ [createdPO (poNumber k) supplier items])
      obtain ⟨h1, h2⟩ := poItemRows_spec s.nextPOId items s.nextPOItemId
      refine ⟨(po, poItemRows s.nextPOId s.nextPOItemId items) :: rows, ?_, ?_, ?_, ?_, ?_,
        ?_, ?_⟩
      · simp only [List.length_cons]; omega
      · simp only [List.length_cons, List.take_succ_cons]
        exact List.Forall₂.cons ⟨rfl, rfl, by rw [hpo, totalCost_eq], h1, h2⟩ hrows
      · simp only [List.map_cons, List.length_cons, hids, hs1, hpo, List.range'_succ]
      · rw [hpos, hs1]; simp
      · rw [hits, hs1]; simp
      · rw [hok]; simp
      · intro hfresh
        have := hfr (hfresh.step po rfl rfl)
        simp only [List.length_cons]; omega

theorem createPOs_frame (poNumber : Nat → String) (gs : List (String × List Inventory))
    (k : Nat) (s : Store) (created : List CreatedPO) :
    (createPOs poNumber k gs s created).1.inventory = s.inventory ∧
      (createPOs poNumber k gs s created).1.stockMovements = s.stockMovements ∧
      ∃ new : List PurchaseOrder,
        (createPOs poNumber k gs s created).1.purchaseOrders = s.purchaseOrders ++ new ∧
          ∀ po ∈ new, po.status = "Draft" := by
  induction gs generalizing k s created with
  | nil => exact ⟨rfl, rfl, [], by simp [createPOs], by simp⟩
  | cons g rest ih =>
    obtain ⟨supplier, items⟩ := g
    rw [createPOs]
    by_cases hc : s.purchaseOrders.any (fun po => po.po_number == poNumber k) = true
    · have hpc : purchaseOrderCreate (poNumber k) supplier (totalCost items)
          ("Generated for " ++ toString items.length ++ " low stock items") items s =
          .error poNumberTaken := by
        rw [purchaseOrderCreate, if_pos hc]
      rw [hpc]
      exact ⟨rfl, rfl, [], by simp, by simp⟩
    · rw [purchaseOrderCreate, if_neg hc]
      obtain ⟨h1, h2, new, h3, h4⟩ := ih (k + 1)
        { s with
          purchaseOrders := s.purchaseOrders ++
            [{ id := s.nextPOId, po_number := poNumber k, supplier_name := some supplier,
               status := "Draft", total_cost := some (totalCost items),
               notes := some ("Generated for " ++ toString items.length ++
                 " low stock items") }]
          poItems := s.poItems ++ poItemRows s.nextPOId s.nextPOItemId items
          nextPOId := s.nextPOId + 1
          nextPOItemId := s.nextPOItemId + items.length }
        (created ++ [createdPO (poNumber k) supplier items])
      refine ⟨h1, h2,
        { id := s.nextPOId, po_number := poNumber k, supplier_name := some supplier,
          status := "Draft", total_cost := some (totalCost items),
          notes := some ("Generated for " ++ toString items.length ++
            " low stock items") } :: new, h3.trans (by simp), ?_⟩
      intro po hpo
      rcases List.mem_cons.1 hpo with rfl | hpo
      · rfl
      · exact h4 po hpo

theorem itemsBySupplier_ok (low : List Inventory)
    (h : ∀ i ∈ low, supplierOf i ∉ prototypeKeys) :
    ∃ gs, itemsBySupplier low = .ok gs ∧ Grouped supplierOf id low gs := by
  refine ⟨_, forEachInto_ok _ supplierOf (fun item => some item) low [] (fun x hx _ => h x hx),
    ?_⟩
  have hpairs : low.filterMap (fun x => (some x).map (fun v => (supplierOf x, v))) =
      low.map (fun x => (supplierOf x, x)) := by
    simp only [Option.map_some']
    exact congrFun (List.filterMap_eq_map (fun x : Inventory => (supplierOf x, x))) low
  rw [hpairs, List.foldl_map]
  have := Grouped.foldl low [] [] (Grouped.nil supplierOf (id : Inventory → Inventory))
  simpa using this

theorem itemsBySupplier_error (low : List Inventory)
    (h : ∃ i ∈ low, supplierOf i ∈ prototypeKeys) :
    itemsBySupplier low = .error (notAFunction "itemsBySupplier[supplier]") := by
  apply forEachInto_error _ supplierOf (fun item => some item) low [] (by simp)
  obtain ⟨i, hi, hk⟩ := h
  exact ⟨i, hi, rfl, hk⟩

/-- The outcomes of `autoGeneratePurchaseOrders`: nothing to order; a `TypeError` for a
bucket named like a member of `Object.prototype`, before any order is created; or the
loop over the entries of the buckets. -/
theorem autoGenerate_cases (poNumber : Nat → String) (s : Store) :
    ((checkLowStock s).2 = [] ∧ autoGeneratePurchaseOrders poNumber s = (s, .ok .nothing)) ∨
      ((∃ i ∈ (checkLowStock s).2, supplierOf i ∈ prototypeKeys) ∧
        autoGeneratePurchaseOrders poNumber s =
          (s, .error (notAFunction "itemsBySupplier[supplier]"))) ∨
      ((∀ i ∈ (checkLowStock s).2, supplierOf i ∉ prototypeKeys) ∧
        ∃ gs, Grouped supplierOf id (checkLowStock s).2 gs ∧
          (autoGeneratePurchaseOrders poNumber s).1 = (createPOs poNumber 0 gs s []).1 ∧
          ((∃ res, (autoGeneratePurchaseOrders poNumber s).2 = .ok res) ↔
            ∃ c, (createPOs poNumber 0 gs s []).2 = .ok c)) := by
  by_cases hempty : (checkLowStock s).2.isEmpty = true
  · left
    exact ⟨List.isEmpty_iff.1 hempty, by simp [autoGeneratePurchaseOrders, hempty]⟩
  · right
    by_cases hproto : ∃ i ∈ (checkLowStock s).2, supplierOf i ∈ prototypeKeys
    · left
      refine ⟨hproto, ?_⟩
      simp only [autoGeneratePurchaseOrders, hempty, itemsBySupplier_error _ hproto]
      simp
    · right
      have hno : ∀ i ∈ (checkLowStock s).2, supplierOf i ∉ prototypeKeys := by
        intro i hi hk
        exact hproto ⟨i, hi, hk⟩
      obtain ⟨gs, hgs, hgrp⟩ := itemsBySupplier_ok _ hno
      refine ⟨hno, objectEntries gs, hgrp.perm (objectEntries_perm gs), ?_, ?_⟩
      · simp only [autoGeneratePurchaseOrders, hempty, hgs]
        cases h : createPOs poNumber 0 (objectEntries gs) s [] with
        | mk s' res => cases res <;> simp
      · simp only [autoGeneratePurchaseOrders, hempty, hgs]
        cases h : createPOs poNumber 0 (objectEntries gs) s [] with
        | mk s' res => cases res <;> simp

/-- The rows `autoGeneratePurchaseOrders` appends, whatever its outcome: the rows of
the orders of a first part of the entries of the buckets. -/
theorem autoGenerate_rows (poNumber : Nat → String) (s : Store) :
    ∃ (gs : List (String × List Inventory)) (rows : List (PurchaseOrder × List POItem)),
      (∀ g ∈ gs, g.2 = (checkLowStock s).2.filter (fun x => supplierOf x == g.1) ∧ g.2 ≠ []) ∧
      rows.length ≤ gs.length ∧
      List.Forall₂ RowOf (gs.take rows.length) rows ∧
      rows.map (fun r => r.1.id) = List.range' s.nextPOId rows.length ∧
      (autoGeneratePurchaseOrders poNumber s).1.purchaseOrders =
        s.purchaseOrders ++ rows.map Prod.fst ∧
      (autoGeneratePurchaseOrders poNumber s).1.poItems =
        s.poItems ++ (rows.map Prod.snd).flatten := by
  rcases autoGenerate_cases poNumber s with ⟨-, h⟩ | ⟨-, h⟩ | ⟨-, gs, hgrp, h, -⟩
  · exact ⟨[], [], by simp, le_refl _, List.Forall₂.nil, rfl, by simp [h], by simp [h]⟩
  · exact ⟨[], [], by simp, le_refl _, List.Forall₂.nil, rfl, by simp [h], by simp [h]⟩
  · obtain ⟨rows, hlen, hrows, hids, hpos, hits, -, -⟩ := createPOs_rows poNumber gs 0 s []
    refine ⟨gs, rows, ?_, hlen, hrows, hids, by rw [h]; exact hpos, by rw [h]; exact hits⟩
    intro g hg
    have := hgrp.2.1 g hg
    rwa [List.map_id] at this

theorem forall₂_exists_left {α β : Type} {R : α → β → Prop} {l₁ : List α} {l₂ : List β}
    (h : List.Forall₂ R l₁ l₂) : ∀ b ∈ l₂, ∃ a ∈ l₁, R a b := by
  induction h with
  | nil => intro b hb; simp at hb
  | cons hab _ ih =>
    intro b hb
    rcases List.mem_cons.1 hb with rfl | hb
    · exact ⟨_, List.mem_cons_self _ _, hab⟩
    · obtain ⟨a, ha, hr⟩ := ih b hb
      exact ⟨a, List.mem_cons_of_mem _ ha, hr⟩

theorem forall₂_exists_right {α β : Type} {R : α → β → Prop} {l₁ : List α} {l₂ : List β}
    (h : List.Forall₂ R l₁ l₂) : ∀ a ∈ l₁, ∃ b ∈ l₂, R a b := by
  induction h with
  | nil => intro a ha; simp at ha
  | cons hab _ ih =>
    intro a ha
    rcases List.mem_cons.1 ha with rfl | ha
    · exact ⟨_, List.mem_cons_self _ _, hab⟩
    · obtain ⟨b, hb, hr⟩ := ih a ha
      exact ⟨b, List.mem_cons_of_mem _ hb, hr⟩

theorem forall₂_map_eq {α β γ : Type} {R : α → β → Prop} (f : α → γ) (g : β → γ)
    {l₁ : List α} {l₂ : List β} (h : List.Forall₂ R l₁ l₂)
    (hfg : ∀ a b, R a b → f a = g b) : l₁.map f = l₂.map g := by
  induction h with
  | nil => rfl
  | cons hab _ ih => simp [hfg _ _ hab, ih]

/-- Every order appended by a run belongs to a bucket of the low-stock items. -/
theorem autoGenerate_row_of (poNumber : Nat → String) (s : Store) :
    ∃ rows : List (PurchaseOrder × List POItem),
      (autoGeneratePurchaseOrders poNumber s).1.purchaseOrders =
        s.purchaseOrders ++ rows.map Prod.fst ∧
      (autoGeneratePurchaseOrders poNumber s).1.poItems =
        s.poItems ++ (rows.map Prod.snd).flatten ∧
      ∀ r ∈ rows, ∃ b : String,
        RowOf (b, (checkLowStock s).2.filter (fun x => supplierOf x == b)) r := by
  obtain ⟨gs, rows, hgs, -, hrows, -, hpos, hits⟩ := autoGenerate_rows poNumber s
  refine ⟨rows, hpos, hits, fun r hr => ?_⟩
  obtain ⟨g, hg, hrow⟩ := forall₂_exists_left hrows r hr
  have hmem := hgs g (List.mem_of_mem_take hg)
  refine ⟨g.1, ?_⟩
  rw [← hmem.1]
  exact hrow

theorem autoGenerate_frame (poNumber : Nat → String) (s : Store) :
    (autoGeneratePurchaseOrders poNumber s).1.inventory = s.inventory ∧
      (autoGeneratePurchaseOrders poNumber s).1.stockMovements = s.stockMovements ∧
      ∃ new : List PurchaseOrder,
        (autoGeneratePurchaseOrders poNumber s).1.purchaseOrders = s.purchaseOrders ++ new ∧
          ∀ po ∈ new, po.status = "Draft" := by
  rcases autoGenerate_cases poNumber s with ⟨-, h⟩ | ⟨-, h⟩ | ⟨-, gs, -, h, -⟩
  · rw [h]; exact ⟨rfl, rfl, [], by simp, by simp⟩
  · rw [h]; exact ⟨rfl, rfl, [], by simp, by simp⟩
  · rw [h]; exact createPOs_frame poNumber gs 0 s []

theorem FreshNumbers.mono {poNumber : Nat → String} {k n m : Nat} {s : Store}
    (h : FreshNumbers poNumber k n s) (hm : m ≤ n) : FreshNumbers poNumber k m s :=
  ⟨fun j hj => h.1 j (by omega), fun j hj => h.2 j (by omega)⟩

theorem Grouped.length_le {α β : Type} {key : β → String} {val : β → α} {pre : List β}
    {gs : List (String × List α)} (h : Grouped key val pre gs) : gs.length ≤ pre.length := by
  obtain ⟨-, hgrp, -, hsum⟩ := h
  rw [← hsum]
  clear hsum
  induction gs with
  | nil => simp
  | cons g rest ih =>
    have hg := (hgrp g (List.mem_cons_self _ _)).2
    have hpos : 0 < g.2.length := List.length_pos.2 hg
    have := ih (fun x hx => hgrp x (List.mem_cons_of_mem _ hx))
    simp only [List.length_cons, List.map_cons, List.sum_cons]
    omega

/-- When no bucket is named like a member of `Object.prototype` and the order numbers
drawn collide with no existing number and with one another, `autoGeneratePurchaseOrders`
appends one order per distinct bucket of the low-stock items: the orders have distinct ids
and distinct suppliers, a supplier has an order exactly when some low-stock item is in its
bucket, the item rows of an order are the low-stock items of its bucket, in order, and the
item counts add up to the number of low-stock items. -/
theorem grouping_of_fresh_numbers (poNumber : Nat → String) (s : Store)
    (hno : ∀ i ∈ (checkLowStock s).2, supplierOf i ∉ prototypeKeys)
    (hfresh : FreshNumbers poNumber 0 (checkLowStock s).2.length s) :
    ∃ rows : List (PurchaseOrder × List POItem),
      (autoGeneratePurchaseOrders poNumber s).1.purchaseOrders =
        s.purchaseOrders ++ rows.map Prod.fst ∧
      (autoGeneratePurchaseOrders poNumber s).1.poItems =
        s.poItems ++ (rows.map Prod.snd).flatten ∧
      (∃ res, (autoGeneratePurchaseOrders poNumber s).2 = .ok res) ∧
      (rows.map (fun r => r.1.id)).Nodup ∧
      (∀ r ∈ rows, ∀ it ∈ r.2, it.po_id = r.1.id) ∧
      (rows.map (fun r => r.1.supplier_name)).Nodup ∧
      (∀ b : String, (∃ r ∈ rows, r.1.supplier_name = some b) ↔
        ∃ item ∈ (checkLowStock s).2, supplierOf item = b) ∧
      (∀ r ∈ rows, ∀ b : String, r.1.supplier_name = some b →
        r.2.map (fun it => it.product_id) =
          ((checkLowStock s).2.filter (fun i => supplierOf i == b)).map (fun i => i.id)) ∧
      (rows.map (fun r => r.2.length)).sum = (checkLowStock s).2.length := by
  rcases autoGenerate_cases poNumber s with ⟨hnil, h⟩ | ⟨⟨i, hi, hk⟩, -⟩ | ⟨-, gs, hgrp, h, hok⟩
  · refine ⟨[], by simp [h], by simp [h], ⟨.nothing, by rw [h]⟩, by simp, by simp, by simp,
      ?_, by simp, by simp [hnil]⟩
    intro b
    simp [hnil]
  · exact absurd hk (hno i hi)
  · obtain ⟨rows, -, hrows, hids, hpos, hits, hokc, hfr⟩ := createPOs_rows poNumber gs 0 s []
    have hlen : rows.length = gs.length := hfr (hfresh.mono hgrp.length_le)
    rw [hlen, List.take_length] at hrows
    obtain ⟨hnd, hg, hcov, hsum⟩ := hgrp
    have hsup : gs.map (fun g => some g.1) = rows.map (fun r => r.1.supplier_name) :=
      forall₂_map_eq _ _ hrows (fun _ _ h => h.1.symm)
    refine ⟨rows, by rw [h]; exact hpos, by rw [h]; exact hits, hok.2 (hokc.2 hlen), ?_, ?_, ?_,
      ?_, ?_, ?_⟩
    · rw [hids]; exact List.nodup_range' _ _
    · intro r hr
      obtain ⟨g, -, hg'⟩ := forall₂_exists_left hrows r hr
      exact hg'.2.2.2.2
    · rw [← hsup]
      have hmm : gs.map (fun g => some g.1) = (gs.map Prod.fst).map some := by
        rw [List.map_map]; rfl
      rw [hmm]
      exact hnd.map (fun _ _ h => Option.some.inj h)
    · intro b
      constructor
      · rintro ⟨r, hr, hb⟩
        obtain ⟨g, hgm, hrow⟩ := forall₂_exists_left hrows r hr
        have hgb : g.1 = b := Option.some.inj (hrow.1.symm.trans hb)
        obtain ⟨h1, h2⟩ := hg g hgm
        rw [h1, List.map_id] at h2
        obtain ⟨item, hitem⟩ := List.exists_mem_of_ne_nil _ h2
        rw [List.mem_filter] at hitem
        exact ⟨item, hitem.1, by rw [← hgb]; simpa using hitem.2⟩
      · rintro ⟨item, hitem, hb⟩
        have := hcov item hitem
        obtain ⟨g, hgm, hgk⟩ := List.mem_map.1 this
        obtain ⟨r, hr, hrow⟩ := forall₂_exists_right hrows g hgm
        exact ⟨r, hr, by rw [hrow.1, hgk, hb]⟩
    · intro r hr b hb
      obtain ⟨g, hgm, hrow⟩ := forall₂_exists_left hrows r hr
      have hgb : g.1 = b := Option.some.inj (hrow.1.symm.trans hb)
      obtain ⟨h1, -⟩ := hg g hgm
      rw [← hgb, ← List.map_id (List.filter _ _), ← h1]
      exact (forall₂_map_eq _ _ hrow.2.2.2.1 (fun _ _ h => h.1.symm)).symm
    · rw [← hsum]
      exact congrArg List.sum
        (forall₂_map_eq _ _ hrows (fun _ _ h => h.2.2.2.1.length_eq)).symm

/-- Claim C11 (the code at the failing inputs).  With low-stock parts in the buckets
"Acme" and "constructor" the grouping throws a `TypeError` and no order is created,
where the claim has two; and with low-stock parts in the buckets "Acme" and "Unknown
Supplier" and the same order number drawn twice, the first order is created and the
second insert is rejected, so the bucket "Unknown Supplier" has no order. -/
theorem bucket_without_order :
    (checkLowStock prototypeStore).2.map supplierOf = ["Acme", "constructor"] ∧
      thrown (autoGeneratePurchaseOrders samplePONumber prototypeStore).2 =
        some "itemsBySupplier[supplier].push is not a function" ∧
      (autoGeneratePurchaseOrders samplePONumber prototypeStore).1.purchaseOrders = [] ∧
      (checkLowStock reorderStore).2.map supplierOf = ["Acme", "Acme", "Unknown Supplier"] ∧
      thrown (autoGeneratePurchaseOrders repeatedPONumber reorderStore).2 =
        some poNumberTaken ∧
      (autoGeneratePurchaseOrders repeatedPONumber reorderStore).1.purchaseOrders.map
        (fun po => po.supplier_name) = [some "Acme"] ∧
      (autoGeneratePurchaseOrders repeatedPONumber reorderStore).1.poItems.map
        (fun it => it.product_id) = [1, 2] := by
  decide

/-- Claim C12.  For every order a run of `autoGeneratePurchaseOrders` creates, also a
run that a later insert ends early: each item row is the line of a low-stock item, with
the item's id, with the item's `reorder_qty` as quantity, or 20 when that is absent (or
0), and with the item's `unit_cost`, or 0 when that is absent; and the order's
`total_cost` is the sum over its item rows of unit cost times quantity, the products and
the sum being those of the arithmetic of numbers, added from 0 in the order of the
rows. -/
theorem po_costs (poNumber : Nat → String) (s : Store) :
    (∃ rows : List (PurchaseOrder × List POItem),
      (autoGeneratePurchaseOrders poNumber s).1.purchaseOrders =
        s.purchaseOrders ++ rows.map Prod.fst ∧
      (autoGeneratePurchaseOrders poNumber s).1.poItems =
        s.poItems ++ (rows.map Prod.snd).flatten ∧
      ∀ r ∈ rows,
        (∀ it ∈ r.2, it.po_id = r.1.id) ∧
        (∃ members : List Inventory, (∀ i ∈ members, i ∈ (checkLowStock s).2) ∧
          List.Forall₂ LineOf members r.2) ∧
        r.1.total_cost =
          some (sumOfProducts
            (r.2.map (fun it => (it.unit_cost.getD (.finite 0 0), it.quantity))))) ∧
      (∀ (i : Inventory) (n : Int), i.reorder_qty = some n → n ≠ 0 → lineQuantity i = n) ∧
      (∀ i : Inventory, i.reorder_qty = none → lineQuantity i = 20) ∧
      (∀ i : Inventory, i.reorder_qty = some 0 → lineQuantity i = 20) ∧
      (∀ (i : Inventory) (m e : Int), i.unit_cost = some (.finite m e) → m ≠ 0 →
        lineCost i = .finite m e) ∧
      ∀ i : Inventory, i.unit_cost = none → lineCost i = .finite 0 0 := by
  refine ⟨?_, ?_, ?_, ?_, ?_, ?_⟩
  · obtain ⟨rows, hpos, hits, hrow⟩ := autoGenerate_row_of poNumber s
    refine ⟨rows, hpos, hits, fun r hr => ?_⟩
    obtain ⟨b, -, -, htot, hlines, hid⟩ := hrow r hr
    refine ⟨hid, ⟨_, fun i hi => (List.mem_filter.1 hi).1, hlines⟩, ?_⟩
    rw [htot]
    congr 2
    exact forall₂_map_eq _ _ hlines (fun i it h => by rw [h.2.1, h.2.2]; rfl)
  · intro i n h hn
    simp [lineQuantity, h, hn]
  · intro i h
    simp [lineQuantity, h]
  · intro i h
    simp [lineQuantity, h]
  · intro i m e h hm
    simp [lineCost, h, hm]
  · intro i h
    simp [lineCost, h]

/-- Claim C12 at the sample store: the Acme order has the lines 5 at 2 and 30 at 3 and
costs 100, the order without supplier has the line 20 at 2.5 and costs 50; and a line of
3 at the unit cost nearest to 0.1 costs 0.30000000000000004, the product of numbers. -/
theorem po_costs_witness :
    (autoGeneratePurchaseOrders samplePONumber reorderStore).1.poItems.map
        (fun it => (it.po_id, it.product_id, it.quantity, it.unit_cost)) =
      [(1, 1, 5, some (.ofInt 2)), (1, 2, 30, some (.ofInt 3)),
       (2, 3, 20, some (.finite 5 (-1)))] ∧
    (autoGeneratePurchaseOrders samplePONumber reorderStore).1.purchaseOrders.map
        (fun po => (po.id, po.total_cost)) =
      [(1, some (.ofInt 100)), (2, some (.ofInt 50))] ∧
    sumOfProducts [(.finite 3602879701896397 (-55), 3)] = .finite 1351079888211149 (-52) ∧
    ∃ rows : List (PurchaseOrder × List POItem),
      (autoGeneratePurchaseOrders samplePONumber reorderStore).1.purchaseOrders =
        reorderStore.purchaseOrders ++ rows.map Prod.fst ∧
      (autoGeneratePurchaseOrders samplePONumber reorderStore).1.poItems =
        reorderStore.poItems ++ (rows.map Prod.snd).flatten ∧
      ∀ r ∈ rows,
        (∀ it ∈ r.2, it.po_id = r.1.id) ∧
        (∃ members : List Inventory, (∀ i ∈ members, i ∈ (checkLowStock reorderStore).2) ∧
          List.Forall₂ LineOf members r.2) ∧
        r.1.total_cost =
          some (sumOfProducts
            (r.2.map (fun it => (it.unit_cost.getD (.finite 0 0), it.quantity)))) :=
  ⟨by decide, by decide, by decide, (po_costs samplePONumber reorderStore).1⟩

/-- Claim C13, counterexample.  The Acme order of the sample store has members with
`reorder_qty` 5 and 30 and unit costs 2 and 3; its `total_cost` is 2 × 5 + 3 × 30 = 100,
while the sum of unit cost × max(reorder_qty, 20) is 2 × 20 + 3 × 30 = 130. -/
theorem po_cost_not_max :
    ((checkLowStock reorderStore).2.filter (fun i => supplierOf i == "Acme")).map
        (fun i => (i.unit_cost, i.reorder_qty)) =
        [(some (.ofInt 2), some 5), (some (.ofInt 3), some 30)] ∧
      (autoGeneratePurchaseOrders samplePONumber reorderStore).1.purchaseOrders.map
          (fun po => (po.supplier_name, po.total_cost)) =
        [(some "Acme", some (.ofInt 100)), (some "Unknown Supplier", some (.ofInt 50))] ∧
      sumOfProducts [(.ofInt 2, max 5 20), (.ofInt 3, max 30 20)] = .ofInt 130 ∧
      Double.ofInt 100 ≠ .ofInt 130 := by
  decide

/-- Claim C13, amended.  For every order a run creates, `total_cost` is the sum over
the low-stock items of its bucket of unit cost × (`reorder_qty`, or 20 when that is
absent or 0), in the arithmetic of numbers; it is the sum of unit cost ×
max(reorder_qty, 20) when every member's `reorder_qty` is absent, 0 or at least 20. -/
theorem po_cost_max (poNumber : Nat → String) (s : Store) :
    ∃ rows : List (PurchaseOrder × List POItem),
      (autoGeneratePurchaseOrders poNumber s).1.purchaseOrders =
        s.purchaseOrders ++ rows.map Prod.fst ∧
      ∀ r ∈ rows, ∃ b : String, r.1.supplier_name = some b ∧
        r.1.total_cost =
            some (sumOfProducts (((checkLowStock s).2.filter (fun i => supplierOf i == b)).map
              (fun i => (lineCost i, lineQuantity i)))) ∧
          ((∀ i ∈ (checkLowStock s).2, supplierOf i = b →
              i.reorder_qty = none ∨ i.reorder_qty = some 0 ∨
                ∃ n, i.reorder_qty = some n ∧ 20 ≤ n) →
            r.1.total_cost =
              some (sumOfProducts
                (((checkLowStock s).2.filter (fun i => supplierOf i == b)).map
                  (fun i => (lineCost i, max (i.reorder_qty.getD 0) 20))))) := by
  obtain ⟨rows, hpos, -, hrow⟩ := autoGenerate_row_of poNumber s
  refine ⟨rows, hpos, fun r hr => ?_⟩
  obtain ⟨b, hb, -, htot, -, -⟩ := hrow r hr
  refine ⟨b, hb, htot, fun hall => ?_⟩
  rw [htot]
  congr 2
  apply List.map_congr_left
  intro i hi
  rw [List.mem_filter] at hi
  have hq : lineQuantity i = max (i.reorder_qty.getD 0) 20 := by
    rcases hall i hi.1 (by simpa using hi.2) with h | h | ⟨n, h, hn⟩
    · simp [lineQuantity, h]
    · simp [lineQuantity, h]
    · have hn0 : n ≠ 0 := by omega
      simp [lineQuantity, h, hn0, hn]
  rw [hq]

/-- Claim C13, amended, at the sample store: the orders cost 2 × 5 + 3 × 30 = 100 and
2.5 × 20 = 50. -/
theorem po_cost_max_witness :
    (autoGeneratePurchaseOrders samplePONumber reorderStore).1.purchaseOrders.map
        (fun po => (po.supplier_name, po.total_cost)) =
      [(some "Acme", some (.finite 25 2)), (some "Unknown Supplier", some (.finite 25 1))] ∧
    sumOfProducts (((checkLowStock reorderStore).2.filter
        (fun i => supplierOf i == "Acme")).map (fun i => (lineCost i, lineQuantity i))) =
      .finite 25 2 ∧
    ∃ rows : List (PurchaseOrder × List POItem),
      (autoGeneratePurchaseOrders samplePONumber reorderStore).1.purchaseOrders =
        reorderStore.purchaseOrders ++ rows.map Prod.fst ∧
      ∀ r ∈ rows, ∃ b : String, r.1.supplier_name = some b ∧
        r.1.total_cost =
          some (sumOfProducts (((checkLowStock reorderStore).2.filter
            (fun i => supplierOf i == b)).map (fun i => (lineCost i, lineQuantity i)))) := by
  refine ⟨by decide, by decide, ?_⟩
  obtain ⟨rows, h, hrows⟩ := po_cost_max samplePONumber reorderStore
  refine ⟨rows, h, fun r hr => ?_⟩
  obtain ⟨b, hb, htot, -⟩ := hrows r hr
  exact ⟨b, hb, htot⟩

/-- Claim C14.  Purchase-order generation, whether it completes or a number collides
on the way, leaves the inventory table, hence every quantity on hand, and the ledger as
they were, and every order it appends has status "Draft". -/
theorem po_generation_frame (poNumber : Nat → String) (s : Store) :
    (autoGeneratePurchaseOrders poNumber s).1.inventory = s.inventory ∧
      (∀ id, qtyOf (autoGeneratePurchaseOrders poNumber s).1 id = qtyOf s id) ∧
      (autoGeneratePurchaseOrders poNumber s).1.stockMovements = s.stockMovements ∧
      ∃ new : List PurchaseOrder,
        (autoGeneratePurchaseOrders poNumber s).1.purchaseOrders = s.purchaseOrders ++ new ∧
          ∀ po ∈ new, po.status = "Draft" := by
  obtain ⟨h1, h2, new, h3, h4⟩ := autoGenerate_frame poNumber s
  refine ⟨h1, fun id => ?_, h2, new, h3, h4⟩
  simp only [qtyOf, findById, h1]

/-! ## Receipt of a purchase order -/

theorem receiveItem_ok (user poId now : Nat) (item : POItem) (s : Store)
    (hex : s.inventory.any (fun r => r.id == item.product_id) = true) :
    receiveItem user poId now item s = .ok
      { s with
        inventory := s.inventory.map (fun r =>
          if r.id == item.product_id then
            { r with qty := r.qty + item.quantity, last_ordered_date := some now }
          else r)
        stockMovements := s.stockMovements ++
          [{ id := s.nextMovementId, product_id := item.product_id, movement_type := "IN",
             quantity := item.quantity, reference_type := "PO", reference_id := some poId,
             performed_by := user, notes := some ("Received from PO-" ++ toString poId) }]
        nextMovementId := s.nextMovementId + 1 } := by
  simp [receiveItem, hex, stockMovementCreate]

theorem any_id_map (l : List Inventory) (f : Inventory → Inventory)
    (hf : ∀ r, (f r).id = r.id) (id : Nat) :
    (l.map f).any (fun r => r.id == id) = l.any (fun r => r.id == id) := by
  induction l with
  | nil => rfl
  | cons r rest ih => simp [hf, ih]

/-- The state left by the loop of the receipt when every product exists. -/
theorem receiveItems_ok (user poId now : Nat) (items : List POItem) :
    ∀ s : Store, (∀ it ∈ items, s.inventory.any (fun r => r.id == it.product_id) = true) →
      ∃ (s' : Store) (ms : List StockMovement),
        receiveItems user poId now items s = .ok s' ∧
        s'.stockMovements = s.stockMovements ++ ms ∧
        List.Forall₂ (ReceiptOf user poId) items ms ∧
        (∀ id, qtyOf s' id = (qtyOf s id).map (fun q => q + sumQty id items)) ∧
        s'.purchaseOrders = s.purchaseOrders ∧ s'.poItems = s.poItems ∧ s'.logs = s.logs ∧
        s'.auditLog = s.auditLog := by
  induction items with
  | nil =>
    intro s _
    refine ⟨s, [], rfl, by simp, List.Forall₂.nil, fun id => ?_, rfl, rfl, rfl, rfl⟩
    simp only [sumQty, add_zero]
    exact Option.map_id'.symm
  | cons item rest ih =>
    intro s hall
    have hex := hall item (List.mem_cons_self _ _)
    have hstep := receiveItem_ok user poId now item s hex
    set s1 : Store :=
      { s with
        inventory := s.inventory.map (fun r =>
          if r.id == item.product_id then
            { r with qty := r.qty + item.quantity, last_ordered_date := some now }
          else r)
        stockMovements := s.stockMovements ++
          [{ id := s.nextMovementId, product_id := item.product_id, movement_type := "IN",
             quantity := item.quantity, reference_type := "PO", reference_id := some poId,
             performed_by := user, notes := some ("Received from PO-" ++ toString poId) }]
        nextMovementId := s.nextMovementId + 1 } with hs1
    have hf : ∀ r : Inventory, (if r.id == item.product_id then
        { r with qty := r.qty + item.quantity, last_ordered_date := some now } else r).id =
        r.id := by
      intro r; split <;> rfl
    have hall1 : ∀ it ∈ rest, s1.inventory.any (fun r => r.id == it.product_id) = true := by
      intro it hit
      rw [hs1]
      simp only
      rw [any_id_map _ _ hf]
      exact hall it (List.mem_cons_of_mem _ hit)
    obtain ⟨s', ms, hrun, hmv, hrec, hq, hpo, hit, hlg, hau⟩ := ih s1 hall1
    refine ⟨s',
      { id := s.nextMovementId, product_id := item.product_id, movement_type := "IN",
        quantity := item.quantity, reference_type := "PO", reference_id := some poId,
        performed_by := user, notes := some ("Received from PO-" ++ toString poId) } :: ms,
      ?_, ?_, List.Forall₂.cons ⟨rfl, rfl, rfl, rfl, rfl, rfl⟩ hrec, ?_, hpo, hit, hlg, hau⟩
    · rw [receiveItems, hstep]
      exact hrun
    · rw [hmv, hs1]
      simp
    · intro id
      rw [hq id]
      have h1 : qtyOf s1 id = (qtyOf s id).map
          (fun q => q + (if item.product_id == id then item.quantity else 0)) := by
        simp only [qtyOf, hs1]
        show Option.map _ ((s.inventory.map _).find? _) = _
        rw [findById_map s _ hf id]
        cases hfi : findById s id with
        | none => rfl
        | some r =>
          have hri : r.id = id := by
            have := @List.find?_some _ (fun r : Inventory => r.id == id) _ _ hfi
            simpa using this
          by_cases hid : item.product_id = id
          · simp [hri, hid]
          · have hid' : ¬ id = item.product_id := fun e => hid e.symm
            simp [hri, hid, hid']
      rw [h1, Option.map_map]
      congr 1
      funext q
      simp only [Function.comp, sumQty]
      ring

theorem sumQty_eq_zero (id : Nat) (items : List POItem)
    (h : ∀ it ∈ items, it.product_id ≠ id) : sumQty id items = 0 := by
  induction items with
  | nil => rfl
  | cons it rest ih =>
    have h1 := h it (List.mem_cons_self _ _)
    simp [sumQty, h1, ih (fun x hx => h x (List.mem_cons_of_mem _ hx))]

/-- Claim C15 (PO receipt).  For an existing order with at least one line, all of
whose products exist, the receipt succeeds: the quantity of every product rises by the
sum of the quantities of the order's lines for it, so a product with no line keeps its
quantity; exactly one movement (IN, the line's quantity, "PO", reference the order,
performed by the user) is appended per line, in order; and the order's status becomes
"Received". -/
theorem receipt_spec (user poId now : Nat) (s : Store)
    (hitems : s.poItems.filter (fun it => it.po_id == poId) ≠ [])
    (hprod : ∀ it ∈ s.poItems, it.po_id = poId → ∃ r ∈ s.inventory, r.id = it.product_id)
    (hpo : ∃ po ∈ s.purchaseOrders, po.id = poId) :
    (receivePurchaseOrder user poId now s).2 = .message "PO received, inventory updated" ∧
      (∀ id, qtyOf (receivePurchaseOrder user poId now s).1 id =
        (qtyOf s id).map
          (fun q => q + sumQty id (s.poItems.filter (fun it => it.po_id == poId)))) ∧
      (∀ id, (∀ it ∈ s.poItems, it.po_id = poId → it.product_id ≠ id) →
        qtyOf (receivePurchaseOrder user poId now s).1 id = qtyOf s id) ∧
      (∃ ms : List StockMovement,
        (receivePurchaseOrder user poId now s).1.stockMovements = s.stockMovements ++ ms ∧
          List.Forall₂ (ReceiptOf user poId)
            (s.poItems.filter (fun it => it.po_id == poId)) ms) ∧
      (receivePurchaseOrder user poId now s).1.purchaseOrders =
        s.purchaseOrders.map
          (fun po => if po.id == poId then { po with status := "Received" } else po) := by
  have hall : ∀ it ∈ s.poItems.filter (fun it => it.po_id == poId),
      s.inventory.any (fun r => r.id == it.product_id) = true := by
    intro it hit
    rw [List.mem_filter] at hit
    obtain ⟨r, hr, hrid⟩ := hprod it hit.1 (by simpa using hit.2)
    rw [List.any_eq_true]
    exact ⟨r, hr, by simp [hrid]⟩
  obtain ⟨s', ms, hrun, hmv, hrec, hq, hpos, -, -, -⟩ :=
    receiveItems_ok user poId now _ s hall
  have hany : s'.purchaseOrders.any (fun po => po.id == poId) = true := by
    rw [hpos, List.any_eq_true]
    obtain ⟨po, hpo1, hpo2⟩ := hpo
    exact ⟨po, hpo1, by simp [hpo2]⟩
  have hne : (s.poItems.filter (fun it => it.po_id == poId)).isEmpty = false := by
    cases h : s.poItems.filter (fun it => it.po_id == poId) with
    | nil => exact absurd h hitems
    | cons _ _ => rfl
  have hres : receivePurchaseOrder user poId now s =
      (logAudit user "RECEIVE_PO" "purchase_orders" (some poId)
        { s' with
          purchaseOrders := s'.purchaseOrders.map (fun po =>
            if po.id == poId then { po with status := "Received" } else po) },
        .message "PO received, inventory updated") := by
    simp [receivePurchaseOrder, hne, transaction, receiveTx, hrun, purchaseOrderSetStatus, hany]
  have hqs : ∀ id, qtyOf (receivePurchaseOrder user poId now s).1 id = qtyOf s' id := by
    intro id; rw [hres]; rfl
  refine ⟨by rw [hres], fun id => by rw [hqs, hq], fun id hid => ?_, ⟨ms, ?_, hrec⟩, ?_⟩
  · rw [hqs, hq, sumQty_eq_zero id _ (fun it hit => ?_)]
    · simp only [add_zero]; exact Option.map_id'
    · rw [List.mem_filter] at hit
      exact hid it hit.1 (by simpa using hit.2)
  · rw [hres]; exact hmv
  · rw [hres]
    simp only [logAudit, auditCreate, hpos]

/-- Claim C15 at the sample store: lines of 5 and 10 raise the two parts from 5 and 50
to 10 and 60 and write two movements. -/
theorem receipt_spec_witness :
    sampleStore.poItems.filter (fun it => it.po_id == 1) ≠ [] ∧
      (∀ it ∈ sampleStore.poItems, it.po_id = 1 →
        ∃ r ∈ sampleStore.inventory, r.id = it.product_id) ∧
      (∃ po ∈ sampleStore.purchaseOrders, po.id = 1) ∧
      qtyOf sampleStore 1 = some 5 ∧ qtyOf sampleStore 2 = some 50 ∧
      qtyOf (receivePurchaseOrder 7 1 100 sampleStore).1 1 = some 10 ∧
      qtyOf (receivePurchaseOrder 7 1 100 sampleStore).1 2 = some 60 ∧
      (receivePurchaseOrder 7 1 100 sampleStore).1.stockMovements.length = 2 ∧
      (receivePurchaseOrder 7 1 100 sampleStore).2 =
        .message "PO received, inventory updated" :=
  ⟨by decide, by decide, by decide, by decide, by decide, by decide, by decide, by decide,
    (receipt_spec 7 1 100 sampleStore (by decide) (by decide) (by decide)).1⟩

theorem receiveItems_error_of_missing (user poId now : Nat) (items : List POItem)
    (bad : POItem) (hbad : bad ∈ items) :
    ∀ s : Store, s.inventory.any (fun r => r.id == bad.product_id) = false →
      receiveItems user poId now items s = .error recordNotFound := by
  induction items with
  | nil => simp at hbad
  | cons item rest ih =>
    intro s hmiss
    rw [receiveItems]
    by_cases hex : s.inventory.any (fun r => r.id == item.product_id) = true
    · rw [receiveItem_ok user poId now item s hex]
      simp only
      have hbad' : bad ∈ rest := by
        rcases List.mem_cons.1 hbad with h | h
        · rw [h, hex] at hmiss; cases hmiss
        · exact h
      apply ih hbad'
      simp only
      rw [any_id_map _ _ (fun r => by split <;> rfl)]
      exact hmiss
    · simp [receiveItem, hex]

/-- Claim C16 (all-or-nothing receipt).  Whenever the receipt answers with a failure the
store is the store before the call: quantities, ledger and order status are unchanged.
This is so for an order without lines (400) and for an order one of whose lines names a
product that does not exist (500), whatever lines precede it. -/
theorem receipt_all_or_nothing (user poId now : Nat) (s : Store) :
    (∀ (code : Nat) (msg : String),
        (receivePurchaseOrder user poId now s).2 = .fail code msg →
        (receivePurchaseOrder user poId now s).1 = s) ∧
      (s.poItems.filter (fun it => it.po_id == poId) = [] →
        receivePurchaseOrder user poId now s = (s, .fail 400 "PO has no items")) ∧
      (∀ bad ∈ s.poItems.filter (fun it => it.po_id == poId),
        (∀ r ∈ s.inventory, r.id ≠ bad.product_id) →
        receivePurchaseOrder user poId now s = (s, .fail 500 recordNotFound)) := by
  refine ⟨?_, ?_, ?_⟩
  · intro code msg hfail
    rw [receivePurchaseOrder] at hfail ⊢
    split
    · rfl
    · rename_i hne
      simp only [hne] at hfail
      cases htx : receiveTx user poId now (s.poItems.filter (fun it => it.po_id == poId)) s with
      | error e => simp only [transaction, htx]
      | ok r => simp [transaction, htx] at hfail
  · intro h
    simp [receivePurchaseOrder, h]
  · intro bad hbad hmiss
    have hmiss' : s.inventory.any (fun r => r.id == bad.product_id) = false := by
      rw [Bool.eq_false_iff]
      intro h
      rw [List.any_eq_true] at h
      obtain ⟨r, hr, he⟩ := h
      exact hmiss r hr (by simpa using he)
    have hne : (s.poItems.filter (fun it => it.po_id == poId)).isEmpty = false := by
      cases h : s.poItems.filter (fun it => it.po_id == poId) with
      | nil => rw [h] at hbad; simp at hbad
      | cons _ _ => rfl
    simp [receivePurchaseOrder, hne, transaction, receiveTx,
      receiveItems_error_of_missing user poId now _ bad hbad s hmiss']

/-- Claim C16 at a store whose order has a line for a missing product after two good lines. -/
theorem receipt_all_or_nothing_witness :
    (match receiveItems 7 1 100 (orphanStore.poItems.take 2) orphanStore with
      | .ok tx => qtyOf tx 1
      | .error _ => none) = some 10 ∧
      qtyOf (receivePurchaseOrder 7 1 100 orphanStore).1 1 = some 5 ∧
      (receivePurchaseOrder 7 1 100 orphanStore).2 = .fail 500 recordNotFound ∧
      (receivePurchaseOrder 7 1 100 orphanStore).1 = orphanStore :=
  ⟨by decide, by decide, by decide,
    (receipt_all_or_nothing 7 1 100 orphanStore).1 500 recordNotFound (by decide)⟩

/-- Claim C17, the code at the failing input.  The sample store has no order 99;
receiving it is answered 400 "PO has no items", the very answer given for an existing
order without lines, and not a 404. -/
theorem receive_missing_po :
    (∀ po ∈ sampleStore.purchaseOrders, po.id ≠ 99) ∧
      receivePurchaseOrder 7 99 100 sampleStore =
        (sampleStore, .fail 400 "PO has no items") ∧
      receivePurchaseOrder 7 2 100
          { sampleStore with
            purchaseOrders := sampleStore.purchaseOrders ++ [{ id := 2, po_number := "PO-2" }] } =
        ({ sampleStore with
            purchaseOrders := sampleStore.purchaseOrders ++ [{ id := 2, po_number := "PO-2" }] },
          .fail 400 "PO has no items") := by
  decide

/-! ## Predictive analytics -/

theorem msPerDay_pos : 0 < msPerDay := by decide

theorem mathAbs_eq_abs (x : Int) : mathAbs x = |x| := by
  unfold mathAbs
  split
  · rw [abs_of_neg (by assumption)]
  · rw [abs_of_nonneg (by omega)]

theorem ceilDiv_eq_ceil (a b : Int) (hb : 0 < b) : ceilDiv a b = ⌈(a : ℚ) / (b : ℚ)⌉ := by
  have h := Rat.floor_intCast_div_natCast (-a) b.toNat
  have hb' : ((b.toNat : Int)) = b := Int.toNat_of_nonneg hb.le
  have hc : ((b.toNat : ℕ) : ℚ) = (b : ℚ) := by
    rw [← Int.cast_natCast, hb']
  rw [hc, hb'] at h
  rw [ceilDiv, ← h, Int.ceil, Int.cast_neg, neg_div]
  rfl

theorem roundDiv_eq_floor (a b : Int) (hb : 0 < b) :
    roundDiv a b = ⌊(a : ℚ) / (b : ℚ) + 1 / 2⌋ := by
  have h := Rat.floor_intCast_div_natCast (2 * a + b) (2 * b).toNat
  have hb' : (((2 * b).toNat : Int)) = 2 * b := Int.toNat_of_nonneg (by omega)
  have hc : (((2 * b).toNat : ℕ) : ℚ) = ((2 * b : Int) : ℚ) := by
    rw [← Int.cast_natCast, hb']
  rw [hc, hb'] at h
  rw [roundDiv, ← h]
  congr 1
  have hbq : (b : ℚ) ≠ 0 := by exact_mod_cast hb.ne'
  push_cast
  field_simp
  ring

theorem intervalLoop_eq (dates : List Int) :
    ∀ totalDays intervals : Int,
      intervalLoop dates totalDays intervals =
        (totalDays + (gaps dates).sum, intervals + ((gaps dates).length : Int)) := by
  induction dates with
  | nil => intro t n; simp [intervalLoop, gaps]
  | cons prev rest ih =>
    intro t n
    cases rest with
    | nil => simp [intervalLoop, gaps]
    | cons cur rest' =>
      rw [intervalLoop, ih, gaps]
      simp only [List.sum_cons, List.length_cons, Nat.cast_add, Nat.cast_one, Prod.mk.injEq]
      constructor <;> ring

theorem gaps_length (dates : List Int) : (gaps dates).length = dates.length - 1 := by
  induction dates with
  | nil => rfl
  | cons prev rest ih =>
    cases rest with
    | nil => rfl
    | cons cur rest' =>
      rw [gaps, List.length_cons, ih]
      simp

theorem gaps_eq_zipWith (dates : List Int) :
    gaps dates = List.zipWith
      (fun prev cur => ⌈((|cur - prev| : Int) : ℚ) / (msPerDay : ℚ)⌉) dates dates.tail := by
  induction dates with
  | nil => rfl
  | cons prev rest ih =>
    cases rest with
    | nil => rfl
    | cons cur rest' =>
      rw [gaps, ih]
      simp [ceilDiv_eq_ceil _ _ msPerDay_pos, mathAbs_eq_abs]

theorem mtbfOf_of_two_le (dates : List Int) (h : 2 ≤ dates.length) :
    mtbfOf dates = roundDiv (gaps dates).sum ((gaps dates).length : Int) := by
  have hlen : 0 < ((gaps dates).length : Int) := by
    rw [gaps_length]; omega
  rw [mtbfOf, if_pos h, intervalLoop_eq]
  simp only [zero_add]
  rw [if_pos hlen]

theorem mtbfOf_single (d : Int) : mtbfOf [d] = 30 := rfl

theorem getLast?_isSome_of_length {α : Type} (l : List α) (h : 0 < l.length) :
    ∃ x, l.getLast? = some x := by
  cases l with
  | nil => simp at h
  | cons a l => exact ⟨_, List.getLast?_eq_getLast _ (by simp)⟩

theorem datesOf_eq (rows : List EventRow) (system : String) :
    ((rows.filterMap (fun r => r.event_date.map (fun d => (r.system, d)))).filter
      (fun e => e.1 == system)).map Prod.snd = datesOf rows system := by
  induction rows with
  | nil => rfl
  | cons r rest ih =>
    rw [datesOf] at ih ⊢
    cases hd : r.event_date with
    | none =>
      by_cases hs : r.system = system
      · simp [List.filterMap_cons, List.filter_cons, hd, hs, ih]
      · simp [List.filterMap_cons, List.filter_cons, hd, hs, ih]
    | some d =>
      by_cases hs : r.system = system
      · simp [List.filterMap_cons, List.filter_cons, hd, hs, ih]
      · simp [List.filterMap_cons, List.filter_cons, hd, hs, ih]

/-- When no dated row names its system like a member of `Object.prototype`, the `forEach`
ends and `systemEvents` groups the dates by system. -/
theorem systemEvents_ok (rows : List EventRow)
    (hno : ∀ r ∈ rows, r.event_date.isSome = true → r.system ∉ prototypeKeys) :
    ∃ gs, systemEvents rows = .ok gs ∧
      Grouped (fun e : String × Int => e.1) (fun e => e.2)
        (rows.filterMap (fun r => r.event_date.map (fun d => (r.system, d)))) gs := by
  refine ⟨_, forEachInto_ok _ (fun r : EventRow => r.system) (fun r => r.event_date) rows []
    hno, ?_⟩
  have := Grouped.foldl
    (rows.filterMap (fun r => r.event_date.map (fun d => (r.system, d)))) [] []
    (Grouped.nil (fun e : String × Int => e.1) (fun e => e.2))
  simpa using this

/-- A dated row whose system is named like a member of `Object.prototype` makes the
`forEach` throw. -/
theorem systemEvents_error (rows : List EventRow)
    (h : ∃ r ∈ rows, r.event_date.isSome = true ∧ r.system ∈ prototypeKeys) :
    systemEvents rows = .error (notAFunction "systemEvents[row.system]") :=
  forEachInto_error _ (fun r : EventRow => r.system) (fun r => r.event_date) rows []
    (by simp) h

/-- A system with a dated row has an entry in `systemEvents`, holding its dates. -/
theorem systemEvents_mem (rows : List EventRow)
    (hno : ∀ r ∈ rows, r.event_date.isSome = true → r.system ∉ prototypeKeys)
    (system : String) (h : datesOf rows system ≠ []) :
    (system, datesOf rows system) ∈ dataOf (systemEvents rows) := by
  obtain ⟨gs, hgs, -, hgrp, hcov, -⟩ := systemEvents_ok rows hno
  rw [hgs, dataOf]
  rw [← datesOf_eq] at h
  obtain ⟨d, hd⟩ := List.exists_mem_of_ne_nil _ h
  obtain ⟨e, he, -⟩ := List.mem_map.1 hd
  rw [List.mem_filter] at he
  have hkey := hcov e he.1
  obtain ⟨g, hg, hgk⟩ := List.mem_map.1 hkey
  have hgs : g.1 = system := by rw [hgk]; simpa using he.2
  have h2 := (hgrp g hg).1
  rw [hgs, datesOf_eq] at h2
  have : g = (system, datesOf rows system) := Prod.ext hgs h2
  rw [← this]
  exact hg

/-- The entries of the response: the predictions of the entries of `systemEvents`, sorted;
none when the endpoint throws. -/
theorem getPredictions_data (zone : Zone) (now : Int) (rows : List EventRow) :
    dataOf (getPredictions zone now rows) =
      ((objectEntries (dataOf (systemEvents rows))).filterMap
        (fun g => predict zone now g.1 g.2)).insertionSort
          (fun a b => a.days_until_due ≤ b.days_until_due) := by
  rw [getPredictions]
  cases systemEvents rows with
  | error e => simp [dataOf, objectEntries]
  | ok gs => simp only [dataOf]

/-- When no dated row names its system like a member of `Object.prototype`, the endpoint
does not throw. -/
theorem getPredictions_ok (zone : Zone) (now : Int) (rows : List EventRow)
    (hno : ∀ r ∈ rows, r.event_date.isSome = true → r.system ∉ prototypeKeys) :
    getPredictions zone now rows = .ok (dataOf (getPredictions zone now rows)) := by
  obtain ⟨gs, hgs, -⟩ := systemEvents_ok rows hno
  rw [getPredictions, hgs]
  rfl

/-- The prediction of an entry of `systemEvents` is in the response. -/
theorem getPredictions_mem (zone : Zone) (now : Int) (rows : List EventRow)
    (g : String × List Int) (hg : g ∈ dataOf (systemEvents rows)) (p : Prediction)
    (hp : predict zone now g.1 g.2 = some p) : p ∈ dataOf (getPredictions zone now rows) := by
  rw [getPredictions_data]
  apply (List.perm_insertionSort _ _).mem_iff.2
  rw [List.mem_filterMap]
  exact ⟨g, (objectEntries_perm _).mem_iff.2 hg, hp⟩

theorem ceilDiv_nonneg (a : Int) (ha : 0 ≤ a) : 0 ≤ ceilDiv a msPerDay := by
  simp only [ceilDiv, msPerDay]
  omega

theorem mathAbs_nonneg (x : Int) : 0 ≤ mathAbs x := by
  unfold mathAbs; split <;> omega

theorem gaps_sum_nonneg (dates : List Int) : 0 ≤ (gaps dates).sum := by
  induction dates with
  | nil => simp [gaps]
  | cons prev rest ih =>
    cases rest with
    | nil => simp [gaps]
    | cons cur rest' =>
      rw [gaps, List.sum_cons]
      have := ceilDiv_nonneg _ (mathAbs_nonneg (cur - prev))
      omega

theorem mtbfOf_nonneg (dates : List Int) : 0 ≤ mtbfOf dates := by
  by_cases h : 2 ≤ dates.length
  · rw [mtbfOf_of_two_le dates h, roundDiv]
    apply Int.ediv_nonneg
    · have := gaps_sum_nonneg dates
      omega
    · omega
  · rw [mtbfOf, if_neg (by omega)]
    decide

theorem startOfDay_fixed (tz t : Int) :
    startOfDay (Zone.fixed tz) t = t - (t + tz) % msPerDay := by
  simp only [startOfDay, utcOf, localTime, Zone.fixed]
  omega

theorem addDays_fixed (tz t k : Int) : addDays (Zone.fixed tz) t k = t + k * msPerDay := by
  simp only [addDays, utcOf, localTime, Zone.fixed]
  omega

theorem localDay_fixed (tz t : Int) : localDay (Zone.fixed tz) t = (t + tz) / msPerDay := rfl

theorem startOfDay_midnight (tz t : Int) :
    (startOfDay (Zone.fixed tz) t + tz) % msPerDay = 0 := by
  simp only [startOfDay_fixed, msPerDay]
  omega

theorem localDay_startOfDay (tz t : Int) :
    localDay (Zone.fixed tz) (startOfDay (Zone.fixed tz) t) = localDay (Zone.fixed tz) t := by
  simp only [localDay_fixed, startOfDay_fixed, msPerDay]
  omega

theorem localDay_add_days (tz t k : Int) :
    localDay (Zone.fixed tz) (t + k * msPerDay) = localDay (Zone.fixed tz) t + k := by
  simp only [localDay_fixed, msPerDay]
  omega

theorem startOfDay_of_midnight (tz t : Int) (h : (t + tz) % msPerDay = 0) :
    startOfDay (Zone.fixed tz) t = t := by
  simp only [startOfDay_fixed, msPerDay] at h ⊢
  omega

theorem predict_some (zone : Zone) (now : Int) (system : String) (dates : List Int)
    (last : Int) (hlast : dates.getLast? = some last) :
    ∃ p, predict zone now system dates = some p ∧ p.system = system ∧
      p.mtbf_days = (if mtbfOf dates > 0 then some (mtbfOf dates) else none) ∧
      p.last_failure = last ∧
      p.predicted_date =
        startOfDay zone (addDays zone last (if mtbfOf dates != 0 then mtbfOf dates else 30)) ∧
      p.days_until_due = ceilDiv (p.predicted_date - startOfDay zone now) msPerDay ∧
      p.status =
        if p.days_until_due < 0 then "Critical"
        else if p.days_until_due ≤ 7 then "Risk" else "Good" := by
  simp only [predict, hlast]
  exact ⟨_, rfl, rfl, rfl, rfl, rfl, rfl, rfl⟩

theorem interval_eq (dates : List Int) :
    (if mtbfOf dates != 0 then mtbfOf dates else 30) =
      (if 0 < mtbfOf dates then mtbfOf dates else 30) := by
  have h0 := mtbfOf_nonneg dates
  by_cases hz : mtbfOf dates = 0
  · simp [hz]
  · have hpos : 0 < mtbfOf dates := by omega
    simp [hz, hpos]

theorem le_last_of_pairwise (l : List Int) (last : Int) (hlast : l.getLast? = some last)
    (hs : l.Pairwise (fun a b => a ≤ b)) : ∀ d ∈ l, d ≤ last := by
  obtain ⟨init, rfl⟩ : ∃ init, l = init ++ [last] := by
    rw [List.getLast?_eq_some_iff] at hlast
    exact hlast
  intro d hd
  rw [List.pairwise_append] at hs
  rcases List.mem_append.1 hd with h | h
  · exact hs.2.2 d h last (by simp)
  · simp only [List.mem_singleton] at h
    omega

/-- The response for a system with dated rows holds the prediction of its dates. -/
theorem getPredictions_system (zone : Zone) (now : Int) (rows : List EventRow)
    (hno : ∀ r ∈ rows, r.event_date.isSome = true → r.system ∉ prototypeKeys)
    (system : String) (last : Int) (hlast : (datesOf rows system).getLast? = some last) :
    ∃ p ∈ dataOf (getPredictions zone now rows),
      predict zone now system (datesOf rows system) = some p := by
  obtain ⟨p, hp, -⟩ := predict_some zone now system (datesOf rows system) last hlast
  have hne : datesOf rows system ≠ [] := by
    intro h; rw [h] at hlast; cases hlast
  exact ⟨p, getPredictions_mem zone now rows _ (systemEvents_mem rows hno system hne) p hp, hp⟩

/-- Every entry of the response is the prediction of an entry of `systemEvents`. -/
theorem getPredictions_origin (zone : Zone) (now : Int) (rows : List EventRow)
    (p : Prediction) (hp : p ∈ dataOf (getPredictions zone now rows)) :
    ∃ g ∈ dataOf (systemEvents rows), ∃ last, g.2.getLast? = some last ∧
      predict zone now g.1 g.2 = some p := by
  rw [getPredictions_data, List.mem_insertionSort, List.mem_filterMap] at hp
  obtain ⟨g, hg, hpg⟩ := hp
  cases hl : g.2.getLast? with
  | none => simp [predict, hl] at hpg
  | some last => exact ⟨g, (objectEntries_perm _).mem_iff.1 hg, last, hl, hpg⟩

/-- The fields of an entry of the response that do not depend on the system. -/
theorem getPredictions_fields (zone : Zone) (now : Int) (rows : List EventRow)
    (p : Prediction) (hp : p ∈ dataOf (getPredictions zone now rows)) :
    (∃ t, p.predicted_date = startOfDay zone t) ∧
      p.days_until_due = ceilDiv (p.predicted_date - startOfDay zone now) msPerDay ∧
      p.status =
        if p.days_until_due < 0 then "Critical"
        else if p.days_until_due ≤ 7 then "Risk" else "Good" := by
  obtain ⟨g, -, last, hlast, hpg⟩ := getPredictions_origin zone now rows p hp
  obtain ⟨p', hp', -, -, -, hd, hdu, hst⟩ := predict_some zone now g.1 g.2 last hlast
  rw [hpg] at hp'
  cases hp'
  exact ⟨⟨_, hd⟩, hdu, hst⟩

/-- The status of an entry of the response is decided by its `days_until_due`. -/
theorem status_iff (zone : Zone) (now : Int) (rows : List EventRow)
    (p : Prediction) (hp : p ∈ dataOf (getPredictions zone now rows)) :
    (p.status = "Critical" ↔ p.days_until_due < 0) ∧
      (p.status = "Risk" ↔ 0 ≤ p.days_until_due ∧ p.days_until_due ≤ 7) ∧
      (p.status = "Good" ↔ 7 < p.days_until_due) ∧
      (p.status = "Critical" ∨ p.status = "Risk" ∨ p.status = "Good") := by
  obtain ⟨-, -, hst⟩ := getPredictions_fields zone now rows p hp
  rw [hst]
  by_cases h1 : p.days_until_due < 0
  · have h2 : ¬ 7 < p.days_until_due := by omega
    have h3 : ¬ 0 ≤ p.days_until_due := by omega
    simp [h1, h2, h3]
  · by_cases h2 : p.days_until_due ≤ 7
    · have h3 : ¬ 7 < p.days_until_due := by omega
      have h4 : 0 ≤ p.days_until_due := by omega
      simp [h1, h2, h3, h4]
    · have h3 : 7 < p.days_until_due := by omega
      simp [h1, h2, h3]

/-- A dated row of a system named "constructor" makes the endpoint answer with the error
of the `TypeError`, whatever the time zone and the instant. -/
theorem constructor_system_throws (zone : Zone) (now : Int) :
    getPredictions zone now constructorRows =
      .error (notAFunction "systemEvents[row.system]") := by
  rw [getPredictions, systemEvents_error constructorRows
    ⟨_, List.mem_cons_self _ _, by decide, by decide⟩]

/-- Claim C18, counterexample.  A system with two qualifying events on the same day
has the single gap 0, whose rounded mean is 0, and its prediction has `mtbf_days = null`,
not 0. -/
theorem mtbf_null_when_zero :
    datesOf [⟨"Press", some (dateUTC 2024 2 1), "Fixed"⟩,
        ⟨"Press", some (dateUTC 2024 2 1), "Repair"⟩] "Press" =
      [dateUTC 2024 2 1, dateUTC 2024 2 1] ∧
      gaps [dateUTC 2024 2 1, dateUTC 2024 2 1] = [0] ∧
      roundDiv (gaps [dateUTC 2024 2 1, dateUTC 2024 2 1]).sum 1 = 0 ∧
      getPredictions (Zone.fixed 0) (dateUTC 2024 2 5)
        [⟨"Press", some (dateUTC 2024 2 1), "Fixed"⟩,
          ⟨"Press", some (dateUTC 2024 2 1), "Repair"⟩] =
        .ok [{ system := "Press", mtbf_days := none, last_failure := dateUTC 2024 2 1,
               predicted_date := dateUTC 2024 3 2, days_until_due := 26, status := "Good" }] := by
  decide

/-- Claim C18, amended.  When no dated row names its system like a member of
`Object.prototype`, the endpoint answers with its predictions, and for a system with
n ≥ 2 dated rows they hold a prediction of the system; there are n − 1 gaps, the gap of
two consecutive dates being `ceil(|dᵢ − dᵢ₋₁| / 1 day)`, and `mtbf_days` is the mean of
the gaps rounded to the nearest integer (a half rounding up) when that is positive, and
null when it is 0. -/
theorem mtbf_rounded_mean (zone : Zone) (now : Int) (rows : List EventRow) (system : String)
    (hno : ∀ r ∈ rows, r.event_date.isSome = true → r.system ∉ prototypeKeys)
    (h : 2 ≤ (datesOf rows system).length) :
    thrown (getPredictions zone now rows) = none ∧
      ∃ p ∈ dataOf (getPredictions zone now rows), p.system = system ∧
        (gaps (datesOf rows system)).length = (datesOf rows system).length - 1 ∧
        gaps (datesOf rows system) = List.zipWith
          (fun prev cur => ⌈((|cur - prev| : Int) : ℚ) / (msPerDay : ℚ)⌉)
          (datesOf rows system) (datesOf rows system).tail ∧
        p.mtbf_days =
          if 0 < ⌊(((gaps (datesOf rows system)).sum : Int) : ℚ) /
              (((gaps (datesOf rows system)).length : Int) : ℚ) + 1 / 2⌋ then
            some ⌊(((gaps (datesOf rows system)).sum : Int) : ℚ) /
              (((gaps (datesOf rows system)).length : Int) : ℚ) + 1 / 2⌋
          else none := by
  obtain ⟨last, hlast⟩ := getLast?_isSome_of_length (datesOf rows system) (by omega)
  have hlen : 0 < ((gaps (datesOf rows system)).length : Int) := by
    rw [gaps_length]; omega
  obtain ⟨p, hmem, hp⟩ := getPredictions_system zone now rows hno system last hlast
  obtain ⟨p', hp', hs, hm, -⟩ :=
    predict_some zone now system (datesOf rows system) last hlast
  rw [hp] at hp'
  cases hp'
  refine ⟨?_, p, hmem, hs, gaps_length _, gaps_eq_zipWith _, ?_⟩
  · rw [getPredictions_ok zone now rows hno]; rfl
  · rw [hm, mtbfOf_of_two_le _ h, roundDiv_eq_floor _ _ hlen]

/-- Claim C18, amended, at the scenario of the specification: replacements on 1, 11 and
21 January 2024 give the gaps 10 and 10 and `mtbf_days = 10`. -/
theorem mtbf_rounded_mean_witness :
    (∀ r ∈ scenarioRows, r.event_date.isSome = true → r.system ∉ prototypeKeys) ∧
      2 ≤ (datesOf scenarioRows "Conveyor").length ∧
      gaps (datesOf scenarioRows "Conveyor") = [10, 10] ∧
      (dataOf (getPredictions (Zone.fixed 0) (dateUTC 2024 2 5) scenarioRows)).map
        (fun p => (p.system, p.mtbf_days)) = [("Conveyor", some 10), ("Robot", some 30)] ∧
      thrown (getPredictions (Zone.fixed 0) (dateUTC 2024 2 5) scenarioRows) = none ∧
      ∃ p ∈ dataOf (getPredictions (Zone.fixed 0) (dateUTC 2024 2 5) scenarioRows),
        p.system = "Conveyor" := by
  refine ⟨by decide, by decide, by decide, by decide, ?_⟩
  obtain ⟨hok, p, hp, hs, -⟩ :=
    mtbf_rounded_mean (Zone.fixed 0) (dateUTC 2024 2 5) scenarioRows "Conveyor"
      (by decide) (by decide)
  exact ⟨hok, p, hp, hs⟩

/-- Claim C19, the code at the failing input.  For a system with a single date the
prediction has `mtbf_days = 30`, not null, and its predicted date is the start of the day
30 days after the event: one repair on 1 January 2024 gives `mtbf_days = 30` and the
predicted date 31 January 2024. -/
theorem single_event_mtbf :
    (∀ (zone : Zone) (now d : Int) (system : String),
        (predict zone now system [d]).map (fun p => (p.mtbf_days, p.predicted_date)) =
          some (some 30, startOfDay zone (addDays zone d 30))) ∧
      (∀ (tz now d : Int) (system : String),
        (predict (Zone.fixed tz) now system [d]).map
            (fun p => (p.mtbf_days, p.predicted_date)) =
          some (some 30, d + 30 * msPerDay - (d + 30 * msPerDay + tz) % msPerDay)) ∧
      datesOf scenarioRows "Robot" = [dateUTC 2024 1 1] ∧
      (dataOf (getPredictions (Zone.fixed 0) (dateUTC 2024 2 5) scenarioRows)).filter
          (fun p => p.system == "Robot") =
        [{ system := "Robot", mtbf_days := some 30, last_failure := dateUTC 2024 1 1,
           predicted_date := dateUTC 2024 1 31, days_until_due := -5, status := "Critical" }] := by
  refine ⟨fun _ _ _ _ => rfl, fun tz now d system => ?_, by decide, by decide⟩
  have h : (predict (Zone.fixed tz) now system [d]).map
      (fun p => (p.mtbf_days, p.predicted_date)) =
      some (some 30, startOfDay (Zone.fixed tz) (addDays (Zone.fixed tz) d 30)) := rfl
  rw [h, addDays_fixed, startOfDay_fixed]

/-- In a zone of fixed offset and when no dated row names its system like a member of
`Object.prototype`, the predicted date of a system is the local midnight of the day `k`
calendar days after the local day of the instant `last` of its last date, `k` being the
computed `mtbf` when it is positive and 30 otherwise. -/
theorem predicted_date_fixed_zone (tz now : Int) (rows : List EventRow) (system : String)
    (hno : ∀ r ∈ rows, r.event_date.isSome = true → r.system ∉ prototypeKeys)
    (last : Int) (hlast : (datesOf rows system).getLast? = some last) :
    ∃ p ∈ dataOf (getPredictions (Zone.fixed tz) now rows),
      p.system = system ∧ p.last_failure = last ∧
      (p.predicted_date + tz) / msPerDay =
        (last + tz) / msPerDay +
          (if 0 < mtbfOf (datesOf rows system) then mtbfOf (datesOf rows system) else 30) ∧
      (p.predicted_date + tz) % msPerDay = 0 ∧
      ((datesOf rows system).Pairwise (fun a b => a ≤ b) →
        ∀ d ∈ datesOf rows system, d ≤ last) := by
  obtain ⟨p, hmem, hp⟩ := getPredictions_system (Zone.fixed tz) now rows hno system last hlast
  obtain ⟨p', hp', hs, -, hl, hd, -⟩ :=
    predict_some (Zone.fixed tz) now system (datesOf rows system) last hlast
  rw [hp] at hp'
  cases hp'
  rw [interval_eq, addDays_fixed] at hd
  refine ⟨p, hmem, hs, hl, ?_, ?_, le_last_of_pairwise _ last hlast⟩
  · have := localDay_add_days tz last
      (if 0 < mtbfOf (datesOf rows system) then mtbfOf (datesOf rows system) else 30)
    rw [← localDay_fixed, ← localDay_fixed, hd, localDay_startOfDay, this]
  · rw [hd]; exact startOfDay_midnight tz _

/-- Claim C20, the code at the failing input.  On a server in Mountain Time the dates of
the scenario, parsed as midnights of UTC, are evenings of the day before in local time;
the conveyor, whose last event is dated 21 January 2024 and whose interval is 10 days,
gets the predicted date 30 January 2024, local midnight, not 31 January. -/
theorem predicted_date_west_of_utc :
    (datesOf scenarioRows "Conveyor").getLast? = some (dateUTC 2024 1 21) ∧
      mtbfOf (datesOf scenarioRows "Conveyor") = 10 ∧
      dateUTC 2024 1 21 + 10 * msPerDay = dateUTC 2024 1 31 ∧
      getPredictions mountainTime (dateUTC 2024 2 5 + 19 * msPerHour) scenarioRows =
        .ok [{ system := "Conveyor", mtbf_days := some 10, last_failure := dateUTC 2024 1 21,
               predicted_date := dateUTC 2024 1 30 + 7 * msPerHour, days_until_due := -6,
               status := "Critical" },
             { system := "Robot", mtbf_days := some 30, last_failure := dateUTC 2024 1 1,
               predicted_date := dateUTC 2024 1 30 + 7 * msPerHour, days_until_due := -6,
               status := "Critical" }] ∧
      localDay mountainTime (dateUTC 2024 1 30 + 7 * msPerHour) = daysFromCivil 2024 1 30 ∧
      (dateUTC 2024 1 30 + 7 * msPerHour) / msPerDay = daysFromCivil 2024 1 30 ∧
      localDay mountainTime (dateUTC 2024 1 21) = daysFromCivil 2024 1 20 := by
  decide

/-- Claim C21, counterexample.  On a server in Mountain Time, on 16 March 2024, the
press has the predicted date 5 March 2024.  Both instants are local midnights, and
the clocks went forward between them, so they are 10 days and 23 hours apart: the
quotient rounds up to -10, while from 16 March back to 5 March is -11 calendar days. -/
theorem days_across_clock_change :
    getPredictions mountainTime (dateUTC 2024 3 16 + 18 * msPerHour) pressRows =
        .ok [{ system := "Press", mtbf_days := some 30, last_failure := dateUTC 2024 2 5,
               predicted_date := dateUTC 2024 3 5 + 7 * msPerHour, days_until_due := -10,
               status := "Critical" }] ∧
      startOfDay mountainTime (dateUTC 2024 3 16 + 18 * msPerHour) =
        dateUTC 2024 3 16 + 6 * msPerHour ∧
      localTime mountainTime (dateUTC 2024 3 5 + 7 * msPerHour) = dateUTC 2024 3 5 ∧
      localTime mountainTime (dateUTC 2024 3 16 + 6 * msPerHour) = dateUTC 2024 3 16 ∧
      (dateUTC 2024 3 5 + 7 * msPerHour) - (dateUTC 2024 3 16 + 6 * msPerHour) =
        -(10 * msPerDay + 23 * msPerHour) ∧
      daysFromCivil 2024 3 5 - daysFromCivil 2024 3 16 = -11 := by
  decide

/-- Claim C21, amended.  For every prediction of the response, in every time zone,
`days_until_due` is `ceil((predicted_date − today) / 1 day)`, both instants being local
midnights, and it is negative exactly when the predicted date is a full day or more
before today's midnight.  In a time zone of fixed offset `tz` the two midnights are a
whole number of days apart: `days_until_due` is the signed number of calendar days from
today to the predicted date, the predicted date is exactly that many days after
today's midnight, and it is negative exactly when the predicted date is before
today. -/
theorem days_until_due_spec (zone : Zone) (tz now : Int) (rows : List EventRow) :
    (∀ p ∈ dataOf (getPredictions zone now rows),
      p.days_until_due =
          ⌈(((p.predicted_date - startOfDay zone now : Int)) : ℚ) / (msPerDay : ℚ)⌉ ∧
        (∃ t, p.predicted_date = startOfDay zone t) ∧
        (p.days_until_due < 0 ↔ p.predicted_date ≤ startOfDay zone now - msPerDay)) ∧
      ∀ p ∈ dataOf (getPredictions (Zone.fixed tz) now rows),
        (p.predicted_date + tz) % msPerDay = 0 ∧
        startOfDay (Zone.fixed tz) now = now - (now + tz) % msPerDay ∧
        p.days_until_due = (p.predicted_date + tz) / msPerDay - (now + tz) / msPerDay ∧
        p.predicted_date = now - (now + tz) % msPerDay + p.days_until_due * msPerDay ∧
        (p.days_until_due < 0 ↔ p.predicted_date < now - (now + tz) % msPerDay) := by
  constructor
  · intro p hp
    obtain ⟨ht, hdu, -⟩ := getPredictions_fields zone now rows p hp
    refine ⟨?_, ht, ?_⟩
    · rw [hdu, ceilDiv_eq_ceil _ _ msPerDay_pos]
    · rw [hdu]
      simp only [ceilDiv, msPerDay]
      omega
  · intro p hp
    obtain ⟨⟨t, ht⟩, hdu, -⟩ := getPredictions_fields (Zone.fixed tz) now rows p hp
    have hmid : (p.predicted_date + tz) % msPerDay = 0 := by
      rw [ht]; exact startOfDay_midnight tz t
    have hday : p.days_until_due =
        (p.predicted_date + tz) / msPerDay - (now + tz) / msPerDay := by
      rw [hdu, ht]
      simp only [ceilDiv, startOfDay_fixed, msPerDay]
      omega
    refine ⟨hmid, startOfDay_fixed tz now, hday, ?_, ?_⟩
    · rw [hday]
      simp only [msPerDay] at hmid ⊢
      omega
    · rw [hday]
      simp only [msPerDay] at hmid ⊢
      omega

/-- Claim C21, amended, at the scenario with the server clock in UTC: from 5 February
back to 31 January 2024 is -5 days. -/
theorem days_until_due_spec_witness :
    scenarioPrediction ∈
        dataOf (getPredictions (Zone.fixed 0) (dateUTC 2024 2 5) scenarioRows) ∧
      scenarioPrediction.predicted_date = dateUTC 2024 1 31 ∧
      (dateUTC 2024 1 31 + 0) / msPerDay - (dateUTC 2024 2 5 + 0) / msPerDay = -5 ∧
      scenarioPrediction.days_until_due = -5 ∧
      scenarioPrediction.days_until_due =
        (scenarioPrediction.predicted_date + 0) / msPerDay -
          (dateUTC 2024 2 5 + 0) / msPerDay :=
  ⟨by decide, by decide, by decide, by decide,
    ((days_until_due_spec (Zone.fixed 0) 0 (dateUTC 2024 2 5) scenarioRows).2
      scenarioPrediction (by decide)).2.2.1⟩

/-- Claim C22.  For every prediction of the response the status is one of "Critical",
"Risk" and "Good": it is "Critical" exactly when `days_until_due < 0`, "Risk" exactly
when `0 ≤ days_until_due ≤ 7`, and "Good" exactly when `days_until_due > 7`. -/
theorem status_classification (zone : Zone) (now : Int) (rows : List EventRow)
    (p : Prediction) (hp : p ∈ dataOf (getPredictions zone now rows)) :
    (p.status = "Critical" ↔ p.days_until_due < 0) ∧
      (p.status = "Risk" ↔ 0 ≤ p.days_until_due ∧ p.days_until_due ≤ 7) ∧
      (p.status = "Good" ↔ 7 < p.days_until_due) ∧
      (p.status = "Critical" ∨ p.status = "Risk" ∨ p.status = "Good") :=
  status_iff zone now rows p hp

/-- Claim C22 at the scenario: the conveyor is overdue and Critical. -/
theorem status_classification_witness :
    scenarioPrediction ∈
        dataOf (getPredictions (Zone.fixed 0) (dateUTC 2024 2 5) scenarioRows) ∧
      scenarioPrediction.days_until_due < 0 ∧
      (scenarioPrediction.status = "Critical" ↔ scenarioPrediction.days_until_due < 0) :=
  ⟨by decide, by decide,
    (status_classification (Zone.fixed 0) (dateUTC 2024 2 5) scenarioRows scenarioPrediction
      (by decide)).1⟩

/-- Claim C23.  The response is a permutation of the predictions of the systems,
sorted by `days_until_due`: an entry is at most every later entry, in particular the
next one, so no "Risk" or "Good" entry comes before a "Critical" one and no "Good" entry
before a "Risk" one. -/
theorem predictions_sorted (zone : Zone) (now : Int) (rows : List EventRow) :
    (dataOf (getPredictions zone now rows)).Perm
        ((dataOf (systemEvents rows)).filterMap (fun g => predict zone now g.1 g.2)) ∧
      (dataOf (getPredictions zone now rows)).Pairwise
        (fun a b => a.days_until_due ≤ b.days_until_due) ∧
      (dataOf (getPredictions zone now rows)).Chain'
        (fun a b => a.days_until_due ≤ b.days_until_due) ∧
      (dataOf (getPredictions zone now rows)).Pairwise
        (fun a b => (b.status = "Critical" → a.status = "Critical") ∧
          (b.status = "Risk" → a.status = "Critical" ∨ a.status = "Risk")) := by
  haveI : IsTotal Prediction (fun a b => a.days_until_due ≤ b.days_until_due) :=
    ⟨fun a b => le_total a.days_until_due b.days_until_due⟩
  haveI : IsTrans Prediction (fun a b => a.days_until_due ≤ b.days_until_due) :=
    ⟨fun a b c h₁ h₂ => le_trans h₁ h₂⟩
  have hsorted : (dataOf (getPredictions zone now rows)).Pairwise
      (fun a b => a.days_until_due ≤ b.days_until_due) := by
    rw [getPredictions_data]
    exact List.sorted_insertionSort _ _
  refine ⟨?_, hsorted, List.Pairwise.chain' hsorted, ?_⟩
  · rw [getPredictions_data]
    exact (List.perm_insertionSort _ _).trans ((objectEntries_perm _).filterMap _)
  refine hsorted.imp_of_mem ?_
  intro a b ha hb hle
  obtain ⟨ha1, -, ha3, ha4⟩ := status_iff zone now rows a ha
  obtain ⟨hb1, hb2, -, -⟩ := status_iff zone now rows b hb
  constructor
  · intro h
    exact ha1.2 (lt_of_le_of_lt hle (hb1.1 h))
  · intro h
    have hb7 := (hb2.1 h).2
    rcases ha4 with h' | h' | h'
    · exact Or.inl h'
    · exact Or.inr h'
    · have := ha3.1 h'
      omega

/-- Claim C24, counterexample.  With the server clock in UTC, the conveyor of the
scenario has the predicted date 31 January 2024, and on 5 February 2024 its
`days_until_due` is -5, not -6. -/
theorem scenario_days_not_minus_six :
    datesOf scenarioRows "Conveyor" =
        [dateUTC 2024 1 1, dateUTC 2024 1 11, dateUTC 2024 1 21] ∧
      (dataOf (getPredictions (Zone.fixed 0) (dateUTC 2024 2 5) scenarioRows)).filter
          (fun p => p.system == "Conveyor") = [scenarioPrediction] ∧
      thrown (getPredictions (Zone.fixed 0) (dateUTC 2024 2 5) scenarioRows) = none ∧
      scenarioPrediction.predicted_date = dateUTC 2024 1 31 ∧
      (dateUTC 2024 1 31 - dateUTC 2024 2 5) / msPerDay = -5 ∧
      scenarioPrediction.days_until_due = -5 ∧
      scenarioPrediction.days_until_due ≠ -6 := by
  decide

/-- Claim C24, amended.  With the server clock in UTC, and when no dated row names its
system like a member of `Object.prototype`, a system whose dated rows are 1, 11 and
21 January 2024 has, at any instant of 5 February 2024, the prediction with
`mtbf_days = 10`, predicted date 31 January 2024, `days_until_due = -5` and status
"Critical". -/
theorem mtbf_scenario (now : Int) (rows : List EventRow) (system : String)
    (hno : ∀ r ∈ rows, r.event_date.isSome = true → r.system ∉ prototypeKeys)
    (hrows : datesOf rows system = [dateUTC 2024 1 1, dateUTC 2024 1 11, dateUTC 2024 1 21])
    (hnow : now / msPerDay = daysFromCivil 2024 2 5) :
    thrown (getPredictions (Zone.fixed 0) now rows) = none ∧
      ∃ p ∈ dataOf (getPredictions (Zone.fixed 0) now rows),
        p.system = system ∧ p.mtbf_days = some 10 ∧
        p.last_failure = dateUTC 2024 1 21 ∧ p.predicted_date = dateUTC 2024 1 31 ∧
        p.days_until_due = -5 ∧ p.status = "Critical" := by
  have hlast : (datesOf rows system).getLast? = some (dateUTC 2024 1 21) := by
    rw [hrows]; decide
  obtain ⟨p, hmem, hp⟩ := getPredictions_system (Zone.fixed 0) now rows hno system _ hlast
  obtain ⟨p', hp', hs, hm, hl, hd, hdu, hst⟩ :=
    predict_some (Zone.fixed 0) now system (datesOf rows system) _ hlast
  rw [hp] at hp'
  cases hp'
  have hmtbf : mtbfOf (datesOf rows system) = 10 := by rw [hrows]; decide
  have hpd : p.predicted_date = dateUTC 2024 1 31 := by
    rw [hd, hmtbf]; decide
  have hdays : p.days_until_due = -5 := by
    rw [hdu, hpd, startOfDay_fixed]
    have h31 : dateUTC 2024 1 31 = 19753 * 86400000 := by decide
    have h5 : daysFromCivil 2024 2 5 = 19758 := by decide
    rw [h31]
    rw [h5] at hnow
    simp only [ceilDiv, msPerDay] at hnow ⊢
    omega
  refine ⟨?_, p, hmem, hs, ?_, hl, hpd, hdays, ?_⟩
  · rw [getPredictions_ok (Zone.fixed 0) now rows hno]; rfl
  · rw [hm, hmtbf]; rfl
  · rw [hst, hdays]; rfl

/-- Claim C24, amended, at noon of 5 February 2024. -/
theorem mtbf_scenario_witness :
    (∀ r ∈ scenarioRows, r.event_date.isSome = true → r.system ∉ prototypeKeys) ∧
      datesOf scenarioRows "Conveyor" =
        [dateUTC 2024 1 1, dateUTC 2024 1 11, dateUTC 2024 1 21] ∧
      (dateUTC 2024 2 5 + 12 * msPerHour) / msPerDay = daysFromCivil 2024 2 5 ∧
      (dataOf (getPredictions (Zone.fixed 0) (dateUTC 2024 2 5 + 12 * msPerHour)
          scenarioRows)).map
        (fun p => (p.system, p.mtbf_days, p.predicted_date, p.days_until_due, p.status)) =
        [("Conveyor", some 10, dateUTC 2024 1 31, -5, "Critical"),
         ("Robot", some 30, dateUTC 2024 1 31, -5, "Critical")] ∧
      ∃ p ∈ dataOf (getPredictions (Zone.fixed 0) (dateUTC 2024 2 5 + 12 * msPerHour)
          scenarioRows),
        p.system = "Conveyor" ∧ p.days_until_due = -5 ∧ p.status = "Critical" := by
  refine ⟨by decide, by decide, by decide, by decide, ?_⟩
  obtain ⟨-, p, hp, hs, -, -, -, hd, hst⟩ :=
    mtbf_scenario (dateUTC 2024 2 5 + 12 * msPerHour) scenarioRows "Conveyor"
      (by decide) (by decide) (by decide)
  exact ⟨p, hp, hs, hd, hst⟩

theorem isPrefixOf_separator (n rest : List Char)
    (h : (" : (".toList).isPrefixOf (n ++ " : (".toList ++ rest) = true) (hn : n ≠ []) :
    (" : (".toList).isPrefixOf n = true := by
  have hsep : " : (".toList = [' ', ':', ' ', '('] := rfl
  rw [hsep] at h ⊢
  rcases n with _ | ⟨a, _ | ⟨b, _ | ⟨c, _ | ⟨d, n⟩⟩⟩⟩
  · exact absurd rfl hn
  · simp [List.isPrefixOf] at h
  · simp [List.isPrefixOf] at h
  · simp [List.isPrefixOf] at h
  · simpa [List.isPrefixOf] using h

theorem splitHead_separator (n rest : List Char)
    (h : includes " : (".toList n = false) :
    splitHead " : (".toList (n ++ " : (".toList ++ rest) = n := by
  induction n with
  | nil =>
    have hsep : " : (".toList = [' ', ':', ' ', '('] := rfl
    rw [hsep]
    simp [splitHead, List.isPrefixOf]
  | cons c n ih =>
    rw [includes, Bool.or_eq_false_iff] at h
    have hnot : (" : (".toList).isPrefixOf (c :: n ++ " : (".toList ++ rest) = false := by
      rw [Bool.eq_false_iff]
      intro hp
      have := isPrefixOf_separator (c :: n) rest hp (by simp)
      rw [h.1] at this
      cases this
    rw [List.cons_append, List.cons_append, splitHead]
    rw [List.cons_append, List.cons_append] at hnot
    rw [hnot]
    simp only [Bool.false_eq_true, if_false]
    rw [ih h.2]

/-- Claim C25, counterexample.  For the product name "Seal : (small)" and the displayed
quantity 4, the name parsed from the display string is "Seal". -/
theorem part_name_with_separator :
    targetItemName (some ("Seal : (small)" ++ " : (" ++ "4" ++ ")")) = some "Seal" ∧
      targetItemName (some ("Seal : (small)" ++ " : (" ++ "4" ++ ")")) ≠
        some "Seal : (small)" := by
  decide

/-- Claim C25, amended.  For every product name `n` in which " : (" does not occur and
every displayed quantity `k`, the name parsed from `n ++ " : (" ++ k ++ ")"` is exactly
`n`, so the row looked up is the row named `n`. -/
theorem part_name_round_trip (n k : String)
    (h : includes " : (".toList n.toList = false) :
    targetItemName (some (n ++ " : (" ++ k ++ ")")) = some n ∧
      ∀ s : Store,
        findByName s ((targetItemName (some (n ++ " : (" ++ k ++ ")"))).getD "") =
          findByName s n := by
  have hne : truthyStr (some (n ++ " : (" ++ k ++ ")")) = true := by
    simp only [truthyStr, bne_iff_ne, ne_eq]
    intro he
    have := congrArg String.length he
    simp only [String.length_append] at this
    have h1 : ")".length = 1 := rfl
    have h0 : "".length = 0 := rfl
    omega
  have hlist : (n ++ " : (" ++ k ++ ")").toList =
      n.toList ++ " : (".toList ++ (k.toList ++ ")".toList) := by
    show (n ++ " : (" ++ k ++ ")").data = _
    simp only [String.data_append, List.append_assoc]
    rfl
  have hmain : targetItemName (some (n ++ " : (" ++ k ++ ")")) = some n := by
    rw [targetItemName, if_pos hne]
    simp only [Option.map_some', hlist]
    rw [splitHead_separator _ _ h]
    rfl
  exact ⟨hmain, fun s => by rw [hmain]; rfl⟩

/-- Claim C25, amended, at a name of the seed data. -/
theorem part_name_round_trip_witness :
    includes " : (".toList "Bearing SKF 6205".toList = false ∧
      targetItemName (some ("Bearing SKF 6205" ++ " : (" ++ "25" ++ ")")) =
        some "Bearing SKF 6205" :=
  ⟨by decide, (part_name_round_trip "Bearing SKF 6205" "25" (by decide)).1⟩

/-- Claim C26, counterexample.  At the sample store a "Replaced" submission asking for
0, or for -3, bearings is answered with success: a log with `qty_used = 1` is created,
an OUT movement of 1 is appended and the stock drops from 5 to 4. -/
theorem nonpositive_quantity_accepted :
    (postMaintenance 7 { sampleBody with quantity := some 0 } none sampleStore).2 =
        .stock "Maintenance Logged & Stock Updated" (some 4) ∧
      (postMaintenance 7 { sampleBody with quantity := some (-3) } none sampleStore).2 =
        .stock "Maintenance Logged & Stock Updated" (some 4) ∧
      qtyOf sampleStore 1 = some 5 ∧
      qtyOf (postMaintenance 7 { sampleBody with quantity := some 0 } none sampleStore).1 1 =
        some 4 ∧
      (postMaintenance 7 { sampleBody with quantity := some 0 } none sampleStore).1.logs.map
        (fun l => l.qty_used) = [0, 4, 1] ∧
      (postMaintenance 7 { sampleBody with quantity := some 0 } none
        sampleStore).1.stockMovements.map (fun m => (m.movement_type, m.quantity)) =
        [("OUT", 1)] := by
  decide

/-- Claim C26, amended.  A "Replaced" submission that passes the required-field check,
whose part resolves and whose requested quantity is zero, negative or absent is not
rejected: it is served as a request for 1, with `updatedStock` the quantity less 1, one
OUT movement of 1 and one log with `qty_used = 1`. -/
theorem nonpositive_quantity_deducts_one (s : Store) (user : Nat) (body : MaintenanceBody)
    (name : String) (item : Inventory)
    (heng : truthyStr body.engineer = true) (hact : body.action = some "Replaced")
    (hname : targetItemName body.spare_part_used = some name) (hne : name ≠ "")
    (hitem : findByName s name = some item) (hq : body.quantity.getD 0 ≤ 0) :
    (postMaintenance user body none s).2 =
        .stock "Maintenance Logged & Stock Updated" (some (item.qty - 1)) ∧
      findByName (postMaintenance user body none s).1 name =
        some { item with qty := item.qty - 1 } ∧
      (postMaintenance user body none s).1.stockMovements =
        s.stockMovements ++
          [{ id := s.nextMovementId, product_id := item.id, movement_type := "OUT",
             quantity := 1, reference_type := "MAINTENANCE", reference_id := none,
             performed_by := user, notes := some "Maintenance: Replaced" }] ∧
      ∃ l : Log, (postMaintenance user body none s).1.logs = s.logs ++ [l] ∧
        l.product_id = some item.id ∧ l.qty_used = 1 := by
  have hone : qtyUsed body.quantity = 1 := qtyUsed_of_nonpos body.quantity hq
  rw [postMaintenance_replaced user body name item s heng hact hname hne hitem, hone]
  refine ⟨rfl, ?_, ?_, _, rfl, rfl, rfl⟩
  · simp only [logAudit, auditCreate, findByName]
    rw [findByName_map s _ (fun r => by split <;> rfl) name, hitem]
    simp
  · simp [logAudit, auditCreate, hact]

/-- Claim C26, amended, at the sample store with a requested quantity of 0. -/
theorem nonpositive_quantity_deducts_one_witness :
    truthyStr ({ sampleBody with quantity := some 0 } : MaintenanceBody).engineer = true ∧
      ({ sampleBody with quantity := some 0 } : MaintenanceBody).quantity.getD 0 ≤ 0 ∧
      findByName sampleStore "Bearing SKF 6205" = some sampleItem ∧
      (postMaintenance 7 { sampleBody with quantity := some 0 } none sampleStore).2 =
        .stock "Maintenance Logged & Stock Updated" (some (sampleItem.qty - 1)) :=
  ⟨by decide, by decide, by decide,
    (nonpositive_quantity_deducts_one sampleStore 7 { sampleBody with quantity := some 0 }
      "Bearing SKF 6205" sampleItem (by decide) (by decide) (by decide) (by decide)
      (by decide) (by decide)).1⟩

/-! ## The ledger is append-only -/

theorem appends_of_eq {P : StockMovement → Prop} {s s' : Store}
    (h : s'.stockMovements = s.stockMovements) : Appends P s s' :=
  ⟨[], by simp [h], by simp⟩

theorem appends_refl (P : StockMovement → Prop) (s : Store) : Appends P s s :=
  appends_of_eq rfl

theorem appends_trans {P : StockMovement → Prop} {a b c : Store} (h₁ : Appends P a b)
    (h₂ : Appends P b c) : Appends P a c := by
  obtain ⟨m₁, e₁, p₁⟩ := h₁
  obtain ⟨m₂, e₂, p₂⟩ := h₂
  refine ⟨m₁ ++ m₂, by rw [e₂, e₁, List.append_assoc], ?_⟩
  intro m hm
  rcases List.mem_append.1 hm with h | h
  · exact p₁ m h
  · exact p₂ m h

theorem appends_mono {P Q : StockMovement → Prop} {s s' : Store} (h : Appends P s s')
    (hPQ : ∀ m, P m → Q m) : Appends Q s s' := by
  obtain ⟨ms, e, p⟩ := h
  exact ⟨ms, e, fun m hm => hPQ m (p m hm)⟩

theorem appends_logAudit {P : StockMovement → Prop} {s s' : Store} (h : Appends P s s')
    (user : Nat) (a t : String) (r : Option Nat) :
    Appends P s (InventoryManagement.logAudit user a t r s') := h

theorem appended_of_appends {P : StockMovement → Prop} {s s' : Store} (h : Appends P s s') :
    s'.stockMovements = s.stockMovements ++ appended s s' ∧ ∀ m ∈ appended s s', P m := by
  obtain ⟨ms, e, p⟩ := h
  have : appended s s' = ms := by simp [InventoryManagement.appended, e]
  rw [this]
  exact ⟨e, p⟩

theorem maintenanceTx_appends (user : Nat) (body : MaintenanceBody) (name : String)
    (fault : Option String) (s : Store) (r : Store × (Log × Int))
    (h : maintenanceTx user body name fault s = .ok r) :
    Appends (fun m => 0 < m.quantity) s r.1 := by
  unfold maintenanceTx at h
  cases hitem : findByName s name with
  | none => simp [hitem] at h
  | some item =>
    cases fault with
    | some e =>
      simp [hitem, inventoryDecrement, any_id_of_findByName hitem, logCreate] at h
    | none =>
      simp only [hitem, inventoryDecrement, any_id_of_findByName hitem, if_true, logCreate,
        stockMovementCreate, Except.ok.injEq] at h
      subst h
      refine ⟨_, rfl, ?_⟩
      intro m hm
      rw [List.mem_singleton] at hm
      subst hm
      exact qtyUsed_pos body.quantity

theorem postMaintenance_appends (user : Nat) (body : MaintenanceBody) (fault : Option String)
    (s : Store) : Appends (fun m => 0 < m.quantity) s (postMaintenance user body fault s).1 := by
  rw [postMaintenance]
  by_cases hv : (!truthyStr body.engineer || !truthyStr body.action) = true
  · rw [if_pos hv]; exact appends_refl _ s
  · rw [if_neg hv]
    simp only
    by_cases hr : (body.action == some "Replaced" &&
        truthyStr (targetItemName body.spare_part_used)) = true
    · rw [if_pos hr]
      cases htx : maintenanceTx user body ((targetItemName body.spare_part_used).getD "")
          fault s with
      | error e =>
        simp only [transaction, htx]
        split <;> exact appends_refl _ s
      | ok r =>
        simp only [transaction, htx]
        exact appends_logAudit (maintenanceTx_appends _ _ _ _ _ _ htx) _ _ _ _
    · rw [if_neg hr]
      cases fault with
      | some e =>
        simp only [logCreate]
        split <;> exact appends_refl _ s
      | none =>
        simp only [logCreate]
        exact appends_of_eq rfl

theorem deleteLogTx_appends (user id : Nat) (log : Log) (s : Store) (r : Store × Unit)
    (h : deleteLogTx user id log s = .ok r) : Appends (fun m => 0 < m.quantity) s r.1 := by
  unfold deleteLogTx at h
  cases hrev : reversesStock log with
  | false =>
    by_cases hl : s.logs.any (fun l => l.id == id) = true
    · simp only [hrev, Bool.false_eq_true, if_false, logDelete, hl, if_true, auditCreate,
        Except.ok.injEq] at h
      subst h
      exact appends_of_eq rfl
    · simp [hrev, logDelete, hl] at h
  | true =>
    cases hex : s.inventory.any (fun r => r.id == log.product_id.getD 0) with
    | false => simp [hrev, inventoryIncrement, hex] at h
    | true =>
      by_cases hl : s.logs.any (fun l => l.id == id) = true
      · simp only [hrev, inventoryIncrement, hex, if_true, stockMovementCreate, logDelete, hl,
          auditCreate, Except.ok.injEq] at h
        subst h
        refine ⟨_, rfl, ?_⟩
        intro m hm
        rw [List.mem_singleton] at hm
        subst hm
        simp only [reversesStock, Bool.and_eq_true, decide_eq_true_eq] at hrev
        exact hrev.1.2
      · simp [hrev, inventoryIncrement, hex, stockMovementCreate, logDelete, hl] at h

theorem deleteLog_appends (user id : Nat) (s : Store) :
    Appends (fun m => 0 < m.quantity) s (deleteLog user id s).1 := by
  rw [deleteLog]
  cases hfind : s.logs.find? (fun l => l.id == id) with
  | none => exact appends_refl _ s
  | some log =>
    cases htx : deleteLogTx user id log s with
    | error e => simp only [transaction, htx]; exact appends_refl _ s
    | ok r => simp only [transaction, htx]; exact deleteLogTx_appends _ _ _ _ _ htx

theorem putInventory_appends (user id : Nat) (body : InventoryBody) (fault : Option String)
    (s : Store) : Appends (fun m => 0 < m.quantity) s (putInventory user id body fault s).1 := by
  rw [putInventory]
  cases hold : findById s id with
  | none => exact appends_refl _ s
  | some oldRow =>
    simp only
    split
    · exact appends_refl _ s
    · by_cases hq : oldRow.qty = body.qty
      · have hne : (oldRow.qty != body.qty) = false := by simp [hq]
        rw [if_neg (by simp [hne])]
        exact appends_of_eq rfl
      · have hne : (oldRow.qty != body.qty) = true := by simp [hq]
        rw [if_pos hne]
        cases fault with
        | some e => exact appends_of_eq rfl
        | none =>
          simp only [logStockMovement, stockMovementCreate]
          refine ⟨_, rfl, ?_⟩
          intro m hm
          rw [List.mem_singleton] at hm
          subst hm
          show 0 < mathAbs (body.qty - oldRow.qty)
          unfold mathAbs
          split <;> omega

theorem postInventory_appends (user : Nat) (body : NewItemBody) (fault : Option String)
    (s : Store) :
    Appends (fun m => m.quantity = body.qty) s (postInventory user body fault s).1 := by
  rw [postInventory]
  split
  · exact appends_refl _ s
  · cases fault with
    | some e => exact appends_of_eq rfl
    | none =>
      simp only [logStockMovement, stockMovementCreate, InventoryManagement.logAudit,
        auditCreate]
      refine ⟨_, rfl, ?_⟩
      intro m hm
      rw [List.mem_singleton] at hm
      subst hm
      rfl

theorem receiveItem_appends (user poId now : Nat) (item : POItem) (s s' : Store)
    (h : receiveItem user poId now item s = .ok s') :
    Appends (fun m => m.quantity = item.quantity) s s' := by
  unfold receiveItem at h
  cases hex : s.inventory.any (fun r => r.id == item.product_id) with
  | false => simp [hex] at h
  | true =>
    simp only [hex, if_true, stockMovementCreate, Except.ok.injEq] at h
    subst h
    refine ⟨_, rfl, ?_⟩
    intro m hm
    rw [List.mem_singleton] at hm
    subst hm
    rfl

theorem receiveItems_appends (user poId now : Nat) (items : List POItem) :
    ∀ (s s' : Store), receiveItems user poId now items s = .ok s' →
      Appends (fun m => ∃ it ∈ items, m.quantity = it.quantity) s s' := by
  induction items with
  | nil =>
    intro s s' h
    simp only [receiveItems, Except.ok.injEq] at h
    subst h
    exact appends_refl _ s
  | cons item rest ih =>
    intro s s' h
    rw [receiveItems] at h
    cases h1 : receiveItem user poId now item s with
    | error e => simp [h1] at h
    | ok s1 =>
      simp only [h1] at h
      refine appends_trans
        (appends_mono (receiveItem_appends _ _ _ _ _ _ h1)
          (fun m hm => ⟨item, List.mem_cons_self _ _, hm⟩))
        (appends_mono (ih s1 s' h) ?_)
      rintro m ⟨it, hit, hm⟩
      exact ⟨it, List.mem_cons_of_mem _ hit, hm⟩

theorem receiveTx_appends (user poId now : Nat) (items : List POItem) (s : Store)
    (r : Store × Unit) (h : receiveTx user poId now items s = .ok r) :
    Appends (fun m => ∃ it ∈ items, m.quantity = it.quantity) s r.1 := by
  unfold receiveTx at h
  cases h1 : receiveItems user poId now items s with
  | error e => simp [h1] at h
  | ok s1 =>
    simp only [h1, purchaseOrderSetStatus] at h
    by_cases hpo : s1.purchaseOrders.any (fun po => po.id == poId) = true
    · simp only [hpo, if_true, Except.ok.injEq] at h
      subst h
      exact appends_trans (receiveItems_appends _ _ _ _ _ _ h1) (appends_of_eq rfl)
    · simp [hpo] at h

theorem receivePurchaseOrder_appends (user poId now : Nat) (s : Store) :
    Appends (fun m => ∃ it ∈ s.poItems, it.po_id = poId ∧ m.quantity = it.quantity) s
      (receivePurchaseOrder user poId now s).1 := by
  rw [receivePurchaseOrder]
  split
  · exact appends_refl _ s
  · cases htx : receiveTx user poId now (s.poItems.filter (fun it => it.po_id == poId)) s with
    | error e => simp only [transaction, htx]; exact appends_refl _ s
    | ok r =>
      simp only [transaction, htx]
      refine appends_logAudit (appends_mono (receiveTx_appends _ _ _ _ _ _ htx) ?_) _ _ _ _
      rintro m ⟨it, hit, hm⟩
      rw [List.mem_filter] at hit
      exact ⟨it, hit.1, by simpa using hit.2, hm⟩

theorem putLog_ledger (user id : Nat) (body : LogBody) (s : Store) :
    (putLog user id body s).1.stockMovements = s.stockMovements := by
  rw [putLog]
  split <;> rfl

theorem triggerReorder_ledger (user : Nat) (poNumber : Nat → String) (s : Store) :
    (triggerReorder user poNumber s).1.stockMovements = s.stockMovements := by
  have key := (autoGenerate_frame poNumber s).2.1
  rw [triggerReorder]
  cases h : autoGeneratePurchaseOrders poNumber s with
  | mk s' r =>
    rw [h] at key
    cases r <;> exact key

theorem deleteInventory_ledger (user id : Nat) (s : Store) :
    (deleteInventory .noAction user id s).1.stockMovements = s.stockMovements := by
  rw [deleteInventory]
  split
  · rfl
  · split <;> rfl

theorem deleteUser_ledger (user userId : Nat) (s : Store) :
    (deleteUser .noAction user userId s).1.stockMovements = s.stockMovements := by
  rw [deleteUser]
  split
  · rfl
  · split
    · rfl
    · split <;> rfl

theorem apply_appends (req : Request) (hreq : req.keepsLedger = true) (s : Store) :
    Appends (fun _ => True) s (req.apply s) := by
  cases req with
  | stock op =>
    cases op with
    | maintenance user body fault =>
      exact appends_mono (postMaintenance_appends user body fault s) (fun _ _ => trivial)
    | deleteLog user id => exact appends_mono (deleteLog_appends user id s) (fun _ _ => trivial)
    | receive user poId now =>
      exact appends_mono (receivePurchaseOrder_appends user poId now s) (fun _ _ => trivial)
    | update user id body fault =>
      exact appends_mono (putInventory_appends user id body fault s) (fun _ _ => trivial)
  | deleteItem onDelete user id =>
    cases onDelete with
    | noAction => exact appends_of_eq (deleteInventory_ledger user id s)
    | cascade => simp [Request.keepsLedger] at hreq
  | deleteUser onDelete user userId =>
    cases onDelete with
    | noAction => exact appends_of_eq (deleteUser_ledger user userId s)
    | cascade => simp [Request.keepsLedger] at hreq
  | backup => exact appends_refl _ s
  | restore saved => simp [Request.keepsLedger] at hreq
  | createItem user body fault =>
    exact appends_mono (postInventory_appends user body fault s) (fun _ _ => trivial)
  | updateLog user id body => exact appends_of_eq (putLog_ledger user id body s)
  | lowStock => exact appends_refl _ s
  | reorder user poNumber => exact appends_of_eq (triggerReorder_ledger user poNumber s)

theorem runRequests_appends (reqs : List Request)
    (hreqs : ∀ req ∈ reqs, req.keepsLedger = true) :
    ∀ s : Store, Appends (fun _ => True) s (runRequests reqs s) := by
  induction reqs with
  | nil => intro s; exact appends_refl _ s
  | cons req reqs ih =>
    intro s
    exact appends_trans (apply_appends req (hreqs req (List.mem_cons_self _ _)) s)
      (ih (fun r hr => hreqs r (List.mem_cons_of_mem _ hr)) (req.apply s))

/-- Claim C27 (counterexample).  Registering a part with quantity 0 writes an INITIAL
movement whose quantity is 0, which is not positive. -/
theorem initial_movement_of_zero :
    (appended sampleStore (postInventory 7 emptyShelf none sampleStore).1).map
        (fun m => (m.movement_type, m.reference_type, m.quantity)) = [("IN", "INITIAL", 0)] ∧
      ¬ ∀ m ∈ appended sampleStore (postInventory 7 emptyShelf none sampleStore).1,
        0 < m.quantity := by
  decide

/-- Claim C27 (amended).  The movements written by a maintenance creation, by the
deletion of a maintenance log and by a manual inventory update have a positive quantity
for every input; the movement written by an inventory creation carries the quantity of
the request, and a movement written by a receipt carries the quantity of a line of the
order received, whatever their sign.  A request whose ledger insert the store rejects
writes no movement. -/
theorem movement_quantities (user : Nat) (s : Store) :
    (∀ body fault, ∀ m ∈ appended s (postMaintenance user body fault s).1, 0 < m.quantity) ∧
      (∀ id, ∀ m ∈ appended s (deleteLog user id s).1, 0 < m.quantity) ∧
      (∀ id body fault, ∀ m ∈ appended s (putInventory user id body fault s).1,
        0 < m.quantity) ∧
      (∀ body fault, ∀ m ∈ appended s (postInventory user body fault s).1,
        m.quantity = body.qty) ∧
      ∀ poId now, ∀ m ∈ appended s (receivePurchaseOrder user poId now s).1,
        ∃ it ∈ s.poItems, it.po_id = poId ∧ m.quantity = it.quantity :=
  ⟨fun body fault => (appended_of_appends (postMaintenance_appends user body fault s)).2,
    fun id => (appended_of_appends (deleteLog_appends user id s)).2,
    fun id body fault => (appended_of_appends (putInventory_appends user id body fault s)).2,
    fun body fault => (appended_of_appends (postInventory_appends user body fault s)).2,
    fun poId now => (appended_of_appends (receivePurchaseOrder_appends user poId now s)).2⟩

/-- Claim C28 (counterexample).  A backup is taken of the sample store, a maintenance
creation then appends a movement, and the backup is restored: the ledger is empty again,
so the ledger before the restore is not an initial segment of the ledger after it. -/
theorem restore_drops_movements :
    (postMaintenance 7 sampleBody none sampleStore).1.stockMovements.length = 1 ∧
      (restoreBackup (some sampleStore)
        (postMaintenance 7 sampleBody none sampleStore).1).2 = .message "Database restored" ∧
      (restoreBackup (some sampleStore)
        (postMaintenance 7 sampleBody none sampleStore).1).1.stockMovements = [] ∧
      ¬ ((postMaintenance 7 sampleBody none sampleStore).1.stockMovements <+:
        (runRequests [.restore (some sampleStore)]
          (postMaintenance 7 sampleBody none sampleStore).1).stockMovements) := by
  decide

/-- Claim C28 (amended).  The ledger is append-only for every request other than the
restore of a backup, the foreign keys having no cascading action: after any sequence of
such requests (maintenance creation, log deletion and update, receipt, inventory
creation, update and deletion, user deletion, low-stock query, reorder, backup) the
ledger before it is an initial segment of the ledger after it, so no row is changed or
removed; this holds in particular for the deletion of a maintenance log, whose movements
stay, and for the ledger helper itself. -/
theorem ledger_append_only (reqs : List Request)
    (hreqs : ∀ req ∈ reqs, req.keepsLedger = true) (s : Store) :
    s.stockMovements <+: (runRequests reqs s).stockMovements ∧
      (∀ user id, s.stockMovements <+: (deleteLog user id s).1.stockMovements) ∧
      ∀ productId movementType quantity referenceType referenceId performedBy notes,
        s.stockMovements <+: (logStockMovement productId movementType quantity referenceType
          referenceId performedBy notes s).1.stockMovements := by
  refine ⟨?_, ?_, ?_⟩
  · obtain ⟨ms, e, -⟩ := runRequests_appends reqs hreqs s
    exact ⟨ms, e.symm⟩
  · intro user id
    obtain ⟨ms, e, -⟩ := deleteLog_appends user id s
    exact ⟨ms, e.symm⟩
  · intro productId movementType quantity referenceType referenceId performedBy notes
    exact ⟨_, rfl⟩

/-- Claim C28 at the sample store: a maintenance creation, the deletion of its log, a
refused deletion of the part, a backup and the deletion of a user leave the ledger of
one earlier movement extended to three movements. -/
theorem ledger_append_only_witness :
    (∀ req ∈ ledgerRequests, req.keepsLedger = true) ∧
      (runRequests ledgerRequests ledgerStore).stockMovements.length = 3 ∧
      (runRequests ledgerRequests ledgerStore).users = [7] ∧
      (runRequests ledgerRequests ledgerStore).inventory.length = 2 ∧
      ledgerStore.stockMovements <+: (runRequests ledgerRequests ledgerStore).stockMovements :=
  ⟨by decide, by decide, by decide, by decide,
    (ledger_append_only ledgerRequests (by decide) ledgerStore).1⟩

/-! ## Receiving an order twice -/

theorem any_id_iff_qtyOf (s : Store) (id : Nat) :
    s.inventory.any (fun r => r.id == id) = (qtyOf s id).isSome := by
  simp only [qtyOf, findById, Option.isSome_map']
  rw [Bool.eq_iff_iff, List.any_eq_true, List.find?_isSome]

/-- The receipt of an order with lines, whose products and whose row exist. -/
theorem receivePurchaseOrder_ok (user poId now : Nat) (s : Store)
    (hitems : s.poItems.filter (fun it => it.po_id == poId) ≠ [])
    (hprod : ∀ it ∈ s.poItems, it.po_id = poId →
      s.inventory.any (fun r => r.id == it.product_id) = true)
    (hpo : s.purchaseOrders.any (fun po => po.id == poId) = true) :
    (receivePurchaseOrder user poId now s).2 = .message "PO received, inventory updated" ∧
      (∀ id, qtyOf (receivePurchaseOrder user poId now s).1 id =
        (qtyOf s id).map
          (fun q => q + sumQty id (s.poItems.filter (fun it => it.po_id == poId)))) ∧
      (∃ ms : List StockMovement,
        (receivePurchaseOrder user poId now s).1.stockMovements = s.stockMovements ++ ms ∧
          List.Forall₂ (ReceiptOf user poId)
            (s.poItems.filter (fun it => it.po_id == poId)) ms) ∧
      (receivePurchaseOrder user poId now s).1.poItems = s.poItems ∧
      (receivePurchaseOrder user poId now s).1.purchaseOrders =
        s.purchaseOrders.map
          (fun po => if po.id == poId then { po with status := "Received" } else po) := by
  have hall : ∀ it ∈ s.poItems.filter (fun it => it.po_id == poId),
      s.inventory.any (fun r => r.id == it.product_id) = true := by
    intro it hit
    rw [List.mem_filter] at hit
    exact hprod it hit.1 (by simpa using hit.2)
  obtain ⟨s', ms, hrun, hmv, hrec, hq, hpos, hpi, -, -⟩ :=
    receiveItems_ok user poId now _ s hall
  have hany : s'.purchaseOrders.any (fun po => po.id == poId) = true := by
    rw [hpos]; exact hpo
  have hne : (s.poItems.filter (fun it => it.po_id == poId)).isEmpty = false := by
    cases h : s.poItems.filter (fun it => it.po_id == poId) with
    | nil => exact absurd h hitems
    | cons _ _ => rfl
  have hres : receivePurchaseOrder user poId now s =
      (logAudit user "RECEIVE_PO" "purchase_orders" (some poId)
        { s' with
          purchaseOrders := s'.purchaseOrders.map (fun po =>
            if po.id == poId then { po with status := "Received" } else po) },
        .message "PO received, inventory updated") := by
    simp [receivePurchaseOrder, hne, transaction, receiveTx, hrun, purchaseOrderSetStatus, hany]
  refine ⟨by rw [hres], fun id => ?_, ⟨ms, ?_, hrec⟩, ?_, ?_⟩
  · rw [hres]; exact hq id
  · rw [hres]; exact hmv
  · rw [hres]; exact hpi
  · rw [hres]
    simp only [logAudit, auditCreate, hpos]

theorem any_po_map_status (pos : List PurchaseOrder) (poId : Nat) (st : String) :
    (pos.map (fun po => if po.id == poId then { po with status := st } else po)).any
      (fun po => po.id == poId) = pos.any (fun po => po.id == poId) := by
  induction pos with
  | nil => rfl
  | cons po rest ih =>
    simp only [List.map_cons, List.any_cons, ih]
    congr 1
    split <;> rfl

/-- Claim C29.  The receipt does not look at the status of the order.  With the status
of the order set to any value (Received, Cancelled, ...) beforehand, the receipt succeeds
and raises every quantity by the order's lines as it does for a Draft; and a second
receipt of the same order succeeds again, appends one more IN movement per line, and
leaves every quantity raised by twice the sum of the order's lines for the product. -/
theorem receive_ignores_status (user poId now now' : Nat) (s : Store)
    (hitems : s.poItems.filter (fun it => it.po_id == poId) ≠ [])
    (hprod : ∀ it ∈ s.poItems, it.po_id = poId → ∃ r ∈ s.inventory, r.id = it.product_id)
    (hpo : ∃ po ∈ s.purchaseOrders, po.id = poId) :
    (∀ st : String,
      (receivePurchaseOrder user poId now
        { s with
          purchaseOrders := s.purchaseOrders.map (fun po =>
            if po.id == poId then { po with status := st } else po) }).2 =
          .message "PO received, inventory updated" ∧
        ∀ id, qtyOf (receivePurchaseOrder user poId now
          { s with
            purchaseOrders := s.purchaseOrders.map (fun po =>
              if po.id == poId then { po with status := st } else po) }).1 id =
          (qtyOf s id).map
            (fun q => q + sumQty id (s.poItems.filter (fun it => it.po_id == poId)))) ∧
      (∀ po ∈ (receivePurchaseOrder user poId now s).1.purchaseOrders,
        po.id = poId → po.status = "Received") ∧
      (receivePurchaseOrder user poId now' (receivePurchaseOrder user poId now s).1).2 =
        .message "PO received, inventory updated" ∧
      (∀ id, qtyOf
          (receivePurchaseOrder user poId now' (receivePurchaseOrder user poId now s).1).1 id =
        (qtyOf s id).map
          (fun q => q + 2 * sumQty id (s.poItems.filter (fun it => it.po_id == poId)))) ∧
      ∃ ms₁ ms₂ : List StockMovement,
        (receivePurchaseOrder user poId now'
          (receivePurchaseOrder user poId now s).1).1.stockMovements =
            s.stockMovements ++ ms₁ ++ ms₂ ∧
          List.Forall₂ (ReceiptOf user poId)
            (s.poItems.filter (fun it => it.po_id == poId)) ms₁ ∧
          List.Forall₂ (ReceiptOf user poId)
            (s.poItems.filter (fun it => it.po_id == poId)) ms₂ := by
  have hprod' : ∀ it ∈ s.poItems, it.po_id = poId →
      s.inventory.any (fun r => r.id == it.product_id) = true := by
    intro it hit hid
    obtain ⟨r, hr, hrid⟩ := hprod it hit hid
    rw [List.any_eq_true]
    exact ⟨r, hr, by simp [hrid]⟩
  have hpo' : s.purchaseOrders.any (fun po => po.id == poId) = true := by
    rw [List.any_eq_true]
    obtain ⟨po, hpo1, hpo2⟩ := hpo
    exact ⟨po, hpo1, by simp [hpo2]⟩
  obtain ⟨hr1, hq1, ⟨ms₁, hm1, hf1⟩, hpi1, hpos1⟩ :=
    receivePurchaseOrder_ok user poId now s hitems hprod' hpo'
  have hprod1 : ∀ it ∈ (receivePurchaseOrder user poId now s).1.poItems, it.po_id = poId →
      (receivePurchaseOrder user poId now s).1.inventory.any
        (fun r => r.id == it.product_id) = true := by
    intro it hit hid
    rw [hpi1] at hit
    have h := hprod' it hit hid
    rw [any_id_iff_qtyOf] at h ⊢
    rw [hq1]
    simpa using h
  have hpo1 : (receivePurchaseOrder user poId now s).1.purchaseOrders.any
      (fun po => po.id == poId) = true := by
    rw [hpos1, any_po_map_status]; exact hpo'
  obtain ⟨hr2, hq2, ⟨ms₂, hm2, hf2⟩, -, -⟩ :=
    receivePurchaseOrder_ok user poId now' (receivePurchaseOrder user poId now s).1
      (by rw [hpi1]; exact hitems) hprod1 hpo1
  rw [hpi1] at hq2 hf2
  refine ⟨fun st => ?_, ?_, hr2, fun id => ?_, ms₁, ms₂, by rw [hm2, hm1], hf1, hf2⟩
  · obtain ⟨hr, hq, -, -, -⟩ := receivePurchaseOrder_ok user poId now
      { s with
        purchaseOrders := s.purchaseOrders.map (fun po =>
          if po.id == poId then { po with status := st } else po) }
      hitems hprod' (by simp only; rw [any_po_map_status]; exact hpo')
    exact ⟨hr, hq⟩
  · intro po hmem hid
    rw [hpos1, List.mem_map] at hmem
    obtain ⟨po0, -, rfl⟩ := hmem
    by_cases h0 : po0.id = poId
    · simp [h0]
    · have : (if (po0.id == poId) = true then { po0 with status := "Received" } else po0) =
          po0 := by simp [h0]
      rw [this] at hid
      exact absurd hid h0
  · rw [hq2, hq1, Option.map_map]
    congr 1
    funext q
    simp only [Function.comp]
    ring

/-- Claim C29 at the sample store: two receipts of the order with lines of 5 and 10 take
the two parts from 5 and 50 to 15 and 70 and write four movements. -/
theorem receive_ignores_status_witness :
    sampleStore.poItems.filter (fun it => it.po_id == 1) ≠ [] ∧
      (∀ it ∈ sampleStore.poItems, it.po_id = 1 →
        ∃ r ∈ sampleStore.inventory, r.id = it.product_id) ∧
      (∃ po ∈ sampleStore.purchaseOrders, po.id = 1) ∧
      qtyOf (receivePurchaseOrder 7 1 200 (receivePurchaseOrder 7 1 100 sampleStore).1).1 1 =
        some 15 ∧
      qtyOf (receivePurchaseOrder 7 1 200 (receivePurchaseOrder 7 1 100 sampleStore).1).1 2 =
        some 70 ∧
      (receivePurchaseOrder 7 1 200
        (receivePurchaseOrder 7 1 100 sampleStore).1).1.stockMovements.length = 4 ∧
      (receivePurchaseOrder 7 1 200 (receivePurchaseOrder 7 1 100 sampleStore).1).2 =
        .message "PO received, inventory updated" :=
  ⟨by decide, by decide, by decide, by decide, by decide, by decide,
    (receive_ignores_status 7 1 100 200 sampleStore (by decide) (by decide) (by decide)).2.2.1⟩

/-! ## Updating a log before its deletion -/

theorem find_log_map_fresh (logs : List Log) (l : Log) (f : Log → Log)
    (hf : (f l).id = l.id) (hfresh : ∀ x ∈ logs, x.id ≠ l.id) :
    ((logs ++ [l]).map (fun x => if x.id == l.id then f x else x)).find?
      (fun x => x.id == l.id) = some (f l) := by
  rw [List.map_append, List.find?_append]
  have : (logs.map (fun x => if x.id == l.id then f x else x)).find?
      (fun x => x.id == l.id) = none := by
    rw [List.find?_eq_none]
    intro x hx
    rw [List.mem_map] at hx
    obtain ⟨x0, hx0, rfl⟩ := hx
    have h0 := hfresh x0 hx0
    simp [h0]
  rw [this]
  simp [hf]

theorem qtyOf_map_add (s : Store) (p : Nat) (g : Inventory → Inventory) (δ : Int)
    (hgid : ∀ r, (g r).id = r.id) (hq : ∀ r, (g r).qty = r.qty + δ) :
    ((s.inventory.map (fun r => if r.id == p then g r else r)).find?
      (fun r => r.id == p)).map (fun r => r.qty) = (qtyOf s p).map (fun q => q + δ) := by
  rw [findById_map s _ (fun r => by split <;> simp [hgid]) p, qtyOf]
  cases hfi : findById s p with
  | none => rfl
  | some r =>
    have hri : r.id = p := by
      have := @List.find?_some _ (fun r : Inventory => r.id == p) _ _ hfi
      simpa using this
    simp [hri, hq]

/-- The inventory after a "Replaced" creation, an update of the new log and its
deletion: the deduction stays, and the stored quantity of the updated log is added back
when the updated log still meets the condition of the reversal. -/
theorem create_update_delete (s : Store) (user admin : Nat) (body : MaintenanceBody)
    (name : String) (item : Inventory) (upd : LogBody)
    (hfresh : ∀ l ∈ s.logs, l.id ≠ s.nextLogId) (hid : item.id ≠ 0)
    (heng : truthyStr body.engineer = true) (hact : body.action = some "Replaced")
    (hname : targetItemName body.spare_part_used = some name) (hne : name ≠ "")
    (hitem : findByName s name = some item) :
    qtyOf (deleteLog admin s.nextLogId
        (putLog admin s.nextLogId upd (postMaintenance user body none s).1).1).1 item.id =
      (qtyOf s item.id).map (fun q₀ => q₀ - qtyUsed body.quantity +
        (if 0 < upd.qty_used ∧ upd.action.getD "Replaced" = "Replaced" then upd.qty_used
          else 0)) := by
  rw [postMaintenance_replaced user body name item s heng hact hname hne hitem]
  set newLog : Log :=
    { newLogData body (some item.id) (qtyUsed body.quantity) with id := s.nextLogId } with hnl
  have hany : (s.logs ++ [newLog]).any (fun l => l.id == s.nextLogId) = true := by
    rw [List.any_eq_true]
    exact ⟨newLog, by simp, by simp [hnl]⟩
  have hfind := find_log_map_fresh s.logs newLog (updatedLog upd) rfl
    (fun x hx => hfresh x hx)
  have hex : (s.inventory.map (fun r =>
      if r.id == item.id then { r with qty := r.qty - qtyUsed body.quantity } else r)).any
        (fun r => r.id == item.id) = true := by
    rw [any_id_map _ _ (fun r => by split <;> rfl)]
    exact any_id_of_findByName hitem
  have hdec := qtyOf_map_add s item.id
    (fun r => { r with qty := r.qty - qtyUsed body.quantity }) (-qtyUsed body.quantity)
    (fun _ => rfl) (fun r => by simp; ring)
  have hput : putLog admin s.nextLogId upd
      (logAudit user "CREATE" "logs" (some s.nextLogId)
        { s with
          inventory := s.inventory.map (fun r =>
            if r.id == item.id then { r with qty := r.qty - qtyUsed body.quantity } else r)
          stockMovements := s.stockMovements ++
            [{ id := s.nextMovementId, product_id := item.id, movement_type := "OUT",
               quantity := qtyUsed body.quantity, reference_type := "MAINTENANCE",
               reference_id := none, performed_by := user,
               notes := some ("Maintenance: " ++ body.action.getD "") }]
          nextMovementId := s.nextMovementId + 1
          logs := s.logs ++ [newLog]
          nextLogId := s.nextLogId + 1 }) =
      (logAudit admin "UPDATE" "logs" (some s.nextLogId)
        { logAudit user "CREATE" "logs" (some s.nextLogId)
          { s with
            inventory := s.inventory.map (fun r =>
              if r.id == item.id then { r with qty := r.qty - qtyUsed body.quantity } else r)
            stockMovements := s.stockMovements ++
              [{ id := s.nextMovementId, product_id := item.id, movement_type := "OUT",
                 quantity := qtyUsed body.quantity, reference_type := "MAINTENANCE",
                 reference_id := none, performed_by := user,
                 notes := some ("Maintenance: " ++ body.action.getD "") }]
            nextMovementId := s.nextMovementId + 1
            logs := s.logs ++ [newLog]
            nextLogId := s.nextLogId + 1 } with
          logs := (s.logs ++ [newLog]).map
            (fun l => if l.id == s.nextLogId then updatedLog upd l else l) },
        .changed "Log updated" 1) := by
    rw [putLog]
    simp only [logAudit, auditCreate]
    rw [if_pos hany]
  rw [hput]
  simp only [logAudit, auditCreate]
  by_cases hrev : reversesStock (updatedLog upd newLog) = true
  · rw [deleteLog_reverses admin s.nextLogId _ (updatedLog upd newLog) item.id hfind hrev rfl
      hex]
    have hcond : 0 < upd.qty_used ∧ upd.action.getD "Replaced" = "Replaced" := by
      simp only [reversesStock, Bool.and_eq_true, decide_eq_true_eq] at hrev
      refine ⟨hrev.1.2, ?_⟩
      have h2 := hrev.2
      simp only [updatedLog, hnl, newLogData, hact, Option.getD_some] at h2
      simpa using h2
    rw [if_pos hcond]
    have hinc := qtyOf_map_add
      { s with
        inventory := s.inventory.map (fun r =>
          if r.id == item.id then { r with qty := r.qty - qtyUsed body.quantity } else r) }
      item.id (fun r => { r with qty := r.qty + (updatedLog upd newLog).qty_used })
      upd.qty_used (fun _ => rfl) (fun r => rfl)
    simp only [qtyOf, findById] at hinc hdec ⊢
    rw [hinc, hdec, Option.map_map]
    congr 1
  · have hrev' : reversesStock (updatedLog upd newLog) = false := by simpa using hrev
    rw [deleteLog_plain admin s.nextLogId _ (updatedLog upd newLog) hfind hrev']
    have hcond : ¬ (0 < upd.qty_used ∧ upd.action.getD "Replaced" = "Replaced") := by
      rintro ⟨h1, h2⟩
      apply hrev
      simp only [reversesStock, Bool.and_eq_true, decide_eq_true_eq]
      refine ⟨⟨by simp [updatedLog, hnl, newLogData, truthyId, hid], h1⟩, ?_⟩
      simp only [updatedLog, hnl, newLogData, hact, Option.getD_some]
      simpa using h2
    rw [if_neg hcond]
    simp only [qtyOf, findById] at hdec ⊢
    rw [hdec]
    congr 1
    funext q
    ring

/-- Claim C30 (counterexample).  Three of five bearings are deducted, the log's
`qty_used` is updated to -2 and the log is deleted: the deletion restores nothing and two
bearings remain, where initial + (q' - q) would be 5 + (-2 - 3) = 0. -/
theorem negative_update_restores_nothing :
    qtyOf sampleStore 1 = some 5 ∧
      qtyOf (postMaintenance 7 sampleBody none sampleStore).1 1 = some 2 ∧
      qtyOf (deleteLog 9 3
        (putLog 9 3 negativeUpdate (postMaintenance 7 sampleBody none sampleStore).1).1).1 1 =
          some 2 ∧
      qtyOf (deleteLog 9 3
        (putLog 9 3 negativeUpdate (postMaintenance 7 sampleBody none sampleStore).1).1).1 1 ≠
          some (5 + (negativeUpdate.qty_used - qtyUsed sampleBody.quantity)) := by
  decide

/-- Claim C30 (amended).  A "Replaced" creation deducts q from part P; the new log is then
updated and deleted.  If the update keeps the action "Replaced" and stores a quantity
q' ≥ 0, P's quantity ends at its initial value + (q' - q); if it stores a negative q',
or changes the action to a value other than "Replaced", the deletion restores nothing
and P's quantity stays at its initial value - q. -/
theorem update_then_delete (s : Store) (user admin : Nat) (body : MaintenanceBody)
    (name : String) (item : Inventory) (upd : LogBody)
    (hfresh : ∀ l ∈ s.logs, l.id ≠ s.nextLogId) (hid : item.id ≠ 0)
    (heng : truthyStr body.engineer = true) (hact : body.action = some "Replaced")
    (hname : targetItemName body.spare_part_used = some name) (hne : name ≠ "")
    (hitem : findByName s name = some item) :
    ∃ q₀ : Int, qtyOf s item.id = some q₀ ∧
      qtyOf (postMaintenance user body none s).1 item.id = some (q₀ - qtyUsed body.quantity) ∧
      ((upd.action = none ∨ upd.action = some "Replaced") → 0 ≤ upd.qty_used →
        qtyOf (deleteLog admin s.nextLogId
          (putLog admin s.nextLogId upd (postMaintenance user body none s).1).1).1 item.id =
            some (q₀ + (upd.qty_used - qtyUsed body.quantity))) ∧
      (upd.qty_used < 0 →
        qtyOf (deleteLog admin s.nextLogId
          (putLog admin s.nextLogId upd (postMaintenance user body none s).1).1).1 item.id =
            some (q₀ - qtyUsed body.quantity)) ∧
      (∀ a, upd.action = some a → a ≠ "Replaced" →
        qtyOf (deleteLog admin s.nextLogId
          (putLog admin s.nextLogId upd (postMaintenance user body none s).1).1).1 item.id =
            some (q₀ - qtyUsed body.quantity)) := by
  have hsome : (qtyOf s item.id).isSome = true := by
    rw [← any_id_iff_qtyOf]; exact any_id_of_findByName hitem
  obtain ⟨q₀, hq₀⟩ := Option.isSome_iff_exists.1 hsome
  have hfinal := create_update_delete s user admin body name item upd hfresh hid heng hact
    hname hne hitem
  rw [hq₀] at hfinal
  refine ⟨q₀, hq₀, ?_, ?_, ?_, ?_⟩
  · rw [postMaintenance_replaced user body name item s heng hact hname hne hitem]
    have hdec := qtyOf_map_add s item.id
      (fun r => { r with qty := r.qty - qtyUsed body.quantity }) (-qtyUsed body.quantity)
      (fun _ => rfl) (fun r => by simp; ring)
    rw [hq₀] at hdec
    simp only [logAudit, auditCreate, qtyOf, findById] at hdec ⊢
    rw [hdec]
    simp only [Option.map_some', Option.some.injEq]
    ring
  · intro ha hq
    rw [hfinal]
    have hg : upd.action.getD "Replaced" = "Replaced" := by
      rcases ha with h | h <;> simp [h]
    simp only [Option.map_some', Option.some.injEq, hg, and_true]
    split <;> omega
  · intro hq
    rw [hfinal]
    have : ¬ (0 < upd.qty_used ∧ upd.action.getD "Replaced" = "Replaced") := by
      rintro ⟨h, -⟩; omega
    simp only [Option.map_some', Option.some.injEq, if_neg this]
    ring
  · intro a ha hne'
    rw [hfinal]
    have : ¬ (0 < upd.qty_used ∧ upd.action.getD "Replaced" = "Replaced") := by
      rintro ⟨-, h⟩
      rw [ha] at h
      exact hne' (by simpa using h)
    simp only [Option.map_some', Option.some.injEq, if_neg this]
    ring

/-- Claim C30 at the sample store: three of five bearings are deducted; with the log
updated to a quantity of four its deletion leaves six, and with the log updated to the
action "Inspected" its deletion leaves two. -/
theorem update_then_delete_witness :
    (∀ l ∈ sampleStore.logs, l.id ≠ sampleStore.nextLogId) ∧ sampleItem.id ≠ 0 ∧
      truthyStr sampleBody.engineer = true ∧ sampleBody.action = some "Replaced" ∧
      targetItemName sampleBody.spare_part_used = some "Bearing SKF 6205" ∧
      findByName sampleStore "Bearing SKF 6205" = some sampleItem ∧
      qtyOf sampleStore 1 = some 5 ∧ qtyUsed sampleBody.quantity = 3 ∧
      qtyOf (deleteLog 9 3
        (putLog 9 3 largerUpdate (postMaintenance 7 sampleBody none sampleStore).1).1).1 1 =
          some 6 ∧
      qtyOf (deleteLog 9 3
        (putLog 9 3 inspectedUpdate (postMaintenance 7 sampleBody none sampleStore).1).1).1 1 =
          some 2 ∧
      ∃ q₀ : Int, qtyOf sampleStore sampleItem.id = some q₀ ∧
        qtyOf (postMaintenance 7 sampleBody none sampleStore).1 sampleItem.id =
          some (q₀ - qtyUsed sampleBody.quantity) :=
  ⟨by decide, by decide, by decide, by decide, by decide, by decide, by decide, by decide,
    by decide, by decide,
    (update_then_delete sampleStore 7 9 sampleBody "Bearing SKF 6205" sampleItem largerUpdate
      (by decide) (by decide) (by decide) (by decide) (by decide) (by decide)
      (by decide)).imp (fun _ h => ⟨h.1, h.2.1⟩)⟩

end InventoryManagement
